import Mathlib

/-!
Shallow embedding of the Pithos sqlite node/version store
(`pithos/backends/lib/sqlite/node.py`).

Tables become Lean data:
  * `nodes(node PK, parent, path UNIQUE)`        -> `List NodeRow`
  * `versions(serial PK, node, hash, size, source, mtime, muser, cluster)`
                                                  -> `List Version`
  * `attributes(serial, key, value, PK(serial,key))` -> `List AttrRow`
  * `statistics(node, cluster, population, size, mtime, PK(node,cluster))`
                                                  -> a function keyed by the
                                                    primary key, `Stats`

Paths are sequences of unicode code points (`List Nat`), matching the
byte/code-point lexicographic TEXT comparison sqlite performs and the
`strnextling`/`strprevling` arithmetic of the source.  `mtime` values are
modelled as `Int` (only their ordering matters to the code), sizes and
clusters as `Int`, serials and node ids as `Nat`.  The wall clock `time()`
is passed in explicitly as a `now` argument.  The unbounded `while` loop of
`statistics_update_ancestors` is given fuel `nodes.length + 1`, which is
enough on every acyclic parent structure (the only ones the API can build).
-/

namespace VT

/-- A code-point string, as compared by sqlite TEXT collation. -/
abbrev PathT := List Nat

/-- Row of the `nodes` table. -/
structure NodeRow where
  node   : Nat
  parent : Nat
  path   : PathT
  deriving DecidableEq, Repr

/-- Row of the `versions` table, fields in the source's column order. -/
structure Version where
  serial  : Nat
  node    : Nat
  hash    : String
  size    : Int
  source  : Option Nat
  mtime   : Int
  muser   : String
  cluster : Int
  deriving DecidableEq, Repr

/-- Row of the `attributes` table. -/
structure AttrRow where
  serial : Nat
  key    : String
  value  : String
  deriving DecidableEq, Repr

/-- Value columns of a `statistics` row. -/
structure StatVal where
  population : Int
  size       : Int
  mtime      : Int
  deriving DecidableEq, Repr

/-- The `statistics` table, keyed by its primary key `(node, cluster)`. -/
abbrev Stats := Nat → Int → Option StatVal

/-- The whole store. -/
structure DB where
  nodes      : List NodeRow
  versions   : List Version
  attributes : List AttrRow
  stats      : Stats

/-- `strnextling`: first string greater than, but not starting with, the
given one.  Empty input yields the `0xffff` sentinel; a final code point
`>= 0xffff` raises `RuntimeError` in the source, modelled as `none`. -/
def strnextling (p : PathT) : Option PathT :=
  match p.getLast? with
  | none => some [0xffff]
  | some c => if c ≥ 0xffff then none else some (p.dropLast ++ [c + 1])

/-- `strprevling`: approximation of the last string less than, but not
starting with, the given one. -/
def strprevling (p : PathT) : PathT :=
  match p.getLast? with
  | none => p
  | some c => if c > 0 then p.dropLast ++ [c - 1, 0xffff] else p.dropLast

/-- Strict lexicographic order on code-point strings (sqlite `<` on TEXT). -/
def pathLtB : PathT → PathT → Bool
  | [], [] => false
  | [], _ :: _ => true
  | _ :: _, [] => false
  | a :: as, b :: bs => if a < b then true else if b < a then false else pathLtB as bs

/-- `node_get_properties`: the `(parent, path)` of a node, `None` if absent. -/
def node_get_properties (nodes : List NodeRow) (n : Nat) : Option (Nat × PathT) :=
  (nodes.find? (fun r => r.node == n)).map (fun r => (r.parent, r.path))

/-- `node_count_children`: `count(node) where parent = ? and node != 0`. -/
def node_count_children (nodes : List NodeRow) (n : Nat) : Nat :=
  (nodes.filter (fun r => r.parent == n && r.node != 0)).length

/-- Fuel that over-approximates the length of any acyclic parent chain. -/
def chainFuel (db : DB) : Nat :=
  db.nodes.length + 1

/-- The nodes visited by the `statistics_update_ancestors` loop started at
`n`: the parent of `n`, then grandparent, ..., stopping at the root
sentinel `0` or at a missing node. -/
def ancestorChain (nodes : List NodeRow) : Nat → Nat → List Nat
  | 0, _ => []
  | fuel + 1, n =>
    if n = 0 then []
    else
      match node_get_properties nodes n with
      | none => []
      | some (parent, _) => parent :: ancestorChain nodes fuel parent

/-- `statistics_update`: read the `(population, size)` of `(node, cluster)`
(defaulting to `(0, 0)`), add the deltas, and upsert with the new mtime. -/
def statistics_update (stats : Stats) (node : Nat) (population size mtime cluster : Int) :
    Stats :=
  let pre := match stats node cluster with
    | none => (0, 0)
    | some r => (r.population, r.size)
  fun n c =>
    if n = node ∧ c = cluster then some ⟨pre.1 + population, pre.2 + size, mtime⟩
    else stats n c

/-- `statistics_update_ancestors`: update the parent, then loop upwards with
the population delta zeroed ("Population isn't recursive"). -/
def statistics_update_ancestors (nodes : List NodeRow) (stats : Stats) :
    Nat → Nat → Int → Int → Int → Int → Stats
  | 0, _, _, _, _, _ => stats
  | fuel + 1, node, population, size, mtime, cluster =>
    if node = 0 then stats
    else
      match node_get_properties nodes node with
      | none => stats
      | some (parent, _) =>
        statistics_update_ancestors nodes
          (statistics_update stats parent population size mtime cluster)
          fuel parent 0 size mtime cluster

/-- Max of a list of serials, `none` on the empty list (SQL `max(serial)`
over no rows is NULL). -/
def maxSerialList : List Nat → Option Nat
  | [] => none
  | a :: l =>
    match maxSerialList l with
    | none => some a
    | some b => some (max a b)

/-- `select max(serial) from versions where node = ? and mtime < ?`. -/
def maxSerialBefore (versions : List Version) (node : Nat) (before : Int) : Option Nat :=
  maxSerialList ((versions.filter
    (fun v => v.node == node && decide (v.mtime < before))).map (fun v => v.serial))

/-- `version_lookup`: the row whose serial is the max over
`node = ? and mtime < ?` (cluster NOT constrained in the subquery),
returned only if that row's cluster matches. -/
def version_lookup (db : DB) (node : Nat) (before : Int) (cluster : Int) : Option Version :=
  match maxSerialBefore db.versions node before with
  | none => none
  | some m => db.versions.find? (fun v => v.serial == m && v.cluster == cluster)

/-- `version_get_properties` (whole-row form; the `keys` projection of the
source is a pure field selection and is not needed by any claim). -/
def version_get_properties (db : DB) (serial : Nat) : Option Version :=
  db.versions.find? (fun v => v.serial == serial)

/-- `lastrowid` of the autoincrement `serial` column: one past the max. -/
def nextSerial (db : DB) : Nat :=
  (db.versions.map (fun v => v.serial)).foldr max 0 + 1

/-- `version_create`: insert the row, then add `(+1, +size)` to the
ancestors of `node` for `cluster`.  Returns `(serial, mtime)` as well. -/
def version_create (db : DB) (now : Int) (node : Nat) (hash : String) (size : Int)
    (source : Option Nat) (muser : String) (cluster : Int) : (Nat × Int) × DB :=
  let serial := nextSerial db
  let v : Version := ⟨serial, node, hash, size, source, now, muser, cluster⟩
  let stats := statistics_update_ancestors db.nodes db.stats (chainFuel db)
                 node 1 size now cluster
  ((serial, now), { db with versions := db.versions ++ [v], stats := stats })

/-- `version_recluster`: no-op when the serial is absent or the cluster is
unchanged, otherwise two ancestor walks and the row update. -/
def version_recluster (db : DB) (now : Int) (serial : Nat) (cluster : Int) : DB :=
  match version_get_properties db serial with
  | none => db
  | some props =>
    if cluster = props.cluster then db
    else
      let stats := statistics_update_ancestors db.nodes db.stats (chainFuel db)
                     props.node (-1) (-props.size) now props.cluster
      let stats := statistics_update_ancestors db.nodes stats (chainFuel db)
                     props.node 1 props.size now cluster
      { db with
          versions := db.versions.map
            (fun v => if v.serial == serial then { v with cluster := cluster } else v),
          stats := stats }

/-- `version_remove`: subtract the ancestor contribution, delete the row
(cascading its attributes), return the freed hash. -/
def version_remove (db : DB) (now : Int) (serial : Nat) : Option String × DB :=
  match version_get_properties db serial with
  | none => (none, db)
  | some props =>
    let stats := statistics_update_ancestors db.nodes db.stats (chainFuel db)
                   props.node (-1) (-props.size) now props.cluster
    (some props.hash,
     { db with
         versions := db.versions.filter (fun v => !(v.serial == serial)),
         attributes := db.attributes.filter (fun a => !(a.serial == serial)),
         stats := stats })

/-- Transitive closure of `on delete cascade` from the `roots` node ids:
a node dies when it is a root or some ancestor of it is a root; its
versions, their attributes and its statistics rows die with it. -/
def deadNode (nodes : List NodeRow) (roots : List Nat) (m : Nat) : Bool :=
  roots.contains m ||
    (ancestorChain nodes (nodes.length + 1) m).any (fun p => roots.contains p)

/-- Apply the cascade deletion of the given root nodes to the whole store. -/
def node_delete_cascade (db : DB) (roots : List Nat) : DB :=
  { nodes := db.nodes.filter (fun r => !deadNode db.nodes roots r.node),
    versions := db.versions.filter (fun v => !deadNode db.nodes roots v.node),
    attributes := db.attributes.filter (fun a =>
      !(db.versions.any (fun v => v.serial == a.serial && deadNode db.nodes roots v.node))),
    stats := fun m c => if deadNode db.nodes roots m then none else db.stats m c }

/-- Distinct clusters of a list of versions, in `group by` fashion. -/
def clustersOf (l : List Version) : List Int :=
  (l.map (fun v => v.cluster)).dedup

/-- `node_remove`: `False` when the node has children; otherwise one
ancestor walk per cluster present at the node, then the cascade delete. -/
def node_remove (db : DB) (now : Int) (n : Nat) : Bool × DB :=
  if node_count_children db.nodes n ≠ 0 then (false, db)
  else
    let vs := db.versions.filter (fun v => v.node == n)
    let stats := (clustersOf vs).foldl (fun st c =>
        let grp := vs.filter (fun v => v.cluster == c)
        statistics_update_ancestors db.nodes st (chainFuel db) n
          (-(grp.length : Int)) (-((grp.map (fun v => v.size)).sum)) now c)
      db.stats
    (true, node_delete_cascade { db with stats := stats } [n])

/-- The versions `node_purge` matches: at the node, in the cluster, with
`mtime <= before` (inclusive bound). -/
def purgeMatch (node : Nat) (before cluster : Int) (v : Version) : Bool :=
  v.node == node && v.cluster == cluster && decide (v.mtime ≤ before)

/-- `node_purge`: bulk-delete the node's own matching versions, one
ancestor walk for the summed delta, then drop the node itself when no
version remains at it. -/
def node_purge (db : DB) (now : Int) (node : Nat) (before cluster : Int) :
    List String × DB :=
  let matching := db.versions.filter (purgeMatch node before cluster)
  if matching.isEmpty then ([], db)
  else
    let nr : Int := matching.length
    let sz := (matching.map (fun v => v.size)).sum
    let stats := statistics_update_ancestors db.nodes db.stats (chainFuel db)
                   node (-nr) (-sz) now cluster
    let hashes := matching.map (fun v => v.hash)
    let versions' := db.versions.filter (fun v => !purgeMatch node before cluster v)
    let attrs' := db.attributes.filter (fun a =>
      !(db.versions.any (fun v => v.serial == a.serial && purgeMatch node before cluster v)))
    let db1 : DB := { db with stats := stats, versions := versions', attributes := attrs' }
    let db2 :=
      if db1.nodes.any (fun r => r.node == node) &&
         !(versions'.any (fun v => v.node == node))
      then node_delete_cascade db1 [node] else db1
    (hashes, db2)

/-- Membership of a node in `select node from nodes where parent = ?`. -/
def childOfB (nodes : List NodeRow) (parent : Nat) (m : Nat) : Bool :=
  nodes.any (fun r => r.node == m && r.parent == parent)

/-- The versions `node_purge_children` matches: at a direct child of
`parent`, in the cluster, with `mtime <= before`. -/
def purgeChildMatch (nodes : List NodeRow) (parent : Nat) (before cluster : Int)
    (v : Version) : Bool :=
  childOfB nodes parent v.node && v.cluster == cluster && decide (v.mtime ≤ before)

/-- The nodes pruned at the end of `node_purge_children`: children of
`parent` with no remaining version (no childlessness check). -/
def purgeRoots (nodes : List NodeRow) (parent : Nat) (versions' : List Version) :
    List Nat :=
  (nodes.filter (fun r =>
    r.parent == parent && !(versions'.any (fun v => v.node == r.node)))).map
    (fun r => r.node)

/-- `node_purge_children`: bulk-delete matching versions one level below
`parent`, update `parent`'s own statistics row directly, walk the
ancestors, then prune the versionless children (cascading). -/
def node_purge_children (db : DB) (now : Int) (parent : Nat) (before cluster : Int) :
    List String × DB :=
  let matching := db.versions.filter (purgeChildMatch db.nodes parent before cluster)
  if matching.isEmpty then ([], db)
  else
    let nr : Int := matching.length
    let sz := (matching.map (fun v => v.size)).sum
    let stats := statistics_update db.stats parent (-nr) (-sz) now cluster
    let stats := statistics_update_ancestors db.nodes stats (chainFuel db)
                   parent (-nr) (-sz) now cluster
    let hashes := matching.map (fun v => v.hash)
    let versions' := db.versions.filter
      (fun v => !purgeChildMatch db.nodes parent before cluster v)
    let attrs' := db.attributes.filter (fun a =>
      !(db.versions.any (fun v =>
          v.serial == a.serial && purgeChildMatch db.nodes parent before cluster v)))
    let db1 : DB := { db with stats := stats, versions := versions', attributes := attrs' }
    let db2 := node_delete_cascade db1 (purgeRoots db1.nodes parent versions')
    (hashes, db2)

/-- `attribute_get`: all `(key, value)` pairs of a serial. -/
def attribute_get (db : DB) (serial : Nat) : List (String × String) :=
  (db.attributes.filter (fun a => a.serial == serial)).map (fun a => (a.key, a.value))

/-- One `insert or replace` on the `(serial, key)` primary key. -/
def attr_upsert (attrs : List AttrRow) (serial : Nat) (k v : String) : List AttrRow :=
  if attrs.any (fun a => a.serial == serial && a.key == k) then
    attrs.map (fun a =>
      if a.serial == serial && a.key == k then { a with value := v } else a)
  else attrs ++ [⟨serial, k, v⟩]

/-- `attribute_set`: upsert each given pair. -/
def attribute_set (db : DB) (serial : Nat) (items : List (String × String)) : DB :=
  { db with attributes :=
      items.foldl (fun acc kv => attr_upsert acc serial kv.1 kv.2) db.attributes }

/-- `attribute_copy`: `insert or replace` of `(dest, key, value)` for every
attribute row of `source`. -/
def attribute_copy (db : DB) (source dest : Nat) : DB :=
  let srcRows := db.attributes.filter (fun a => a.serial == source)
  { db with attributes :=
      srcRows.foldl (fun acc a => attr_upsert acc dest a.key a.value) db.attributes }

/-!
Filter-expression parsing (`_parse_filters` and the regex
`(!?)\s*([\w-]+)\s*(==|!=|<=|>=|<|>)?\s*(.*)$`), done structurally over
`List Char` so that everything reduces in the kernel.
-/

/-- Python `\s` on the whitespace the filter strings can contain. -/
def isSpaceChar (c : Char) : Bool :=
  c == ' ' || c == '\t' || c == '\n' || c == '\r'

/-- A character of the regex class `[\w-]` (word characters or dash). -/
def isWordChar (c : Char) : Bool :=
  c.isAlphanum || c == '_' || c == '-'

/-- Split a character list on commas (`filterq.split(',')`). -/
def splitComma : List Char → List (List Char)
  | [] => [[]]
  | c :: rest =>
    let r := splitComma rest
    if c == ',' then [] :: r
    else
      match r with
      | [] => [[c]]
      | t :: ts => (c :: t) :: ts

/-- The operator alternation `(==|!=|<=|>=|<|>)?`, tried in regex order. -/
def matchOp (s : List Char) : Option String × List Char :=
  match s with
  | '=' :: '=' :: r => (some "==", r)
  | '!' :: '=' :: r => (some "!=", r)
  | '<' :: '=' :: r => (some "<=", r)
  | '>' :: '=' :: r => (some ">=", r)
  | '<' :: r => (some "<", r)
  | '>' :: r => (some ">", r)
  | _ => (none, s)

/-- Match one filter term against the groups of `_regexfilter`:
`(neg, key, op, value)`, or `none` when the term has no key. -/
def matchTerm (s : List Char) : Option (Bool × String × Option String × String) :=
  let (neg, s1) := match s with
    | '!' :: rest => (true, rest)
    | _ => (false, s)
  let s2 := s1.dropWhile isSpaceChar
  let key := s2.takeWhile isWordChar
  if key.isEmpty then none
  else
    let s3 := (s2.dropWhile isWordChar).dropWhile isSpaceChar
    let (op, s4) := matchOp s3
    let s5 := s4.dropWhile isSpaceChar
    some (neg, ⟨key⟩, op, ⟨s5⟩)

/-- `_parse_filters`: split on commas and sort each parsable term into the
included / excluded / comparison buckets (unparsable terms are skipped). -/
def parse_filters (filterq : String) :
    List String × List String × List (String × String × String) :=
  (splitComma filterq.data).foldr
    (fun term acc =>
      match matchTerm term with
      | none => acc
      | some (neg, key, op, value) =>
        if neg then (acc.1, key :: acc.2.1, acc.2.2)
        else if value.isEmpty then (key :: acc.1, acc.2.1, acc.2.2)
        else match op with
          | some o => (acc.1, acc.2.1, (key, o, value) :: acc.2.2)
          | none => acc)
    ([], [], [])

/-- Strict lexicographic comparison of strings by code point, the order
sqlite's TEXT comparison gives on the stored values. -/
def strLtB (a b : String) : Bool :=
  go a.data b.data
where
  go : List Char → List Char → Bool
    | [], [] => false
    | [], _ :: _ => true
    | _ :: _, [] => false
    | x :: xs, y :: ys => if x < y then true else if y < x then false else go xs ys

/-- Evaluate one `a.value OP ?` comparison of `_construct_filters`. -/
def applyOp (o : String) (a b : String) : Bool :=
  if o == "==" then a == b
  else if o == "!=" then a != b
  else if o == "<" then strLtB a b
  else if o == ">" then strLtB b a
  else if o == "<=" then !strLtB b a
  else if o == ">=" then !strLtB a b
  else false

/-- The per-attribute-row predicate that the SQL fragment built by
`_construct_filters` imposes on a joined `attributes` row `(key, value)`:
the three buckets are conjoined (each only when nonempty), and the
comparison bucket is an OR over its triples. -/
def rowPred (included excluded : List String) (opers : List (String × String × String))
    (kv : String × String) : Bool :=
  (included.isEmpty || included.contains kv.1) &&
  (excluded.isEmpty || !(excluded.contains kv.1)) &&
  (opers.isEmpty || opers.any (fun kov => kv.1 == kov.1 && applyOp kov.2.1 kv.2 kov.2.2))

/-- Whether a version whose attribute rows are `attrs` satisfies the filter
query: with no parsable term the join on `attributes` is dropped and every
version passes; otherwise some joined attribute row must satisfy the
conjunction (`select distinct` over the join is existential). -/
def filter_matches (filterq : Option String) (attrs : List (String × String)) : Bool :=
  match filterq with
  | none => true
  | some fq =>
    let (inc, exc, ops) := parse_filters fq
    if inc.isEmpty && exc.isEmpty && ops.isEmpty then true
    else attrs.any (rowPred inc exc ops)

/-!
`latest_version_list`.  The SQL query is modelled by `queryRows`; the
delimiter loop, which re-executes the query with a new `start` whenever a
common prefix is found, is split into a structural scan of one result set
(`innerScan`) and a fueled outer loop over re-executions (`scanLoop`).
-/

/-- One `(path, serial)` result row. -/
abbrev QRow := PathT × Nat

/-- Insert a row into a path-sorted list (models `order by n.path`). -/
def insertByPath (r : QRow) : List QRow → List QRow
  | [] => [r]
  | x :: xs => if pathLtB r.1 x.1 then r :: x :: xs else x :: insertByPath r xs

/-- Sort rows by path. -/
def sortByPath (l : List QRow) : List QRow :=
  l.foldr insertByPath []

/-- Collapse adjacent duplicate rows (`select distinct`). -/
def dedupAdj : List QRow → List QRow
  | [] => []
  | [x] => [x]
  | x :: y :: xs => if x == y then dedupAdj (y :: xs) else x :: dedupAdj (y :: xs)

/-- The result set of the listing query: current versions (max serial with
`mtime < before`) outside `except_cluster` at direct children of `parent`,
with `start < path < nextl`, the optional path-prefix alternatives and the
attribute filter, ordered by path. -/
def queryRows (db : DB) (parent : Nat) (before except_cluster : Int)
    (start nextl : PathT) (pathq : List PathT) (filterq : Option String) : List QRow :=
  let base := db.versions.filterMap (fun v =>
    match node_get_properties db.nodes v.node with
    | none => none
    | some (_, path) =>
      if (maxSerialBefore db.versions v.node before == some v.serial) &&
         v.cluster != except_cluster &&
         childOfB db.nodes parent v.node &&
         pathLtB start path && pathLtB path nextl &&
         (pathq.isEmpty || pathq.any (fun x => x.isPrefixOf path)) &&
         filter_matches filterq (attribute_get db v.serial)
      then some (path, v.serial) else none)
  dedupAdj (sortByPath base)

/-- First index `>= i` at which `sub` occurs in the remainder of the path
(`path.find(delimiter, pfz)`, with `none` for `-1`). -/
def findSubAux (sub : List Nat) : List Nat → Nat → Option Nat
  | [], i => if sub.isEmpty then some i else none
  | x :: xs, i =>
    if sub.isPrefixOf (x :: xs) then some i else findSubAux sub xs (i + 1)

/-- Find the delimiter in `path` starting the search at offset `pfz`. -/
def findSub (path sub : List Nat) (pfz : Nat) : Option Nat :=
  findSubAux sub (path.drop pfz) pfz

/-- Scan one query result set.  Returns the matches and prefixes collected
from it, plus `some (newStart, count)` when the loop wants to re-execute
the query after recording a common prefix below the limit. -/
def innerScan (pfz : Nat) (delim : List Nat) (limit : Nat) :
    List QRow → Nat → List QRow × List PathT × Option (PathT × Nat)
  | [], _ => ([], [], none)
  | r :: rest, count =>
    match findSub r.1 delim pfz with
    | none =>
      if limit ≤ count + 1 then ([r], [], none)
      else
        let res := innerScan pfz delim limit rest (count + 1)
        (r :: res.1, res.2.1, res.2.2)
    | some idx =>
      if idx + delim.length = r.1.length then
        let res := innerScan pfz delim limit rest (count + 1)
        (r :: res.1, res.2.1, res.2.2)
      else
        let pf := r.1.take (idx + delim.length)
        if limit ≤ count then ([], [pf], none)
        else ([], [pf], some (pf, count))

/-- The re-execution loop: run the query from `start`, scan it, and when a
common prefix was recorded under the limit, restart past that prefix.
`strnextling` may fail (`RuntimeError`), propagated as `none`; the fuel is
an upper bound on re-executions, unreachable on finite stores. -/
def scanLoop (db : DB) (parent : Nat) (before except_cluster : Int) (nextl : PathT)
    (pathq : List PathT) (filterq : Option String) (pfz : Nat) (delim : List Nat)
    (limit : Nat) : Nat → PathT → Nat → Option (List QRow × List PathT)
  | 0, _, _ => none
  | fuel + 1, start, count =>
    let rows := queryRows db parent before except_cluster start nextl pathq filterq
    let res := innerScan pfz delim limit rows count
    match res.2.2 with
    | none => some (res.1, res.2.1)
    | some (pf, count') =>
      match strnextling pf with
      | none => none
      | some start' =>
        match scanLoop db parent before except_cluster nextl pathq filterq
                pfz delim limit fuel start' count' with
        | none => none
        | some (m2, p2) => some (res.1 ++ m2, res.2.1 ++ p2)

/-- `latest_version_list`.  `none` models the `RuntimeError` raised by
`strnextling` on pathological prefixes. -/
def latest_version_list (db : DB) (parent : Nat) (pfx : PathT)
    (delimiter : Option (List Nat)) (start : PathT) (limit : Nat) (before : Int)
    (except_cluster : Int) (pathq : List PathT) (filterq : Option String) :
    Option (List QRow × List PathT) :=
  let start := if start.isEmpty || pathLtB start pfx then strprevling pfx else start
  match strnextling pfx with
  | none => none
  | some nextl =>
    match delimiter with
    | none =>
      some ((queryRows db parent before except_cluster start nextl pathq filterq).take
              limit, [])
    | some delim =>
      if delim.isEmpty then
        some ((queryRows db parent before except_cluster start nextl pathq
                 filterq).take limit, [])
      else
        scanLoop db parent before except_cluster nextl pathq filterq
          pfx.length delim limit (db.versions.length + 1) start 0

/-!
Derived observations used by the claim statements: attribute lookups, the
stored statistics values, and the two aggregate quantities the statistics
invariants compare them against.
-/

/-- The value of attribute `k` of `serial` in a list of attribute rows,
through the `(serial, key)` primary key. -/
def attrFind (attrs : List AttrRow) (serial : Nat) (k : String) : Option String :=
  (attrs.find? (fun a => a.serial == serial && a.key == k)).map
    (fun a => a.value)

/-- The value of attribute `k` of version `serial`. -/
def attrLookup (db : DB) (serial : Nat) (k : String) : Option String :=
  attrFind db.attributes serial k

/-- The `size` stored in a statistics table (0 when the row is absent). -/
def statSize (stats : Stats) (n : Nat) (c : Int) : Int :=
  match stats n c with
  | some s => s.size
  | none => 0

/-- The `population` stored in a statistics table (0 when absent). -/
def statPop (stats : Stats) (n : Nat) (c : Int) : Int :=
  match stats n c with
  | some s => s.population
  | none => 0

/-- The stored `statistics(n, c).size` (0 when the row is absent). -/
def storedSize (db : DB) (n : Nat) (c : Int) : Int :=
  statSize db.stats n c

/-- The stored `statistics(n, c).population` (0 when the row is absent). -/
def storedPop (db : DB) (n : Nat) (c : Int) : Int :=
  statPop db.stats n c

/-- `m` lies strictly below `anc` in the tree: `anc` is on `m`'s parent
chain. -/
def isProperDesc (db : DB) (anc m : Nat) : Bool :=
  (ancestorChain db.nodes (chainFuel db) m).contains anc

/-- Total size of the cluster-`c` versions at proper descendants of `n`. -/
def subtreeSize (db : DB) (n : Nat) (c : Int) : Int :=
  ((db.versions.filter (fun v => v.cluster == c && isProperDesc db n v.node)).map
    (fun v => v.size)).sum

/-- Total size of the cluster-`c` versions at `n` itself or at proper
descendants of `n` — the aggregate named by the spec's size invariant. -/
def subtreeSizeIncl (db : DB) (n : Nat) (c : Int) : Int :=
  ((db.versions.filter
      (fun v => v.cluster == c && (v.node == n || isProperDesc db n v.node))).map
    (fun v => v.size)).sum

/-- Number of cluster-`c` versions residing at direct children of `n`
(the synthetic root's self-reference excluded, as in
`node_count_children`). -/
def childPop (db : DB) (n : Nat) (c : Int) : Int :=
  ((db.versions.filter (fun v =>
      v.cluster == c && v.node != 0 &&
      ((node_get_properties db.nodes v.node).map Prod.fst == some n))).length : Int)

/-- Size invariant as the spec states it (node itself included). -/
def InvSizeIncl (db : DB) : Prop :=
  ∀ r ∈ db.nodes, ∀ c : Int, storedSize db r.node c = subtreeSizeIncl db r.node c

/-- Size invariant as the code maintains it (proper descendants only). -/
def InvSize (db : DB) : Prop :=
  ∀ r ∈ db.nodes, ∀ c : Int, storedSize db r.node c = subtreeSize db r.node c

/-- Population invariant: stored population = count at direct children. -/
def InvPop (db : DB) : Prop :=
  ∀ r ∈ db.nodes, ∀ c : Int, storedPop db r.node c = childPop db r.node c

/-- Primary keys of the `nodes` table are unique. -/
def NodesNodup (db : DB) : Prop :=
  (db.nodes.map (fun r => r.node)).Nodup

/-- Every `parent` field references an existing node (the foreign key). -/
def ParentsExist (db : DB) : Prop :=
  ∀ r ∈ db.nodes, db.nodes.any (fun q => q.node == r.parent) = true

/-- Parent chains are acyclic: no node appears twice on a chain. -/
def ChainsNodup (db : DB) : Prop :=
  ∀ r ∈ db.nodes, (ancestorChain db.nodes (chainFuel db) r.node).Nodup

/-- Well-formedness a store reachable through the API always has. -/
def WFTree (db : DB) : Prop :=
  NodesNodup db ∧ ParentsExist db ∧ ChainsNodup db

/-- Serial numbers of the `versions` table are unique. -/
def SerialsNodup (db : DB) : Prop :=
  (db.versions.map (fun v => v.serial)).Nodup

/-!
Concrete stores for the counterexample and witness theorems.  Paths are
code points: `97 = a`, `98 = b`, `99 = c`, `47` is the slash.
-/

/-- Empty store: just the root. -/
def emptyDB : DB :=
  ⟨[⟨0, 0, []⟩], [], [], fun _ _ => none⟩

/-- Root plus one child `a` carrying two versions: serial 1 in cluster 0
(mtime 10) and serial 2 in cluster 1 (mtime 20). -/
def lookupCexDB : DB :=
  ⟨[⟨0, 0, []⟩, ⟨1, 0, [97]⟩],
   [⟨1, 1, "h1", 5, none, 10, "u", 0⟩, ⟨2, 1, "h2", 5, none, 20, "u", 1⟩],
   [], fun _ _ => none⟩

/-- Root with two nodes `a` and `a/b` and no versions. -/
def sizeCexPre : DB :=
  ⟨[⟨0, 0, []⟩, ⟨1, 0, [97]⟩, ⟨2, 1, [97, 47, 98]⟩], [], [], fun _ _ => none⟩

/-- Chain root -> `a` -> `a/b` with one cluster-0 version of size 10 at
`a/b`, statistics exactly as `version_create` leaves them. -/
def popCexDB : DB :=
  (version_create sizeCexPre 10 2 "h1" 10 none "u" 0).2

/-- Chain root -> `a` -> `a/b` -> `a/b/c` with versions at `a/b` (the
grandchild of the root) and at `a/b/c`, plus one attribute on the deeper
version. -/
def purge6DB : DB :=
  ⟨[⟨0, 0, []⟩, ⟨1, 0, [97]⟩, ⟨2, 1, [97, 47, 98]⟩, ⟨3, 2, [97, 47, 98, 47, 99]⟩],
   [⟨1, 2, "hb", 5, none, 10, "u", 0⟩, ⟨2, 3, "hc", 7, none, 10, "u", 0⟩],
   [⟨2, "k", "v"⟩], fun _ _ => none⟩

/-- Paths `a/` and `ab` under the root, each with a cluster-1 version. -/
def listCexDB : DB :=
  ⟨[⟨0, 0, []⟩, ⟨1, 0, [97, 47]⟩, ⟨2, 0, [97, 98]⟩],
   [⟨1, 1, "h1", 1, none, 10, "u", 1⟩, ⟨2, 2, "h2", 1, none, 10, "u", 1⟩],
   [], fun _ _ => none⟩

/-- Paths `a/` and `b/c` under the root, each with a cluster-1 version. -/
def listBoundaryDB : DB :=
  ⟨[⟨0, 0, []⟩, ⟨1, 0, [97, 47]⟩, ⟨2, 0, [98, 47, 99]⟩],
   [⟨1, 1, "h1", 1, none, 10, "u", 1⟩, ⟨2, 2, "h2", 1, none, 10, "u", 1⟩],
   [], fun _ _ => none⟩

/-- Two versions with attributes: serial 1 has `color=red` and `x=1`;
serial 2 has `color=blue`. -/
def attrsDB : DB :=
  ⟨[⟨0, 0, []⟩, ⟨1, 0, [97]⟩],
   [⟨1, 1, "h1", 5, none, 10, "u", 0⟩, ⟨2, 1, "h2", 5, none, 20, "u", 0⟩],
   [⟨1, "color", "red"⟩, ⟨1, "x", "1"⟩, ⟨2, "color", "blue"⟩],
   fun _ _ => none⟩

/-- A store with one version at node 1 and no statistics rows. -/
def oneVersionDB : DB :=
  ⟨[⟨0, 0, []⟩, ⟨1, 0, [97]⟩],
   [⟨1, 1, "h", 5, none, 10, "u", 0⟩],
   [], fun _ _ => none⟩

def removeStats (db : DB) (now : Int) (n : Nat) : Stats :=
  let vs := db.versions.filter (fun v => v.node == n)
  (clustersOf vs).foldl
    (fun st c =>
      statistics_update_ancestors db.nodes st (chainFuel db) n
        (-(((vs.filter (fun v => v.cluster == c)).length : Nat) : Int))
        (-(((vs.filter (fun v => v.cluster == c)).map (fun v => v.size)).sum))
        now c)
    db.stats

def purgeDB1 (db : DB) (now : Int) (node : Nat) (before cluster : Int) : DB :=
  let matching := db.versions.filter (purgeMatch node before cluster)
  let nr : Int := matching.length
  let sz := (matching.map (fun v => v.size)).sum
  let stats := statistics_update_ancestors db.nodes db.stats (chainFuel db)
                 node (-nr) (-sz) now cluster
  let versions' := db.versions.filter (fun v => !purgeMatch node before cluster v)
  let attrs' := db.attributes.filter (fun a =>
    !(db.versions.any (fun v => v.serial == a.serial && purgeMatch node before cluster v)))
  { db with stats := stats, versions := versions', attributes := attrs' }

def pcDB1 (db : DB) (now : Int) (parent : Nat) (before cluster : Int) : DB :=
  let matching := db.versions.filter (purgeChildMatch db.nodes parent before cluster)
  let nr : Int := matching.length
  let sz := (matching.map (fun v => v.size)).sum
  let stats := statistics_update db.stats parent (-nr) (-sz) now cluster
  let stats2 := statistics_update_ancestors db.nodes stats (chainFuel db)
                  parent (-nr) (-sz) now cluster
  let versions2 := db.versions.filter
    (fun v => !purgeChildMatch db.nodes parent before cluster v)
  let attrs2 := db.attributes.filter (fun a =>
    !(db.versions.any (fun v =>
        v.serial == a.serial && purgeChildMatch db.nodes parent before cluster v)))
  { db with stats := stats2, versions := versions2, attributes := attrs2 }

/-- Root -> `a` -> `a/b` with one cluster-0 version of size 10 at `a/b`
and the statistics rows the code would maintain for it. -/
def pcPreDB : DB :=
  ⟨[⟨0, 0, []⟩, ⟨1, 0, [97]⟩, ⟨2, 1, [97, 47, 98]⟩],
   [⟨1, 2, "h1", 10, none, 10, "u", 0⟩],
   [],
   fun n c => if n = 1 ∧ c = 0 then some ⟨1, 10, 10⟩
     else if n = 0 ∧ c = 0 then some ⟨0, 10, 10⟩ else none⟩

/-!
General lemmas.
-/

theorem find?_serial_map_cluster (l : List Version) (s : Nat) (c : Int) :
    (l.map (fun v => if v.serial == s then { v with cluster := c } else v)).find?
        (fun v => v.serial == s)
      = (l.find? (fun v => v.serial == s)).map (fun v => { v with cluster := c }) := by
  induction l with
  | nil => rfl
  | cons h t ih =>
    by_cases hp : h.serial = s
    · simp only [List.map_cons, List.find?_cons, hp]
      simp only [beq_self_eq_true]
      simp [hp]
    · simp only [List.map_cons, List.find?_cons]
      have e1 : (if (h.serial == s) = true then { h with cluster := c } else h) = h := by
        simp [hp]
      rw [e1]
      have e2 : (h.serial == s) = false := by simp [hp]
      simp only [e2, ih]

theorem version_recluster_noop (db : DB) (now : Int) (serial : Nat) (cluster : Int)
    (v : Version) (hv : version_get_properties db serial = some v)
    (hc : cluster = v.cluster) : version_recluster db now serial cluster = db := by
  simp [version_recluster, hv, hc]

/-- Claim C5: `reclusterVersion` is a no-op when the serial is missing or
the cluster is unchanged, and applying it twice with the same target
cluster equals applying it once — the second call changes no statistics
row and no version row. -/
theorem C5_recluster_idempotent (db : DB) (now1 now2 : Int) (serial : Nat)
    (cluster : Int) :
    (version_get_properties db serial = none →
      version_recluster db now1 serial cluster = db) ∧
    (∀ v, version_get_properties db serial = some v → cluster = v.cluster →
      version_recluster db now1 serial cluster = db) ∧
    version_recluster (version_recluster db now1 serial cluster) now2 serial cluster
      = version_recluster db now1 serial cluster := by
  refine ⟨?_, ?_, ?_⟩
  · intro h
    simp [version_recluster, h]
  · intro v hv hc
    exact version_recluster_noop db now1 serial cluster v hv hc
  · cases hv : version_get_properties db serial with
    | none =>
      have h1 : version_recluster db now1 serial cluster = db := by
        simp [version_recluster, hv]
      rw [h1]
      simp [version_recluster, hv]
    | some v =>
      by_cases hc : cluster = v.cluster
      · have h1 := version_recluster_noop db now1 serial cluster v hv hc
        rw [h1]
        exact version_recluster_noop db now2 serial cluster v hv hc
      · have h1 : version_recluster db now1 serial cluster =
            { db with
                versions := db.versions.map
                  (fun w => if w.serial == serial then { w with cluster := cluster } else w),
                stats := statistics_update_ancestors db.nodes
                  (statistics_update_ancestors db.nodes db.stats (chainFuel db)
                    v.node (-1) (-v.size) now1 v.cluster) (chainFuel db)
                  v.node 1 v.size now1 cluster } := by
          simp [version_recluster, hv, hc]
        have h2 : version_get_properties (version_recluster db now1 serial cluster) serial
            = some { v with cluster := cluster } := by
          rw [h1]
          show (db.versions.map _).find? _ = _
          rw [find?_serial_map_cluster]
          simp only [version_get_properties] at hv
          rw [hv]
          rfl
        exact version_recluster_noop _ now2 serial cluster _ h2 rfl

/-- Witness for C5 at concrete stores. -/
theorem C5_witness :
    version_recluster emptyDB 1 5 0 = emptyDB ∧
    version_recluster (version_recluster oneVersionDB 1 1 5) 2 1 5
      = version_recluster oneVersionDB 1 1 5 :=
  ⟨(C5_recluster_idempotent emptyDB 1 0 5 0).1 rfl,
   (C5_recluster_idempotent oneVersionDB 1 2 1 5).2.2⟩

/-- Claim C8: each purge operation, when no version matches the
node/parent, cluster and time bound, returns the empty result and leaves
the whole store untouched. -/
theorem C8_purge_zero (db : DB) (now : Int) (node parent : Nat) (before cluster : Int)
    (h1 : db.versions.filter (purgeMatch node before cluster) = [])
    (h2 : db.versions.filter (purgeChildMatch db.nodes parent before cluster) = []) :
    node_purge db now node before cluster = ([], db) ∧
    node_purge_children db now parent before cluster = ([], db) := by
  constructor
  · simp [node_purge, h1]
  · simp [node_purge_children, h2]

/-- Witness for C8: purging cluster 7, which has no versions. -/
theorem C8_witness :
    node_purge lookupCexDB 1 1 100 7 = ([], lookupCexDB) ∧
    node_purge_children lookupCexDB 1 0 100 7 = ([], lookupCexDB) :=
  C8_purge_zero lookupCexDB 1 1 0 100 7 (by rfl) (by rfl)

theorem DB_ext (a b : DB) (h1 : a.nodes = b.nodes) (h2 : a.versions = b.versions)
    (h3 : a.attributes = b.attributes) (h4 : a.stats = b.stats) : a = b := by
  cases a; cases b; simp_all

theorem node_get_properties_mem (nodes : List NodeRow) (m : Nat) (p : Nat × PathT)
    (h : node_get_properties nodes m = some p) :
    ∃ r ∈ nodes, r.node = m ∧ r.parent = p.1 ∧ r.path = p.2 := by
  simp only [node_get_properties, Option.map_eq_some'] at h
  obtain ⟨r, hr, hp⟩ := h
  refine ⟨r, List.mem_of_find?_eq_some hr, ?_, ?_, ?_⟩
  · have := List.find?_some hr
    simpa using this
  · rw [← hp]
  · rw [← hp]

theorem chain_avoids (nodes : List NodeRow) (n : Nat)
    (h : ∀ r ∈ nodes, r.parent ≠ n) :
    ∀ fuel m, n ∉ ancestorChain nodes fuel m := by
  intro fuel
  induction fuel with
  | zero => intro m; simp [ancestorChain]
  | succ f ih =>
    intro m
    by_cases hm : m = 0
    · simp [ancestorChain, hm]
    · simp only [ancestorChain, hm, if_false]
      cases hp : node_get_properties nodes m with
      | none => simp
      | some p =>
        obtain ⟨r, hr, _, hpar, _⟩ := node_get_properties_mem nodes m p hp
        simp only [List.mem_cons, not_or]
        exact ⟨fun hn => h r hr (hpar.trans hn.symm), ih p.1⟩

/-- Claim C9: `node_remove` called on a node identifier that does not
exist returns `True` and changes nothing — no statistics adjustment, no
row deleted — and its only `False` case is a node with children. -/
theorem C9_node_remove_missing (db : DB) (now : Int) (n : Nat)
    (hnode : ∀ r ∈ db.nodes, r.node ≠ n)
    (hpar : ∀ r ∈ db.nodes, r.parent ≠ n)
    (hver : ∀ v ∈ db.versions, v.node ≠ n)
    (hstat : ∀ c : Int, db.stats n c = none) :
    node_remove db now n = (true, db) ∧
    ∀ m, ((node_remove db now m).1 = false ↔ node_count_children db.nodes m ≠ 0) := by
  have hdead : ∀ m, deadNode db.nodes [n] m = true → m = n := by
    intro m hm
    simp only [deadNode, Bool.or_eq_true, List.any_eq_true] at hm
    rcases hm with hm | ⟨p, hp, hpn⟩
    · simpa using hm
    · exfalso
      have hnp : p = n := by simpa using hpn
      exact chain_avoids db.nodes n hpar _ m (hnp ▸ hp)
  have hdeadr : ∀ m, m ≠ n → deadNode db.nodes [n] m = false := by
    intro m hm
    cases hd : deadNode db.nodes [n] m
    · rfl
    · exact absurd (hdead m hd) hm
  constructor
  · have hcc : node_count_children db.nodes n = 0 := by
      simp only [node_count_children, List.length_eq_zero]
      rw [List.filter_eq_nil_iff]
      intro r hr
      simp [hpar r hr]
    have hvs : db.versions.filter (fun v => v.node == n) = [] := by
      rw [List.filter_eq_nil_iff]
      intro v hv
      simp [hver v hv]
    simp only [node_remove, hcc, ne_eq, not_true_eq_false, if_false, hvs]
    norm_num
    apply DB_ext
    · show List.filter _ db.nodes = db.nodes
      rw [List.filter_eq_self]
      intro r hr
      simp [hdeadr r.node (hnode r hr)]
    · show List.filter _ db.versions = db.versions
      rw [List.filter_eq_self]
      intro v hv
      simp [hdeadr v.node (hver v hv)]
    · show List.filter _ db.attributes = db.attributes
      rw [List.filter_eq_self]
      intro a ha
      simp only [Bool.not_eq_eq_eq_not, Bool.not_true, List.any_eq_false]
      intro v hv
      simp [hdeadr v.node (hver v hv)]
    · show (fun m c => if deadNode db.nodes [n] m then none else db.stats m c) = db.stats
      funext m c
      by_cases hm : m = n
      · rw [hm]
        cases hd : deadNode db.nodes [n] n <;> simp [hstat c]
      · simp [hdeadr m hm]
  · intro m
    by_cases hm : node_count_children db.nodes m ≠ 0
    · simp [node_remove, hm]
    · simp [node_remove, hm]

/-- Witness for C9: removing the absent node 7, and the `False` case at
the root (which has children). -/
theorem C9_witness :
    node_remove lookupCexDB 1 7 = (true, lookupCexDB) ∧
    ((node_remove lookupCexDB 1 0).1 = false ↔
      node_count_children lookupCexDB.nodes 0 ≠ 0) := by
  have h := C9_node_remove_missing lookupCexDB 1 7 (by decide) (by decide)
    (by decide) (fun c => rfl)
  exact ⟨h.1, h.2 0⟩

theorem maxSerialList_eq_none (l : List Nat) : maxSerialList l = none ↔ l = [] := by
  cases l with
  | nil => simp [maxSerialList]
  | cons a t =>
    simp only [maxSerialList]
    cases maxSerialList t <;> simp

theorem maxSerialList_spec (l : List Nat) (m : Nat) (h : maxSerialList l = some m) :
    m ∈ l ∧ ∀ x ∈ l, x ≤ m := by
  induction l generalizing m with
  | nil => simp [maxSerialList] at h
  | cons a t ih =>
    simp only [maxSerialList] at h
    cases ht : maxSerialList t with
    | none =>
      rw [ht] at h
      have : t = [] := (maxSerialList_eq_none t).mp ht
      subst this
      simp at h
      simp [h]
    | some b =>
      rw [ht] at h
      have hb := ih b ht
      simp only [Option.some_inj] at h
      subst h
      constructor
      · rcases Nat.le_total a b with hab | hba
        · have hm : a ⊔ b = b := Nat.max_eq_right hab
          rw [hm]
          exact List.mem_cons_of_mem a hb.1
        · have hm : a ⊔ b = a := Nat.max_eq_left hba
          rw [hm]
          exact List.mem_cons_self a t
      · intro x hx
        rcases List.mem_cons.mp hx with rfl | hx
        · exact Nat.le_max_left _ _
        · exact le_trans (hb.2 x hx) (Nat.le_max_right _ _)


theorem mem_key_inj {α β : Type} [DecidableEq β] (l : List α) (f : α → β)
    (h : (l.map f).Nodup) (a b : α) (ha : a ∈ l) (hb : b ∈ l) (hf : f a = f b) :
    a = b := by
  induction l with
  | nil => cases ha
  | cons x t ih =>
    simp only [List.map_cons, List.nodup_cons] at h
    rcases List.mem_cons.mp ha with rfl | ha' <;>
      rcases List.mem_cons.mp hb with rfl | hb'
    · rfl
    · exact absurd (hf ▸ List.mem_map_of_mem f hb') h.1
    · exact absurd (hf ▸ List.mem_map_of_mem f ha') h.1
    · exact ih h.2 ha' hb'

theorem find?_eq_some_unique {α : Type} (l : List α) (p : α → Bool) (v : α)
    (hv : v ∈ l) (hpv : p v = true) (huniq : ∀ w ∈ l, p w = true → w = v) :
    l.find? p = some v := by
  induction l with
  | nil => cases hv
  | cons x t ih =>
    cases hx : p x with
    | true =>
      rw [List.find?_cons_of_pos _ hx]
      exact congrArg some (huniq x (List.mem_cons_self x t) hx)
    | false =>
      rw [List.find?_cons_of_neg _ (by simp [hx])]
      rcases List.mem_cons.mp hv with rfl | hv'
      · rw [hx] at hpv; cases hpv
      · exact ih hv' (fun w hw hpw => huniq w (List.mem_cons_of_mem x hw) hpw)

/-- Claim C1 (amended): `version_lookup(node, T, C)` returns `some v` iff
`v` is the version with the maximal serial among all versions at `node`
with `mtime < T` — the cluster is NOT part of the maximisation — and that
maximal version's cluster is `C`; otherwise it returns `None`, even when a
lower-serial version in cluster `C` exists. -/
theorem C1_version_lookup (db : DB) (node : Nat) (before : Int) (cluster : Int)
    (v : Version) (hnodup : SerialsNodup db) :
    version_lookup db node before cluster = some v ↔
      (v ∈ db.versions ∧ v.node = node ∧ v.mtime < before ∧ v.cluster = cluster ∧
       ∀ w ∈ db.versions, w.node = node → w.mtime < before → w.serial ≤ v.serial) := by
  unfold version_lookup
  constructor
  · intro h
    cases hm : maxSerialBefore db.versions node before with
    | none => rw [hm] at h; cases h
    | some m =>
      rw [hm] at h
      have hvmem := List.mem_of_find?_eq_some h
      have hpv := List.find?_some h
      simp only [Bool.and_eq_true, beq_iff_eq] at hpv
      unfold maxSerialBefore at hm
      obtain ⟨hmem, hmax⟩ := maxSerialList_spec _ m hm
      obtain ⟨w, hw, hws⟩ := List.mem_map.mp hmem
      have hwf := List.mem_filter.mp hw
      simp only [Bool.and_eq_true, beq_iff_eq, decide_eq_true_eq] at hwf
      have hvw : v = w := mem_key_inj db.versions (fun x => x.serial) hnodup v w
        hvmem hwf.1 (hpv.1.trans hws.symm)
      refine ⟨hvmem, hvw ▸ hwf.2.1, hvw ▸ hwf.2.2, hpv.2, ?_⟩
      intro u hu hun humt
      have hucand : u ∈ db.versions.filter
          (fun x => x.node == node && decide (x.mtime < before)) := by
        rw [List.mem_filter]
        simp [hu, hun, humt]
      have hum := hmax u.serial (List.mem_map_of_mem (fun x => x.serial) hucand)
      rw [hpv.1]
      exact hum
  · rintro ⟨hvmem, hvn, hvt, hvc, hmax⟩
    have hvcand : v ∈ db.versions.filter
        (fun x => x.node == node && decide (x.mtime < before)) := by
      rw [List.mem_filter]
      simp [hvmem, hvn, hvt]
    cases hm : maxSerialBefore db.versions node before with
    | none =>
      exfalso
      unfold maxSerialBefore at hm
      have := (maxSerialList_eq_none _).mp hm
      rw [List.map_eq_nil_iff] at this
      rw [this] at hvcand
      cases hvcand
    | some m =>
      unfold maxSerialBefore at hm
      obtain ⟨hmem, hmaxm⟩ := maxSerialList_spec _ m hm
      obtain ⟨w, hw, hws⟩ := List.mem_map.mp hmem
      have hwf := List.mem_filter.mp hw
      simp only [Bool.and_eq_true, beq_iff_eq, decide_eq_true_eq] at hwf
      have h1 : v.serial ≤ m :=
        hmaxm v.serial (List.mem_map_of_mem (fun x => x.serial) hvcand)
      have h2 : m ≤ v.serial := hws ▸ hmax w hwf.1 hwf.2.1 hwf.2.2
      have hvm : v.serial = m := le_antisymm h1 h2
      apply find?_eq_some_unique
      · exact hvmem
      · simp [hvm, hvc]
      · intro u hu hpu
        simp only [Bool.and_eq_true, beq_iff_eq] at hpu
        exact mem_key_inj db.versions (fun x => x.serial) hnodup u v hu hvmem
          (hpu.1.trans hvm.symm)

/-- Claim C1 counterexample: at `lookupCexDB`, node 1 holds version 1 in
cluster 0 (mtime 10) and version 2 in cluster 1 (mtime 20).  A version
matching `node=1, cluster=0, mtime < 100` exists, so the claim demands it
be returned, but the code returns `None` because the max-serial version
over `mtime < 100` alone lies in cluster 1. -/
theorem C1_counterexample :
    version_lookup lookupCexDB 1 100 0 = none ∧
    lookupCexDB.versions.any
      (fun v => v.node == 1 && v.cluster == 0 && decide (v.mtime < 100)) = true := by
  constructor
  · rfl
  · rfl

/-- Witness for C1 at a concrete store. -/
theorem C1_witness :
    version_lookup lookupCexDB 1 100 1 = some ⟨2, 1, "h2", 5, none, 20, "u", 1⟩ := by
  apply (C1_version_lookup lookupCexDB 1 100 1 ⟨2, 1, "h2", 5, none, 20, "u", 1⟩
    (by unfold SerialsNodup lookupCexDB; decide)).mpr
  refine ⟨by simp [lookupCexDB], by decide, by decide, by decide, by decide⟩

theorem find?_append_none {α : Type} (l1 l2 : List α) (p : α → Bool)
    (h : l1.find? p = none) : (l1 ++ l2).find? p = l2.find? p := by
  induction l1 with
  | nil => rfl
  | cons x t ih =>
    rw [List.find?_cons] at h
    cases hx : p x with
    | true => rw [hx] at h; cases h
    | false =>
      rw [hx] at h
      simp only [List.cons_append, List.find?_cons, hx]
      exact ih h

theorem find?_append_some {α : Type} (l1 l2 : List α) (p : α → Bool) (x : α)
    (h : l1.find? p = some x) : (l1 ++ l2).find? p = some x := by
  induction l1 with
  | nil => cases h
  | cons y t ih =>
    rw [List.find?_cons] at h
    cases hy : p y with
    | true => rw [hy] at h; simp only [List.cons_append, List.find?_cons, hy]; exact h
    | false =>
      rw [hy] at h
      simp only [List.cons_append, List.find?_cons, hy]
      exact ih h

theorem find?_filter_comm {α : Type} (l : List α) (q p : α → Bool) :
    (l.filter q).find? p = l.find? (fun x => q x && p x) := by
  induction l with
  | nil => rfl
  | cons x t ih =>
    cases hq : q x with
    | true =>
      rw [List.filter_cons_of_pos hq]
      cases hp : p x with
      | true =>
        rw [List.find?_cons_of_pos _ hp, List.find?_cons_of_pos _ (by simp [hq, hp])]
      | false =>
        rw [List.find?_cons_of_neg _ (by simp [hp]),
            List.find?_cons_of_neg _ (by simp [hq, hp])]
        exact ih
    | false =>
      rw [List.filter_cons_of_neg (by simp [hq]),
          List.find?_cons_of_neg _ (by simp [hq])]
      exact ih

theorem attr_map_preserves (s : Nat) (k v : String) (a : AttrRow) (s' : Nat) (k' : String) :
    ((if a.serial == s && a.key == k then { a with value := v } else a).serial == s' &&
       (if a.serial == s && a.key == k then { a with value := v } else a).key == k')
      = (a.serial == s' && a.key == k') := by
  by_cases hm : (a.serial == s && a.key == k) = true
  · simp only [hm, if_true]
  · simp only [Bool.not_eq_true] at hm
    simp only [hm, Bool.false_eq_true, if_false]

theorem attr_map_hit (s : Nat) (k v : String) :
    ∀ attrs : List AttrRow,
      attrs.any (fun a => a.serial == s && a.key == k) = true →
      attrFind (attrs.map (fun a =>
        if a.serial == s && a.key == k then { a with value := v } else a)) s k
        = some v := by
  intro attrs
  induction attrs with
  | nil => intro h; simp at h
  | cons a t ih =>
    intro h
    cases hp : (a.serial == s && a.key == k) with
    | true =>
      unfold attrFind
      simp only [List.map_cons, hp, if_true]
      rw [List.find?_cons_of_pos _ (by simpa using hp)]
      rfl
    | false =>
      unfold attrFind
      simp only [List.map_cons, hp, Bool.false_eq_true, if_false]
      rw [List.find?_cons_of_neg _ (by simp [hp])]
      have h' : t.any (fun a => a.serial == s && a.key == k) = true := by
        simpa [hp] using h
      exact ih h'

theorem attr_map_miss (s : Nat) (k v : String) (s' : Nat) (k' : String)
    (hsk : ¬(s' = s ∧ k' = k)) :
    ∀ attrs : List AttrRow,
      (attrs.map (fun a =>
        if a.serial == s && a.key == k then { a with value := v } else a)).find?
          (fun a => a.serial == s' && a.key == k')
        = attrs.find? (fun a => a.serial == s' && a.key == k') := by
  intro attrs
  induction attrs with
  | nil => rfl
  | cons a t ih =>
    rw [List.map_cons]
    cases hp : (a.serial == s' && a.key == k') with
    | true =>
      have hno : (a.serial == s && a.key == k) = false := by
        simp only [Bool.and_eq_true, beq_iff_eq] at hp
        cases hq : (a.serial == s && a.key == k) with
        | false => rfl
        | true =>
          exfalso
          simp only [Bool.and_eq_true, beq_iff_eq] at hq
          exact hsk ⟨hp.1.symm.trans hq.1, hp.2.symm.trans hq.2⟩
      have hfa : (if a.serial == s && a.key == k then
          ({ a with value := v } : AttrRow) else a) = a := by
        simp [hno]
      rw [hfa]
      simp only [List.find?_cons, hp]
    | false =>
      rw [List.find?_cons_of_neg, List.find?_cons_of_neg _ (by simp [hp])]
      · exact ih
      · rw [attr_map_preserves s k v a s' k', hp]
        simp

theorem attrFind_upsert (attrs : List AttrRow) (s : Nat) (k v : String)
    (s' : Nat) (k' : String) :
    attrFind (attr_upsert attrs s k v) s' k'
      = if s' = s ∧ k' = k then some v else attrFind attrs s' k' := by
  unfold attr_upsert
  by_cases hex : attrs.any (fun a => a.serial == s && a.key == k) = true
  · rw [if_pos hex]
    by_cases hsk : s' = s ∧ k' = k
    · rw [if_pos hsk]
      obtain ⟨rfl, rfl⟩ := hsk
      exact attr_map_hit s' k' v attrs hex
    · rw [if_neg hsk]
      unfold attrFind
      rw [attr_map_miss s k v s' k' hsk attrs]
  · rw [if_neg hex]
    have hexf : attrs.any (fun a => a.serial == s && a.key == k) = false := by
      cases hh : attrs.any (fun a => a.serial == s && a.key == k)
      · rfl
      · exact absurd hh hex
    have hnone : attrs.find? (fun a => a.serial == s && a.key == k) = none := by
      rw [List.find?_eq_none]
      exact List.any_eq_false.mp hexf
    by_cases hsk : s' = s ∧ k' = k
    · rw [if_pos hsk]
      obtain ⟨rfl, rfl⟩ := hsk
      unfold attrFind
      rw [find?_append_none _ _ _ hnone]
      simp [List.find?_cons]
    · rw [if_neg hsk]
      unfold attrFind
      cases hf : attrs.find? (fun a => a.serial == s' && a.key == k') with
      | none =>
        rw [find?_append_none _ _ _ hf]
        have hnew : (((⟨s, k, v⟩ : AttrRow)).serial == s' &&
            ((⟨s, k, v⟩ : AttrRow)).key == k') = false := by
          show ((s == s') && (k == k')) = false
          cases h1 : (s == s') with
          | false => rfl
          | true =>
            cases h2 : (k == k') with
            | false => simp
            | true =>
              exfalso
              exact hsk ⟨(beq_iff_eq.mp h1).symm, (beq_iff_eq.mp h2).symm⟩
        simp [List.find?_cons, hnew]
      | some x =>
        rw [find?_append_some _ _ _ _ hf]


theorem fold_upsert_lookup (dest : Nat) :
    ∀ rows : List AttrRow, (rows.map (fun a => a.key)).Nodup →
      ∀ (acc : List AttrRow) (k : String),
      attrFind (rows.foldl (fun ac a => attr_upsert ac dest a.key a.value) acc) dest k
        = (match rows.find? (fun a => a.key == k) with
           | some a => some a.value
           | none => attrFind acc dest k) := by
  intro rows
  induction rows with
  | nil => intro _ acc k; rfl
  | cons r t ih =>
    intro hnd acc k
    have hnd' : (t.map (fun a => a.key)).Nodup := (List.nodup_cons.mp hnd).2
    have hhd : r.key ∉ t.map (fun a => a.key) := by
      have := (List.nodup_cons.mp hnd).1
      simpa using this
    rw [List.foldl_cons, ih hnd' _ _, List.find?_cons]
    cases hr : (r.key == k) with
    | true =>
      have hkk : k = r.key := (beq_iff_eq.mp hr).symm
      cases hft : t.find? (fun a => a.key == k) with
      | some a =>
        exfalso
        have ha := List.find?_some hft
        have hmem := List.mem_of_find?_eq_some hft
        apply hhd
        rw [List.mem_map]
        exact ⟨a, hmem, (beq_iff_eq.mp ha).trans hkk⟩
      | none =>
        show attrFind (attr_upsert acc dest r.key r.value) dest k = some r.value
        rw [attrFind_upsert, if_pos ⟨rfl, hkk⟩]
    | false =>
      cases hft : t.find? (fun a => a.key == k) with
      | some a => rfl
      | none =>
        show attrFind (attr_upsert acc dest r.key r.value) dest k = attrFind acc dest k
        rw [attrFind_upsert, if_neg]
        intro hc
        rw [hc.2] at hr
        simp at hr

theorem fold_upsert_frame (dest : Nat) :
    ∀ (rows : List AttrRow) (acc : List AttrRow) (s' : Nat) (k' : String),
      s' ≠ dest →
      attrFind (rows.foldl (fun ac a => attr_upsert ac dest a.key a.value) acc) s' k'
        = attrFind acc s' k' := by
  intro rows
  induction rows with
  | nil => intro acc s' k' _; rfl
  | cons r t ih =>
    intro acc s' k' hs
    rw [List.foldl_cons, ih _ _ _ hs, attrFind_upsert, if_neg]
    intro hc
    exact hs hc.1

/-- Claim C10: `attribute_copy(source, dest)` sets, for every key present
on the source version, the destination's value for that key to the
source's value; leaves every destination key not present on the source
unchanged (upsert, not replace-all); and leaves the source version's
attributes untouched. -/
theorem C10_attribute_copy (db : DB) (source dest : Nat)
    (hpk : db.attributes.Pairwise
      (fun a b => a.serial = b.serial → a.key = b.key → False)) :
    (∀ k, attrLookup (attribute_copy db source dest) dest k
        = (match attrLookup db source k with
           | some v => some v
           | none => attrLookup db dest k)) ∧
    (∀ k, attrLookup (attribute_copy db source dest) source k
        = attrLookup db source k) := by
  have hpk2 : (db.attributes.filter (fun a => a.serial == source)).Pairwise
      (fun a b => a.serial = b.serial → a.key = b.key → False) := hpk.filter _
  have hpk3 : (db.attributes.filter (fun a => a.serial == source)).Pairwise
      (fun a b => a.key ≠ b.key) := by
    apply List.Pairwise.imp_of_mem ?_ hpk2
    intro a b ha hb hab hkeq
    have hsa : a.serial = source := by
      have := (List.mem_filter.mp ha).2
      simpa using this
    have hsb : b.serial = source := by
      have := (List.mem_filter.mp hb).2
      simpa using this
    exact hab (hsa.trans hsb.symm) hkeq
  have hkeys : ((db.attributes.filter (fun a => a.serial == source)).map
      (fun a => a.key)).Nodup := by
    rw [List.Nodup, List.pairwise_map]
    exact hpk3
  have hbr : ∀ k, (db.attributes.filter (fun a => a.serial == source)).find?
      (fun a => a.key == k)
      = db.attributes.find? (fun a => a.serial == source && a.key == k) :=
    fun k => find?_filter_comm _ _ _
  constructor
  · intro k
    show attrFind ((db.attributes.filter (fun a => a.serial == source)).foldl
        (fun ac a => attr_upsert ac dest a.key a.value) db.attributes) dest k = _
    rw [fold_upsert_lookup dest _ hkeys db.attributes k, hbr k]
    cases hf : db.attributes.find? (fun a => a.serial == source && a.key == k) with
    | some a => simp [attrLookup, attrFind, hf]
    | none => simp [attrLookup, attrFind, hf]
  · intro k
    by_cases hsd : source = dest
    · subst hsd
      show attrFind ((db.attributes.filter (fun a => a.serial == source)).foldl
          (fun ac a => attr_upsert ac source a.key a.value) db.attributes) source k = _
      rw [fold_upsert_lookup source _ hkeys db.attributes k, hbr k]
      cases hf : db.attributes.find? (fun a => a.serial == source && a.key == k) with
      | some a => simp [attrLookup, attrFind, hf]
      | none => rfl
    · show attrFind ((db.attributes.filter (fun a => a.serial == source)).foldl
          (fun ac a => attr_upsert ac dest a.key a.value) db.attributes) source k = _
      rw [fold_upsert_frame dest _ db.attributes source k hsd]
      rfl


/-- Witness for C10: copying serial 1's attributes onto serial 2 in
`attrsDB` overwrites `color`, keeps source intact. -/
theorem C10_witness :
    attrLookup (attribute_copy attrsDB 1 2) 2 "color" = some "red" ∧
    attrLookup (attribute_copy attrsDB 1 2) 1 "color" = some "red" := by
  have h := C10_attribute_copy attrsDB 1 2 (by decide)
  constructor
  · rw [h.1 "color"]
    rfl
  · rw [h.2 "color"]
    rfl

/-- Claim C4 counterexample: the filter `"color==red,!archived"` accepts a
version that has `color=red` AND an `archived` attribute — the `!archived`
term only excludes `archived` rows from witnessing the existential join,
it does not require absence. -/
theorem C4_counterexample :
    filter_matches (some "color==red,!archived") [("color", "red"), ("archived", "x")]
      = true ∧
    ([("color", "red"), ("archived", "x")] : List (String × String)).any
      (fun kv => kv.1 == "archived") = true := by
  constructor
  · rfl
  · rfl

/-- Claim C4 (amended): the three buckets are conjoined into a single
per-attribute-row predicate which some attribute row of the version must
satisfy; `!key` only excludes `key` from being the witnessing row.  For
`"color==red,!archived"` a version is returned iff it carries an attribute
`color` with value `red`, regardless of any `archived` attribute. -/
theorem C4_filter_amended (attrs : List (String × String)) :
    filter_matches (some "color==red,!archived") attrs
      = attrs.any (fun kv => kv.1 == "color" && kv.2 == "red") := by
  have hp : parse_filters "color==red,!archived"
      = ([], ["archived"], [("color", "==", "red")]) := by rfl
  have hrow : (rowPred [] ["archived"] [("color", "==", "red")])
      = (fun kv : String × String => kv.1 == "color" && kv.2 == "red") := by
    funext kv
    unfold rowPred
    cases hc : (kv.1 == "color") with
    | false =>
      simp only [hc, Bool.false_and]
      simp [applyOp, hc]
    | true =>
      have hke : kv.1 = "color" := beq_iff_eq.mp hc
      have harch : (kv.1 == "archived") = false := by
        rw [hke]
        rfl
      simp [applyOp, hc, harch]
      intro _ hk
      rw [hke] at hk
      exact absurd hk (by decide)
  simp only [filter_matches, hp]
  rw [hrow]
  rfl

theorem innerScan_reissue (pfz : Nat) (delim : List Nat) (limit : Nat) :
    ∀ (rows : List QRow) (count : Nat) (pf : PathT) (c : Nat),
      (innerScan pfz delim limit rows count).2.2 = some (pf, c) →
      count ≤ c ∧ c < limit ∧
        (innerScan pfz delim limit rows count).1.length + count = c := by
  intro rows
  induction rows with
  | nil => intro count pf c h; simp [innerScan] at h
  | cons r rest ih =>
    intro count pf c h
    cases hfs : findSub r.1 delim pfz with
    | none =>
      simp only [innerScan, hfs] at h ⊢
      by_cases hl : limit ≤ count + 1
      · rw [if_pos hl] at h; cases h
      · rw [if_neg hl] at h ⊢
        obtain ⟨h1, h2, h3⟩ := ih (count + 1) pf c h
        refine ⟨by omega, h2, ?_⟩
        simp only [List.length_cons]
        omega
    | some idx =>
      simp only [innerScan, hfs] at h ⊢
      by_cases hend : idx + delim.length = r.1.length
      · rw [if_pos hend] at h ⊢
        obtain ⟨h1, h2, h3⟩ := ih (count + 1) pf c h
        refine ⟨by omega, h2, ?_⟩
        simp only [List.length_cons]
        omega
      · rw [if_neg hend] at h ⊢
        by_cases hl : limit ≤ count
        · rw [if_pos hl] at h; cases h
        · rw [if_neg hl] at h ⊢
          simp only [Option.some_inj] at h
          have hc : pf = r.1.take (idx + delim.length) ∧ c = count := by
            have := congrArg Prod.fst h
            have h2c := congrArg Prod.snd h
            exact ⟨this.symm, h2c.symm⟩
          obtain ⟨rfl, rfl⟩ := hc
          exact ⟨le_refl _, by omega, by simp⟩

theorem innerScan_bound_hi (pfz : Nat) (delim : List Nat) (limit : Nat) :
    ∀ (rows : List QRow) (count : Nat), limit ≤ count + 1 →
      (innerScan pfz delim limit rows count).1.countP
        (fun r => (findSub r.1 delim pfz).isNone) ≤ 1 := by
  intro rows
  induction rows with
  | nil => intro count h; simp [innerScan]
  | cons r rest ih =>
    intro count h
    cases hfs : findSub r.1 delim pfz with
    | none =>
      simp only [innerScan, hfs]
      rw [if_pos (by omega : limit ≤ count + 1)]
      simp [List.countP_cons, hfs]
    | some idx =>
      simp only [innerScan, hfs]
      by_cases hend : idx + delim.length = r.1.length
      · rw [if_pos hend]
        have hr : (fun r : QRow => (findSub r.1 delim pfz).isNone) r = false := by
          simp [hfs]
        simp only [List.countP_cons, hr, if_false]
        have := ih (count + 1) (by omega)
        simpa using this
      · rw [if_neg hend]
        by_cases hl : limit ≤ count
        · rw [if_pos hl]; simp
        · rw [if_neg hl]; simp

theorem innerScan_bound_lo (pfz : Nat) (delim : List Nat) (limit : Nat) :
    ∀ (rows : List QRow) (count : Nat), count < limit →
      (innerScan pfz delim limit rows count).1.countP
        (fun r => (findSub r.1 delim pfz).isNone) + count ≤ limit := by
  intro rows
  induction rows with
  | nil => intro count h; simp [innerScan]; omega
  | cons r rest ih =>
    intro count h
    cases hfs : findSub r.1 delim pfz with
    | none =>
      simp only [innerScan, hfs]
      by_cases hl : limit ≤ count + 1
      · rw [if_pos hl]
        simp [List.countP_cons, hfs]
        omega
      · rw [if_neg hl]
        have := ih (count + 1) (by omega)
        simp [List.countP_cons, hfs]
        omega
    | some idx =>
      simp only [innerScan, hfs]
      by_cases hend : idx + delim.length = r.1.length
      · rw [if_pos hend]
        have hr : (findSub r.1 delim pfz).isNone = false := by
          simp [hfs]
        by_cases h2 : count + 1 < limit
        · have := ih (count + 1) h2
          simp [List.countP_cons, hr]
          omega
        · have := innerScan_bound_hi pfz delim limit rest (count + 1) (by omega)
          simp [List.countP_cons, hr]
          omega
      · rw [if_neg hend]
        by_cases hl : limit ≤ count
        · exact absurd hl (by omega)
        · rw [if_neg hl]
          simp
          omega


theorem scanLoop_bound (db : DB) (parent : Nat) (before ec : Int) (nextl : PathT)
    (pathq : List PathT) (fq : Option String) (pfz : Nat) (delim : List Nat)
    (limit : Nat) :
    ∀ (fuel : Nat) (start : PathT) (count : Nat) (M : List QRow) (P : List PathT),
      count < limit →
      scanLoop db parent before ec nextl pathq fq pfz delim limit fuel start count
        = some (M, P) →
      M.countP (fun r => (findSub r.1 delim pfz).isNone) + count ≤ limit := by
  intro fuel
  induction fuel with
  | zero => intro start count M P hc h; simp [scanLoop] at h
  | succ f ih =>
    intro start count M P hc h
    simp only [scanLoop] at h
    cases hk : (innerScan pfz delim limit
        (queryRows db parent before ec start nextl pathq fq) count).2.2 with
    | none =>
      rw [hk] at h
      simp only [Option.some_inj] at h
      have hM : M = (innerScan pfz delim limit
          (queryRows db parent before ec start nextl pathq fq) count).1 :=
        (congrArg Prod.fst h).symm
      rw [hM]
      exact innerScan_bound_lo pfz delim limit _ count hc
    | some pfc =>
      obtain ⟨pf, c2⟩ := pfc
      rw [hk] at h
      dsimp only at h
      obtain ⟨h1, h2, h3⟩ := innerScan_reissue pfz delim limit _ count pf c2
        (by rw [hk])
      cases hn : strnextling pf with
      | none => rw [hn] at h; cases h
      | some start' =>
        rw [hn] at h
        dsimp only at h
        cases hrec : scanLoop db parent before ec nextl pathq fq pfz delim limit
            f start' c2 with
        | none => rw [hrec] at h; cases h
        | some mp =>
          obtain ⟨m2, p2⟩ := mp
          rw [hrec] at h
          dsimp only at h
          simp only [Option.some_inj] at h
          have hM : M = (innerScan pfz delim limit
              (queryRows db parent before ec start nextl pathq fq) count).1 ++ m2 :=
            (congrArg Prod.fst h).symm
          have hih := ih start' c2 m2 p2 h2 hrec
          rw [hM, List.countP_append]
          have hle := List.countP_le_length
            (p := fun r : QRow => (findSub r.1 delim pfz).isNone)
            (l := (innerScan pfz delim limit
              (queryRows db parent before ec start nextl pathq fq) count).1)
          omega


/-- Claim C7 counterexample: with `limit = 1` over the paths `a/` and
`ab`, the path `a/` ends exactly with the delimiter and is accumulated
without a limit check ("Get one more, in case there is a path"), so TWO
matches are returned — more than `limit`. -/
theorem C7_counterexample :
    latest_version_list listCexDB 0 [] (some [47]) [] 1 100 0 [] none
      = some ([([97, 47], 1), ([97, 98], 2)], []) ∧ (1 : Nat) < 2 := by
  constructor
  · rfl
  · decide

/-- Claim C7 (amended): in a delimiter listing, at most `limit` of the
accumulated matches are plain (delimiter-free) paths — paths ending
exactly with the delimiter are accumulated without a limit check, so the
matches list itself can exceed `limit` — and a common prefix discovered
exactly at the limit boundary is still recorded in the common-prefix list
before the scan stops (shown on `listBoundaryDB`: `limit = 1` is reached
by the match `a/`, yet the prefix `b/` of the next row is recorded). -/
theorem C7_limit_amended (db : DB) (parent : Nat) (pfx : PathT) (delim : List Nat)
    (start : PathT) (limit : Nat) (before ec : Int) (pathq : List PathT)
    (fq : Option String) (M : List QRow) (P : List PathT)
    (hlim : 1 ≤ limit)
    (h : latest_version_list db parent pfx (some delim) start limit before ec pathq fq
          = some (M, P)) :
    M.countP (fun r => (findSub r.1 delim pfx.length).isNone) ≤ limit ∧
    latest_version_list listBoundaryDB 0 [] (some [47]) [] 1 100 0 [] none
      = some ([([97, 47], 1)], [[98, 47]]) := by
  constructor
  · simp only [latest_version_list] at h
    cases hn : strnextling pfx with
    | none => rw [hn] at h; cases h
    | some nextl =>
      rw [hn] at h
      dsimp only at h
      by_cases hde : delim.isEmpty
      · rw [if_pos hde] at h
        simp only [Option.some_inj] at h
        have hM : ((queryRows db parent before ec
            (if start.isEmpty || pathLtB start pfx then strprevling pfx else start)
            nextl pathq fq).take limit) = M := congrArg Prod.fst h
        rw [← hM]
        have h1 := List.countP_le_length
          (p := fun r : QRow => (findSub r.1 delim pfx.length).isNone)
          (l := (queryRows db parent before ec
            (if start.isEmpty || pathLtB start pfx then strprevling pfx else start)
            nextl pathq fq).take limit)
        have h2 := List.length_take_le limit (queryRows db parent before ec
            (if start.isEmpty || pathLtB start pfx then strprevling pfx else start)
            nextl pathq fq)
        omega
      · rw [if_neg hde] at h
        have := scanLoop_bound db parent before ec nextl pathq fq pfx.length delim
          limit (db.versions.length + 1) _ 0 M P (by omega) h
        omega
  · rfl

/-- Witness for C7 at concrete stores. -/
theorem C7_witness :
    (([([97, 47], 1), ([97, 98], 2)] : List QRow).countP
      (fun r => (findSub r.1 [47] 0).isNone) ≤ 1) ∧
    latest_version_list listBoundaryDB 0 [] (some [47]) [] 1 100 0 [] none
      = some ([([97, 47], 1)], [[98, 47]]) :=
  C7_limit_amended listCexDB 0 [] [47] [] 1 100 0 [] none
    [([97, 47], 1), ([97, 98], 2)] [] (by decide) (by rfl)

theorem statSize_update (stats : Stats) (n : Nat) (pop sz mt c : Int)
    (N : Nat) (c' : Int) :
    statSize (statistics_update stats n pop sz mt c) N c'
      = statSize stats N c' + (if N = n ∧ c' = c then sz else 0) := by
  by_cases h : N = n ∧ c' = c
  · obtain ⟨rfl, rfl⟩ := h
    simp only [statistics_update, statSize, if_pos (⟨rfl, rfl⟩ : N = N ∧ c' = c')]
    cases hs : stats N c' <;> simp [hs]
  · simp only [statistics_update, statSize, if_neg h]
    simp [h]

theorem statPop_update (stats : Stats) (n : Nat) (pop sz mt c : Int)
    (N : Nat) (c' : Int) :
    statPop (statistics_update stats n pop sz mt c) N c'
      = statPop stats N c' + (if N = n ∧ c' = c then pop else 0) := by
  by_cases h : N = n ∧ c' = c
  · obtain ⟨rfl, rfl⟩ := h
    simp only [statistics_update, statPop, if_pos (⟨rfl, rfl⟩ : N = N ∧ c' = c')]
    cases hs : stats N c' <;> simp [hs]
  · simp only [statistics_update, statPop, if_neg h]
    simp [h]

theorem statSize_walk (nodes : List NodeRow) :
    ∀ (fuel : Nat) (stats : Stats) (n : Nat) (pop sz mt c : Int) (N : Nat) (c' : Int),
      (ancestorChain nodes fuel n).Nodup →
      statSize (statistics_update_ancestors nodes stats fuel n pop sz mt c) N c'
        = statSize stats N c'
          + (if N ∈ ancestorChain nodes fuel n ∧ c' = c then sz else 0) := by
  intro fuel
  induction fuel with
  | zero =>
    intro stats n pop sz mt c N c' _
    simp [statistics_update_ancestors, ancestorChain]
  | succ f ih =>
    intro stats n pop sz mt c N c' hnd
    by_cases hn : n = 0
    · simp [statistics_update_ancestors, ancestorChain, hn]
    · cases hp : node_get_properties nodes n with
      | none => simp [statistics_update_ancestors, ancestorChain, hn, hp]
      | some pr =>
        obtain ⟨parent, path⟩ := pr
        have hch : ancestorChain nodes (f + 1) n = parent :: ancestorChain nodes f parent := by
          simp [ancestorChain, hn, hp]
        rw [hch] at hnd
        have hpar_notmem : parent ∉ ancestorChain nodes f parent :=
          (List.nodup_cons.mp hnd).1
        have hnd' : (ancestorChain nodes f parent).Nodup := (List.nodup_cons.mp hnd).2
        have hw : statistics_update_ancestors nodes stats (f + 1) n pop sz mt c
            = statistics_update_ancestors nodes
                (statistics_update stats parent pop sz mt c) f parent 0 sz mt c := by
          simp [statistics_update_ancestors, hn, hp]
        rw [hw, ih _ parent 0 sz mt c N c' hnd', statSize_update, hch]
        by_cases hmem : N ∈ parent :: ancestorChain nodes f parent
        · rcases List.mem_cons.mp hmem with rfl | hmem'
          · have h1 : N ∉ ancestorChain nodes f N := hpar_notmem
            by_cases hc : c' = c
            · simp [hmem, hc, h1]
            · simp [hc]
          · have h2 : N ∈ ancestorChain nodes f parent := hmem'
            have h3 : ¬(N = parent) := by
              intro hEq
              exact hpar_notmem (hEq ▸ hmem')
            by_cases hc : c' = c
            · simp [hmem, hc, h2, h3]
            · simp [hc]
        · have h2 : N ∉ ancestorChain nodes f parent := fun hm =>
            hmem (List.mem_cons_of_mem parent hm)
          have h3 : ¬(N = parent) := fun hEq =>
            hmem (hEq ▸ List.mem_cons_self parent _)
          simp [hmem, h2, h3]

theorem statPop_walk (nodes : List NodeRow) :
    ∀ (fuel : Nat) (stats : Stats) (n : Nat) (pop sz mt c : Int) (N : Nat) (c' : Int),
      statPop (statistics_update_ancestors nodes stats fuel n pop sz mt c) N c'
        = statPop stats N c'
          + (if (ancestorChain nodes fuel n).head? = some N ∧ c' = c then pop else 0) := by
  intro fuel
  induction fuel with
  | zero =>
    intro stats n pop sz mt c N c'
    simp [statistics_update_ancestors, ancestorChain]
  | succ f ih =>
    intro stats n pop sz mt c N c'
    by_cases hn : n = 0
    · simp [statistics_update_ancestors, ancestorChain, hn]
    · cases hp : node_get_properties nodes n with
      | none => simp [statistics_update_ancestors, ancestorChain, hn, hp]
      | some pr =>
        obtain ⟨parent, path⟩ := pr
        have hch : ancestorChain nodes (f + 1) n = parent :: ancestorChain nodes f parent := by
          simp [ancestorChain, hn, hp]
        have hw : statistics_update_ancestors nodes stats (f + 1) n pop sz mt c
            = statistics_update_ancestors nodes
                (statistics_update stats parent pop sz mt c) f parent 0 sz mt c := by
          simp [statistics_update_ancestors, hn, hp]
        rw [hw, ih _ parent 0 sz mt c N c', statPop_update, hch]
        have hz : (if (ancestorChain nodes f parent).head? = some N ∧ c' = c
            then (0 : Int) else 0) = 0 := by
          split <;> rfl
        rw [hz]
        simp only [List.head?_cons, Option.some_inj]
        by_cases hNp : parent = N
        · subst hNp
          by_cases hc : c' = c
          · simp [hc]
          · simp [hc]
        · have : ¬(N = parent) := fun hEq => hNp hEq.symm
          simp [hNp, this]

theorem sum_filter_map (l : List Version) (p : Version → Bool) (f : Version → Int) :
    ((l.filter p).map f).sum = (l.map (fun x => if p x then f x else 0)).sum := by
  induction l with
  | nil => rfl
  | cons x t ih =>
    cases hp : p x with
    | true =>
      rw [List.filter_cons_of_pos hp]
      simp [hp, ih]
    | false =>
      rw [List.filter_cons_of_neg (by simp [hp])]
      simp [hp, ih]

theorem sum_map_split (l : List Version) (q : Version → Bool) (g : Version → Int) :
    (l.map g).sum = ((l.filter q).map g).sum
      + ((l.filter (fun x => !q x)).map g).sum := by
  induction l with
  | nil => rfl
  | cons x t ih =>
    cases hq : q x with
    | true =>
      rw [List.filter_cons_of_pos hq, List.filter_cons_of_neg (by simp [hq])]
      simp [ih]
      omega
    | false =>
      rw [List.filter_cons_of_neg (by simp [hq]), List.filter_cons_of_pos (by simp [hq])]
      simp [ih]
      omega

theorem filter_serial_unique (l : List Version) (s : Nat) (v : Version)
    (hnodup : (l.map (fun w => w.serial)).Nodup)
    (hfind : l.find? (fun w => w.serial == s) = some v) :
    l.filter (fun w => w.serial == s) = [v] := by
  induction l with
  | nil => cases hfind
  | cons x t ih =>
    simp only [List.map_cons, List.nodup_cons] at hnodup
    cases hx : (x.serial == s) with
    | true =>
      simp only [List.find?_cons, hx, Option.some_inj] at hfind
      subst hfind
      simp only [List.filter_cons, hx, if_true]
      have ht : t.filter (fun w => w.serial == s) = [] := by
        rw [List.filter_eq_nil_iff]
        intro w hw hws
        apply hnodup.1
        rw [List.mem_map]
        exact ⟨w, hw, (beq_iff_eq.mp hws).trans (beq_iff_eq.mp hx).symm⟩
      rw [ht]
    | false =>
      simp only [List.find?_cons, hx] at hfind
      simp only [List.filter_cons, hx, Bool.false_eq_true, if_false]
      exact ih hnodup.2 hfind


theorem find?_filter_subsumed {α : Type} (l : List α) (p q : α → Bool)
    (h : ∀ x ∈ l, p x = true → q x = true) :
    (l.filter q).find? p = l.find? p := by
  induction l with
  | nil => rfl
  | cons a t ih =>
    have hrest : ∀ x ∈ t, p x = true → q x = true :=
      fun x hx => h x (List.mem_cons_of_mem a hx)
    cases hp : p a with
    | true =>
      have hq := h a (List.mem_cons_self a t) hp
      rw [List.filter_cons_of_pos hq]
      rw [List.find?_cons_of_pos _ hp, List.find?_cons_of_pos _ hp]
    | false =>
      cases hq : q a with
      | true =>
        rw [List.filter_cons_of_pos hq]
        rw [List.find?_cons_of_neg _ (by simp [hp]), List.find?_cons_of_neg _ (by simp [hp])]
        exact ih hrest
      | false =>
        rw [List.filter_cons_of_neg (by simp [hq]),
            List.find?_cons_of_neg _ (by simp [hp])]
        exact ih hrest

theorem node_get_properties_filter (nodes : List NodeRow) (q : NodeRow → Bool) (m : Nat)
    (hkeep : ∀ r ∈ nodes, r.node = m → q r = true) :
    node_get_properties (nodes.filter q) m = node_get_properties nodes m := by
  unfold node_get_properties
  rw [find?_filter_subsumed]
  intro r hr hp
  exact hkeep r hr (by simpa using hp)

theorem chain_filter_eq (nodes : List NodeRow) (q : NodeRow → Bool) :
    ∀ (fuel : Nat) (m : Nat),
      (∀ r ∈ nodes, r.node = m → q r = true) →
      (∀ x ∈ ancestorChain nodes fuel m, ∀ r ∈ nodes, r.node = x → q r = true) →
      ancestorChain (nodes.filter q) fuel m = ancestorChain nodes fuel m := by
  intro fuel
  induction fuel with
  | zero => intro m _ _; rfl
  | succ f ih =>
    intro m hm hch
    by_cases h0 : m = 0
    · simp [ancestorChain, h0]
    · cases hp : node_get_properties nodes m with
      | none =>
        simp [ancestorChain, h0, node_get_properties_filter nodes q m hm, hp]
      | some pr =>
        obtain ⟨parent, path⟩ := pr
        have hchain : ancestorChain nodes (f + 1) m
            = parent :: ancestorChain nodes f parent := by
          simp [ancestorChain, h0, hp]
        have hparent_mem : parent ∈ ancestorChain nodes (f + 1) m := by
          rw [hchain]; exact List.mem_cons_self _ _
        have hsub : ∀ x ∈ ancestorChain nodes f parent,
            ∀ r ∈ nodes, r.node = x → q r = true := by
          intro x hx
          apply hch
          rw [hchain]
          exact List.mem_cons_of_mem parent hx
        have hpm : ∀ r ∈ nodes, r.node = parent → q r = true := hch parent hparent_mem
        have := ih parent hpm hsub
        simp [ancestorChain, h0, node_get_properties_filter nodes q m hm, hp, this]

theorem chain_fuel_stable (nodes : List NodeRow) :
    ∀ (f : Nat) (g : Nat) (m : Nat), f ≤ g →
      (ancestorChain nodes g m).length < f →
      ancestorChain nodes f m = ancestorChain nodes g m := by
  intro f
  induction f with
  | zero => intro g m _ h; omega
  | succ f' ih =>
    intro g m hfg hlen
    cases g with
    | zero => omega
    | succ g' =>
      by_cases h0 : m = 0
      · simp [ancestorChain, h0]
      · cases hp : node_get_properties nodes m with
        | none => simp [ancestorChain, h0, hp]
        | some pr =>
          obtain ⟨parent, path⟩ := pr
          have hg : ancestorChain nodes (g' + 1) m
              = parent :: ancestorChain nodes g' parent := by
            simp [ancestorChain, h0, hp]
          rw [hg] at hlen
          simp only [List.length_cons] at hlen
          have hrec := ih g' parent (by omega) (by omega)
          simp [ancestorChain, h0, hp, hrec, hg]

theorem chain_subset_ids (nodes : List NodeRow)
    (hpe : ∀ r ∈ nodes, nodes.any (fun t => t.node == r.parent) = true) :
    ∀ (fuel : Nat) (m : Nat) (x : Nat), x ∈ ancestorChain nodes fuel m →
      ∃ r ∈ nodes, r.node = x := by
  intro fuel
  induction fuel with
  | zero => intro m x hx; simp [ancestorChain] at hx
  | succ f ih =>
    intro m x hx
    by_cases h0 : m = 0
    · simp [ancestorChain, h0] at hx
    · cases hp : node_get_properties nodes m with
      | none => simp [ancestorChain, h0, hp] at hx
      | some pr =>
        obtain ⟨parent, path⟩ := pr
        have hchain : ancestorChain nodes (f + 1) m
            = parent :: ancestorChain nodes f parent := by
          simp [ancestorChain, h0, hp]
        rw [hchain] at hx
        rcases List.mem_cons.mp hx with rfl | hx'
        · obtain ⟨r, hr, _, hrp, _⟩ := node_get_properties_mem nodes m (x, path) hp
          have hany := hpe r hr
          rw [List.any_eq_true] at hany
          obtain ⟨t, ht, htp⟩ := hany
          refine ⟨t, ht, ?_⟩
          rw [hrp] at htp
          exact beq_iff_eq.mp htp
        · exact ih parent x hx' 

theorem nodup_subset_length {α : Type} [DecidableEq α] (l l' : List α)
    (h : l.Nodup) (hs : ∀ x ∈ l, x ∈ l') : l.length ≤ l'.length := by
  calc l.length = l.toFinset.card := (List.toFinset_card_of_nodup h).symm
    _ ≤ l'.toFinset.card := by
        apply Finset.card_le_card
        intro x hx
        rw [List.mem_toFinset] at hx ⊢
        exact hs x hx
    _ ≤ l'.length := l'.toFinset_card_le

theorem if_chain_size (ch : List Nat) (N : Nat) (c cluster sz : Int) :
    (if N ∈ ch ∧ c = cluster then sz else 0)
      = (if (cluster == c && ch.contains N) = true then sz else 0) := by
  by_cases h1 : N ∈ ch <;> by_cases h2 : c = cluster
  · simp [h1, h2]
  · have h2' : ¬cluster = c := fun h => h2 h.symm
    simp [h1, h2, h2']
  · have h2' : cluster = c := h2.symm
    simp [h1, h2']
  · have h2' : ¬cluster = c := fun h => h2 h.symm
    simp [h1, h2, h2']

theorem InvSize_version_create (db : DB) (now : Int) (node : Nat) (hash : String)
    (size : Int) (source : Option Nat) (muser : String) (cluster : Int)
    (hinv : InvSize db)
    (hnd : (ancestorChain db.nodes (chainFuel db) node).Nodup) :
    InvSize (version_create db now node hash size source muser cluster).2 := by
  intro r hr c
  have h1 : storedSize (version_create db now node hash size source muser cluster).2
      r.node c
      = storedSize db r.node c
        + (if r.node ∈ ancestorChain db.nodes (chainFuel db) node ∧ c = cluster
           then size else 0) := by
    show statSize (statistics_update_ancestors db.nodes db.stats (chainFuel db)
      node 1 size now cluster) r.node c = _
    rw [statSize_walk db.nodes (chainFuel db) db.stats node 1 size now cluster
      r.node c hnd]
    rfl
  have h2 : subtreeSize (version_create db now node hash size source muser cluster).2
      r.node c
      = subtreeSize db r.node c
        + (if (cluster == c
            && (ancestorChain db.nodes (chainFuel db) node).contains r.node) = true
           then size else 0) := by
    show (((db.versions ++ [(⟨nextSerial db, node, hash, size, source, now, muser,
        cluster⟩ : Version)]).filter (fun v : Version => v.cluster == c
          && (ancestorChain db.nodes (chainFuel db) v.node).contains r.node)).map
        (fun v : Version => v.size)).sum = _
    rw [List.filter_append, List.map_append, List.sum_append]
    congr 1
    by_cases hb : (cluster == c
        && (ancestorChain db.nodes (chainFuel db) node).contains r.node) = true
    · rw [if_pos hb]
      simp at hb
      simp [List.filter_cons, hb]
    · rw [if_neg hb]
      have hemp : (List.filter (fun v : Version => v.cluster == c
          && (ancestorChain db.nodes (chainFuel db) v.node).contains r.node)
          [(⟨nextSerial db, node, hash, size, source, now, muser, cluster⟩ : Version)])
          = [] := by
        rw [List.filter_eq_nil_iff]
        intro v hv
        simp only [List.mem_singleton] at hv
        subst hv
        simpa using hb
      rw [hemp]
      rfl
  rw [h1, h2, hinv r hr c, if_chain_size]


theorem chain_head (nodes : List NodeRow) (fuel : Nat) (node : Nat) :
    (ancestorChain nodes (fuel + 1) node).head?
      = if node = 0 then none else (node_get_properties nodes node).map Prod.fst := by
  by_cases h0 : node = 0
  · simp [ancestorChain, h0]
  · cases hp : node_get_properties nodes node with
    | none => simp [ancestorChain, h0, hp]
    | some pr =>
      obtain ⟨parent, path⟩ := pr
      simp [ancestorChain, h0, hp]

theorem InvPop_version_create (db : DB) (now : Int) (node : Nat) (hash : String)
    (size : Int) (source : Option Nat) (muser : String) (cluster : Int)
    (hinv : InvPop db) :
    InvPop (version_create db now node hash size source muser cluster).2 := by
  intro r hr c
  have h1 : storedPop (version_create db now node hash size source muser cluster).2
      r.node c
      = storedPop db r.node c
        + (if (ancestorChain db.nodes (chainFuel db) node).head? = some r.node
              ∧ c = cluster
           then 1 else 0) := by
    show statPop (statistics_update_ancestors db.nodes db.stats (chainFuel db)
      node 1 size now cluster) r.node c = _
    rw [statPop_walk db.nodes (chainFuel db) db.stats node 1 size now cluster r.node c]
    rfl
  have h2 : childPop (version_create db now node hash size source muser cluster).2
      r.node c
      = childPop db r.node c
        + (if (cluster == c && node != 0
            && ((node_get_properties db.nodes node).map Prod.fst == some r.node)) = true
           then 1 else 0) := by
    show ((((db.versions ++ [(⟨nextSerial db, node, hash, size, source, now, muser,
        cluster⟩ : Version)]).filter (fun v : Version => v.cluster == c && v.node != 0
          && ((node_get_properties db.nodes v.node).map Prod.fst == some r.node))).length
        : Int)) = _
    rw [List.filter_append, List.length_append]
    push_cast
    congr 1
    by_cases hb : (cluster == c && node != 0
        && ((node_get_properties db.nodes node).map Prod.fst == some r.node)) = true
    · rw [if_pos hb]
      simp only [List.filter_cons, List.filter_nil]
      rw [if_pos hb]
      rfl
    · rw [if_neg hb]
      have hemp : (List.filter (fun v : Version => v.cluster == c && v.node != 0
          && ((node_get_properties db.nodes v.node).map Prod.fst == some r.node))
          [(⟨nextSerial db, node, hash, size, source, now, muser, cluster⟩ : Version)])
          = [] := by
        rw [List.filter_eq_nil_iff]
        intro v hv
        simp only [List.mem_singleton] at hv
        subst hv
        exact fun hc => hb hc
      rw [hemp]
      rfl
  rw [h1, h2, hinv r hr c]
  congr 1
  have hfuel : chainFuel db = db.nodes.length + 1 := rfl
  by_cases h0 : node = 0
  · rw [hfuel, chain_head, if_pos h0]
    have hb : (cluster == c && node != 0
        && ((node_get_properties db.nodes node).map Prod.fst == some r.node)) = false := by
      subst h0
      simp
    simp [hb]
  · rw [hfuel, chain_head, if_neg h0]
    cases hp : node_get_properties db.nodes node with
    | none =>
      have hb : (cluster == c && node != 0
          && ((node_get_properties db.nodes node).map Prod.fst == some r.node))
          = false := by
        rw [hp]
        simp
      simp [hb]
    | some pr =>
      by_cases hpar : pr.1 = r.node <;> by_cases hc : c = cluster
      · have hc' : cluster = c := hc.symm
        simp [hpar, hc', h0]
      · have hc' : ¬cluster = c := fun h => hc h.symm
        simp [hpar, hc, hc', h0]
      · have hc' : cluster = c := hc.symm
        simp [hpar, hc', h0]
      · have hc' : ¬cluster = c := fun h => hc h.symm
        simp [hpar, hc, hc', h0]


theorem chains_nodup_all (db : DB) (h : ChainsNodup db) :
    ∀ m : Nat, (ancestorChain db.nodes (chainFuel db) m).Nodup := by
  intro m
  by_cases h0 : m = 0
  · subst h0
    show (ancestorChain db.nodes (db.nodes.length + 1) 0).Nodup
    simp [ancestorChain]
  · cases hf : db.nodes.find? (fun r => r.node == m) with
    | none =>
      show (ancestorChain db.nodes (db.nodes.length + 1) m).Nodup
      have hp : node_get_properties db.nodes m = none := by
        simp [node_get_properties, hf]
      simp [ancestorChain, h0, hp]
    | some r =>
      have hrm : r.node = m := by
        have := List.find?_some hf
        simpa using this
      have hmem := List.mem_of_find?_eq_some hf
      have := h r hmem
      rw [hrm] at this
      exact this

theorem chainMem_iff (ch : List Nat) (N : Nat) (c cluster : Int) :
    (N ∈ ch ∧ c = cluster) ↔ ((cluster == c && ch.contains N) = true) := by
  simp only [Bool.and_eq_true, beq_iff_eq, List.elem_eq_mem, decide_eq_true_eq]
  constructor
  · rintro ⟨h1, h2⟩; exact ⟨h2.symm, h1⟩
  · rintro ⟨h1, h2⟩; exact ⟨h2, h1.symm⟩

theorem headPred_iff (nodes : List NodeRow) (fuel : Nat) (node N : Nat)
    (c cluster : Int) :
    ((ancestorChain nodes (fuel + 1) node).head? = some N ∧ c = cluster)
      ↔ ((cluster == c && node != 0
          && ((node_get_properties nodes node).map Prod.fst == some N)) = true) := by
  rw [chain_head]
  by_cases h0 : node = 0
  · simp [h0]
  · cases hp : node_get_properties nodes node with
    | none => simp [h0, hp]
    | some pr =>
      rw [if_neg h0]
      simp only [Option.map_some', Option.some_inj, Bool.and_eq_true, beq_iff_eq,
        bne_iff_ne, ne_eq]
      constructor
      · rintro ⟨h1, h2⟩
        exact ⟨⟨h2.symm, h0⟩, h1⟩
      · rintro ⟨⟨h1, _⟩, h2⟩
        exact ⟨h2, h1.symm⟩

theorem countP_split (l : List Version) (q p : Version → Bool) :
    l.countP p = (l.filter q).countP p + (l.filter (fun x => !q x)).countP p := by
  induction l with
  | nil => rfl
  | cons x t ih =>
    cases hq : q x with
    | true =>
      rw [List.filter_cons_of_pos hq, List.filter_cons_of_neg (by simp [hq])]
      simp only [List.countP_cons, ih]
      omega
    | false =>
      rw [List.filter_cons_of_neg (by simp [hq]), List.filter_cons_of_pos (by simp [hq])]
      simp only [List.countP_cons, ih]
      omega

theorem InvSize_version_remove (db : DB) (now : Int) (serial : Nat)
    (hinv : InvSize db) (hser : SerialsNodup db)
    (hnd : ∀ m : Nat, (ancestorChain db.nodes (chainFuel db) m).Nodup) :
    InvSize (version_remove db now serial).2 := by
  cases hv : version_get_properties db serial with
  | none =>
    have : (version_remove db now serial).2 = db := by
      simp [version_remove, hv]
    rw [this]
    exact hinv
  | some v =>
    have hdb : (version_remove db now serial).2
        = { db with
            versions := db.versions.filter (fun w => !(w.serial == serial)),
            attributes := db.attributes.filter (fun a => !(a.serial == serial)),
            stats := statistics_update_ancestors db.nodes db.stats (chainFuel db)
              v.node (-1) (-v.size) now v.cluster } := by
      simp [version_remove, hv]
    rw [hdb]
    intro r hr c
    have hfe : db.versions.filter (fun w => w.serial == serial) = [v] :=
      filter_serial_unique db.versions serial v hser hv
    have h1 : storedSize ({ db with
            versions := db.versions.filter (fun w => !(w.serial == serial)),
            attributes := db.attributes.filter (fun a => !(a.serial == serial)),
            stats := statistics_update_ancestors db.nodes db.stats (chainFuel db)
              v.node (-1) (-v.size) now v.cluster } : DB) r.node c
        = storedSize db r.node c
          + (if r.node ∈ ancestorChain db.nodes (chainFuel db) v.node ∧ c = v.cluster
             then -v.size else 0) := by
      show statSize (statistics_update_ancestors db.nodes db.stats (chainFuel db)
        v.node (-1) (-v.size) now v.cluster) r.node c = _
      rw [statSize_walk db.nodes (chainFuel db) db.stats v.node (-1) (-v.size) now
        v.cluster r.node c (hnd v.node)]
      rfl
    have h2 : subtreeSize ({ db with
            versions := db.versions.filter (fun w => !(w.serial == serial)),
            attributes := db.attributes.filter (fun a => !(a.serial == serial)),
            stats := statistics_update_ancestors db.nodes db.stats (chainFuel db)
              v.node (-1) (-v.size) now v.cluster } : DB) r.node c
        = subtreeSize db r.node c
          - (if (v.cluster == c
              && (ancestorChain db.nodes (chainFuel db) v.node).contains r.node) = true
             then v.size else 0) := by
      show (((db.versions.filter (fun w => !(w.serial == serial))).filter
          (fun w : Version => w.cluster == c
            && (ancestorChain db.nodes (chainFuel db) w.node).contains r.node)).map
          (fun w : Version => w.size)).sum = _
      rw [sum_filter_map]
      have hsplit := sum_map_split db.versions (fun w => !(w.serial == serial))
        (fun x : Version => if (x.cluster == c
          && (ancestorChain db.nodes (chainFuel db) x.node).contains r.node) = true
          then x.size else 0)
      have hneg : db.versions.filter
          (fun x => !(fun w => !(w.serial == serial)) x) = [v] := by
        rw [← hfe]
        congr 1
        funext x
        simp
      rw [hneg] at hsplit
      simp only [List.map_cons, List.map_nil, List.sum_cons, List.sum_nil] at hsplit
      have hsub : subtreeSize db r.node c
          = (db.versions.map (fun x : Version => if (x.cluster == c
              && (ancestorChain db.nodes (chainFuel db) x.node).contains r.node) = true
              then x.size else 0)).sum := by
        show ((db.versions.filter (fun w : Version => w.cluster == c
            && (ancestorChain db.nodes (chainFuel db) w.node).contains r.node)).map
            (fun w : Version => w.size)).sum = _
        rw [sum_filter_map]
      rw [hsub]
      omega
    rw [h1, h2, hinv r hr c]
    by_cases hb : (v.cluster == c
        && (ancestorChain db.nodes (chainFuel db) v.node).contains r.node) = true
    · rw [if_pos hb, if_pos ((chainMem_iff _ _ _ _).mpr hb)]
      omega
    · rw [if_neg hb, if_neg (fun hc => hb ((chainMem_iff _ _ _ _).mp hc))]
      omega

theorem InvPop_version_remove (db : DB) (now : Int) (serial : Nat)
    (hinv : InvPop db) (hser : SerialsNodup db) :
    InvPop (version_remove db now serial).2 := by
  cases hv : version_get_properties db serial with
  | none =>
    have : (version_remove db now serial).2 = db := by
      simp [version_remove, hv]
    rw [this]
    exact hinv
  | some v =>
    have hdb : (version_remove db now serial).2
        = { db with
            versions := db.versions.filter (fun w => !(w.serial == serial)),
            attributes := db.attributes.filter (fun a => !(a.serial == serial)),
            stats := statistics_update_ancestors db.nodes db.stats (chainFuel db)
              v.node (-1) (-v.size) now v.cluster } := by
      simp [version_remove, hv]
    rw [hdb]
    intro r hr c
    have hfe : db.versions.filter (fun w => w.serial == serial) = [v] :=
      filter_serial_unique db.versions serial v hser hv
    have h1 : storedPop ({ db with
            versions := db.versions.filter (fun w => !(w.serial == serial)),
            attributes := db.attributes.filter (fun a => !(a.serial == serial)),
            stats := statistics_update_ancestors db.nodes db.stats (chainFuel db)
              v.node (-1) (-v.size) now v.cluster } : DB) r.node c
        = storedPop db r.node c
          + (if (ancestorChain db.nodes (chainFuel db) v.node).head? = some r.node
                ∧ c = v.cluster
             then -1 else 0) := by
      show statPop (statistics_update_ancestors db.nodes db.stats (chainFuel db)
        v.node (-1) (-v.size) now v.cluster) r.node c = _
      rw [statPop_walk db.nodes (chainFuel db) db.stats v.node (-1) (-v.size) now
        v.cluster r.node c]
      rfl
    have h2 : childPop ({ db with
            versions := db.versions.filter (fun w => !(w.serial == serial)),
            attributes := db.attributes.filter (fun a => !(a.serial == serial)),
            stats := statistics_update_ancestors db.nodes db.stats (chainFuel db)
              v.node (-1) (-v.size) now v.cluster } : DB) r.node c
        = childPop db r.node c
          - (if (v.cluster == c && v.node != 0
              && ((node_get_properties db.nodes v.node).map Prod.fst == some r.node))
              = true
             then 1 else 0) := by
      show (((db.versions.filter (fun w => !(w.serial == serial))).filter
          (fun w : Version => w.cluster == c && w.node != 0
            && ((node_get_properties db.nodes w.node).map Prod.fst == some r.node))).length
          : Int) = _
      rw [← List.countP_eq_length_filter]
      have hsplit := countP_split db.versions (fun w => w.serial == serial)
        (fun w : Version => w.cluster == c && w.node != 0
          && ((node_get_properties db.nodes w.node).map Prod.fst == some r.node))
      rw [hfe] at hsplit
      simp only [List.countP_cons, List.countP_nil, Nat.zero_add] at hsplit
      have hchild : childPop db r.node c
          = ((db.versions.countP (fun w : Version => w.cluster == c && w.node != 0
              && ((node_get_properties db.nodes w.node).map Prod.fst == some r.node)))
            : Int) := by
        show ((db.versions.filter (fun w : Version => w.cluster == c && w.node != 0
            && ((node_get_properties db.nodes w.node).map Prod.fst
              == some r.node))).length : Int) = _
        rw [← List.countP_eq_length_filter]
      rw [hchild]
      by_cases hb : (v.cluster == c && v.node != 0
          && ((node_get_properties db.nodes v.node).map Prod.fst == some r.node)) = true
      · rw [if_pos hb]
        rw [if_pos hb] at hsplit
        omega
      · rw [if_neg hb]
        rw [if_neg hb] at hsplit
        omega
    rw [h1, h2, hinv r hr c]
    have hfz : chainFuel db = db.nodes.length + 1 := rfl
    rw [hfz]
    by_cases hb : (v.cluster == c && v.node != 0
        && ((node_get_properties db.nodes v.node).map Prod.fst == some r.node)) = true
    · rw [if_pos hb, if_pos ((headPred_iff db.nodes db.nodes.length v.node r.node
        c v.cluster).mpr hb)]
      omega
    · rw [if_neg hb, if_neg (fun hc => hb ((headPred_iff db.nodes db.nodes.length
        v.node r.node c v.cluster).mp hc))]
      omega


theorem InvSize_version_recluster (db : DB) (now : Int) (serial : Nat) (cluster : Int)
    (hinv : InvSize db) (hser : SerialsNodup db)
    (hnd : ∀ m : Nat, (ancestorChain db.nodes (chainFuel db) m).Nodup) :
    InvSize (version_recluster db now serial cluster) := by
  cases hv : version_get_properties db serial with
  | none =>
    have heq : version_recluster db now serial cluster = db := by
      simp [version_recluster, hv]
    rw [heq]
    exact hinv
  | some v =>
    by_cases hc : cluster = v.cluster
    · rw [version_recluster_noop db now serial cluster v hv hc]
      exact hinv
    · have hveq : (v.serial == serial) = true := by
        have := List.find?_some hv
        simpa using this
      have hdb : version_recluster db now serial cluster
          = { db with
              versions := db.versions.map
                (fun w => if w.serial == serial then { w with cluster := cluster } else w),
              stats := statistics_update_ancestors db.nodes
                (statistics_update_ancestors db.nodes db.stats (chainFuel db)
                  v.node (-1) (-v.size) now v.cluster) (chainFuel db)
                v.node 1 v.size now cluster } := by
        simp [version_recluster, hv, hc]
      rw [hdb]
      intro r hr c
      have hfe : db.versions.filter (fun w => w.serial == serial) = [v] :=
        filter_serial_unique db.versions serial v hser hv
      have h1 : storedSize ({ db with
              versions := db.versions.map
                (fun w => if w.serial == serial then { w with cluster := cluster } else w),
              stats := statistics_update_ancestors db.nodes
                (statistics_update_ancestors db.nodes db.stats (chainFuel db)
                  v.node (-1) (-v.size) now v.cluster) (chainFuel db)
                v.node 1 v.size now cluster } : DB) r.node c
          = storedSize db r.node c
            + (if r.node ∈ ancestorChain db.nodes (chainFuel db) v.node ∧ c = v.cluster
               then -v.size else 0)
            + (if r.node ∈ ancestorChain db.nodes (chainFuel db) v.node ∧ c = cluster
               then v.size else 0) := by
        show statSize (statistics_update_ancestors db.nodes
            (statistics_update_ancestors db.nodes db.stats (chainFuel db)
              v.node (-1) (-v.size) now v.cluster) (chainFuel db)
            v.node 1 v.size now cluster) r.node c = _
        rw [statSize_walk db.nodes (chainFuel db) _ v.node 1 v.size now cluster
          r.node c (hnd v.node)]
        rw [statSize_walk db.nodes (chainFuel db) db.stats v.node (-1) (-v.size) now
          v.cluster r.node c (hnd v.node)]
        rfl
      have h2 : subtreeSize ({ db with
              versions := db.versions.map
                (fun w => if w.serial == serial then { w with cluster := cluster } else w),
              stats := statistics_update_ancestors db.nodes
                (statistics_update_ancestors db.nodes db.stats (chainFuel db)
                  v.node (-1) (-v.size) now v.cluster) (chainFuel db)
                v.node 1 v.size now cluster } : DB) r.node c
          = subtreeSize db r.node c
            - (if (v.cluster == c
                && (ancestorChain db.nodes (chainFuel db) v.node).contains r.node) = true
               then v.size else 0)
            + (if (cluster == c
                && (ancestorChain db.nodes (chainFuel db) v.node).contains r.node) = true
               then v.size else 0) := by
        show (((db.versions.map
            (fun w => if w.serial == serial then { w with cluster := cluster } else w)).filter
            (fun w : Version => w.cluster == c
              && (ancestorChain db.nodes (chainFuel db) w.node).contains r.node)).map
            (fun w : Version => w.size)).sum = _
        rw [sum_filter_map, List.map_map]
        have hsplit := sum_map_split db.versions (fun w => w.serial == serial)
          ((fun x : Version => if (x.cluster == c
            && (ancestorChain db.nodes (chainFuel db) x.node).contains r.node) = true
            then x.size else 0) ∘
           (fun w => if w.serial == serial then { w with cluster := cluster } else w))
        rw [hfe] at hsplit
        simp only [List.map_cons, List.map_nil, List.sum_cons, List.sum_nil] at hsplit
        have hcong : ((db.versions.filter (fun x => !(x.serial == serial))).map
            ((fun x : Version => if (x.cluster == c
              && (ancestorChain db.nodes (chainFuel db) x.node).contains r.node) = true
              then x.size else 0) ∘
             (fun w => if w.serial == serial then { w with cluster := cluster } else w)))
            = ((db.versions.filter (fun x => !(x.serial == serial))).map
              (fun x : Version => if (x.cluster == c
                && (ancestorChain db.nodes (chainFuel db) x.node).contains r.node) = true
                then x.size else 0)) := by
          apply List.map_congr_left
          intro x hx
          have hxs : (x.serial == serial) = false := by
            have := (List.mem_filter.mp hx).2
            simpa using this
          simp [Function.comp, hxs]
        rw [hcong] at hsplit
        have hsub : subtreeSize db r.node c
            = (db.versions.map (fun x : Version => if (x.cluster == c
                && (ancestorChain db.nodes (chainFuel db) x.node).contains r.node) = true
                then x.size else 0)).sum := by
          show ((db.versions.filter (fun w : Version => w.cluster == c
              && (ancestorChain db.nodes (chainFuel db) w.node).contains r.node)).map
              (fun w : Version => w.size)).sum = _
          rw [sum_filter_map]
        have hsplit2 := sum_map_split db.versions (fun w => w.serial == serial)
          (fun x : Version => if (x.cluster == c
            && (ancestorChain db.nodes (chainFuel db) x.node).contains r.node) = true
            then x.size else 0)
        rw [hfe] at hsplit2
        simp only [List.map_cons, List.map_nil, List.sum_cons, List.sum_nil] at hsplit2
        rw [hsub, hsplit2]
        have hupd : ((fun x : Version => if (x.cluster == c
            && (ancestorChain db.nodes (chainFuel db) x.node).contains r.node) = true
            then x.size else 0) ∘
           (fun w => if w.serial == serial then { w with cluster := cluster } else w)) v
            = (if (cluster == c
                && (ancestorChain db.nodes (chainFuel db) v.node).contains r.node) = true
               then v.size else 0) := by
          simp [Function.comp, hveq]
        rw [hupd] at hsplit
        omega
      rw [h1, h2, hinv r hr c]
      by_cases hm : r.node ∈ ancestorChain db.nodes (chainFuel db) v.node <;>
        by_cases hc1 : c = v.cluster <;> by_cases hc2 : c = cluster <;>
          simp [hm, hc1, hc2] <;> omega


theorem InvPop_version_recluster (db : DB) (now : Int) (serial : Nat) (cluster : Int)
    (hinv : InvPop db) (hser : SerialsNodup db) :
    InvPop (version_recluster db now serial cluster) := by
  cases hv : version_get_properties db serial with
  | none =>
    have heq : version_recluster db now serial cluster = db := by
      simp [version_recluster, hv]
    rw [heq]
    exact hinv
  | some v =>
    by_cases hc : cluster = v.cluster
    · rw [version_recluster_noop db now serial cluster v hv hc]
      exact hinv
    · have hveq : (v.serial == serial) = true := by
        have := List.find?_some hv
        simpa using this
      have hdb : version_recluster db now serial cluster
          = { db with
              versions := db.versions.map
                (fun w => if w.serial == serial then { w with cluster := cluster } else w),
              stats := statistics_update_ancestors db.nodes
                (statistics_update_ancestors db.nodes db.stats (chainFuel db)
                  v.node (-1) (-v.size) now v.cluster) (chainFuel db)
                v.node 1 v.size now cluster } := by
        simp [version_recluster, hv, hc]
      rw [hdb]
      intro r hr c
      have hfe : db.versions.filter (fun w => w.serial == serial) = [v] :=
        filter_serial_unique db.versions serial v hser hv
      have h1 : storedPop ({ db with
              versions := db.versions.map
                (fun w => if w.serial == serial then { w with cluster := cluster } else w),
              stats := statistics_update_ancestors db.nodes
                (statistics_update_ancestors db.nodes db.stats (chainFuel db)
                  v.node (-1) (-v.size) now v.cluster) (chainFuel db)
                v.node 1 v.size now cluster } : DB) r.node c
          = storedPop db r.node c
            + (if (ancestorChain db.nodes (chainFuel db) v.node).head? = some r.node
                  ∧ c = v.cluster
               then -1 else 0)
            + (if (ancestorChain db.nodes (chainFuel db) v.node).head? = some r.node
                  ∧ c = cluster
               then 1 else 0) := by
        show statPop (statistics_update_ancestors db.nodes
            (statistics_update_ancestors db.nodes db.stats (chainFuel db)
              v.node (-1) (-v.size) now v.cluster) (chainFuel db)
            v.node 1 v.size now cluster) r.node c = _
        rw [statPop_walk db.nodes (chainFuel db) _ v.node 1 v.size now cluster r.node c]
        rw [statPop_walk db.nodes (chainFuel db) db.stats v.node (-1) (-v.size) now
          v.cluster r.node c]
        rfl
      have h2 : childPop ({ db with
              versions := db.versions.map
                (fun w => if w.serial == serial then { w with cluster := cluster } else w),
              stats := statistics_update_ancestors db.nodes
                (statistics_update_ancestors db.nodes db.stats (chainFuel db)
                  v.node (-1) (-v.size) now v.cluster) (chainFuel db)
                v.node 1 v.size now cluster } : DB) r.node c
          = childPop db r.node c
            - (if (v.cluster == c && v.node != 0
                && ((node_get_properties db.nodes v.node).map Prod.fst == some r.node))
                = true
               then 1 else 0)
            + (if (cluster == c && v.node != 0
                && ((node_get_properties db.nodes v.node).map Prod.fst == some r.node))
                = true
               then 1 else 0) := by
        show (((db.versions.map
            (fun w => if w.serial == serial then { w with cluster := cluster } else w)).filter
            (fun w : Version => w.cluster == c && w.node != 0
              && ((node_get_properties db.nodes w.node).map Prod.fst
                == some r.node))).length : Int) = _
        rw [← List.countP_eq_length_filter, List.countP_map]
        have hsplit := countP_split db.versions (fun w => w.serial == serial)
          ((fun w : Version => w.cluster == c && w.node != 0
            && ((node_get_properties db.nodes w.node).map Prod.fst == some r.node)) ∘
           (fun w => if w.serial == serial then { w with cluster := cluster } else w))
        rw [hfe] at hsplit
        simp only [List.countP_cons, List.countP_nil, Nat.zero_add] at hsplit
        have hcong : (db.versions.filter (fun x => !(x.serial == serial))).countP
            ((fun w : Version => w.cluster == c && w.node != 0
              && ((node_get_properties db.nodes w.node).map Prod.fst == some r.node)) ∘
             (fun w => if w.serial == serial then { w with cluster := cluster } else w))
            = (db.versions.filter (fun x => !(x.serial == serial))).countP
              (fun w : Version => w.cluster == c && w.node != 0
                && ((node_get_properties db.nodes w.node).map Prod.fst
                  == some r.node)) := by
          apply List.countP_congr
          intro x hx
          have hxs : (x.serial == serial) = false := by
            have := (List.mem_filter.mp hx).2
            simpa using this
          simp [Function.comp, hxs]
        rw [hcong] at hsplit
        have hchild : childPop db r.node c
            = ((db.versions.countP (fun w : Version => w.cluster == c && w.node != 0
                && ((node_get_properties db.nodes w.node).map Prod.fst
                  == some r.node))) : Int) := by
          show ((db.versions.filter (fun w : Version => w.cluster == c && w.node != 0
              && ((node_get_properties db.nodes w.node).map Prod.fst
                == some r.node))).length : Int) = _
          rw [← List.countP_eq_length_filter]
        have hsplit2 := countP_split db.versions (fun w => w.serial == serial)
          (fun w : Version => w.cluster == c && w.node != 0
            && ((node_get_properties db.nodes w.node).map Prod.fst == some r.node))
        rw [hfe] at hsplit2
        simp only [List.countP_cons, List.countP_nil, Nat.zero_add] at hsplit2
        have hupd : ((fun w : Version => w.cluster == c && w.node != 0
            && ((node_get_properties db.nodes w.node).map Prod.fst == some r.node)) ∘
           (fun w => if w.serial == serial then { w with cluster := cluster } else w)) v
            = (cluster == c && v.node != 0
              && ((node_get_properties db.nodes v.node).map Prod.fst == some r.node)) := by
          simp [Function.comp, hveq]
        rw [hupd] at hsplit
        rw [hchild]
        by_cases hb1 : (v.cluster == c && v.node != 0
            && ((node_get_properties db.nodes v.node).map Prod.fst == some r.node))
            = true <;>
          by_cases hb2 : (cluster == c && v.node != 0
            && ((node_get_properties db.nodes v.node).map Prod.fst == some r.node))
            = true
        · rw [if_pos hb1, if_pos hb2]
          rw [if_pos hb1] at hsplit2
          rw [if_pos hb2] at hsplit
          omega
        · rw [if_pos hb1, if_neg hb2]
          rw [if_pos hb1] at hsplit2
          rw [if_neg hb2] at hsplit
          omega
        · rw [if_neg hb1, if_pos hb2]
          rw [if_neg hb1] at hsplit2
          rw [if_pos hb2] at hsplit
          omega
        · rw [if_neg hb1, if_neg hb2]
          rw [if_neg hb1] at hsplit2
          rw [if_neg hb2] at hsplit
          omega
      rw [h1, h2, hinv r hr c]
      have hfz : chainFuel db = db.nodes.length + 1 := rfl
      rw [hfz, chain_head]
      by_cases h0 : v.node = 0
      · have hb1 : (v.cluster == c && v.node != 0
            && ((node_get_properties db.nodes v.node).map Prod.fst == some r.node))
            = false := by
          simp [h0]
        have hb2 : (cluster == c && v.node != 0
            && ((node_get_properties db.nodes v.node).map Prod.fst == some r.node))
            = false := by
          simp [h0]
        simp [h0, hb1, hb2]
      · rw [if_neg h0]
        cases hp : node_get_properties db.nodes v.node with
        | none =>
          simp [h0]
        | some pr =>
          by_cases hpar : pr.1 = r.node <;> by_cases hx1 : c = v.cluster <;>
            by_cases hx2 : c = cluster <;>
              simp [hpar, hx1, hx2, h0] <;> omega


theorem chainS_avoids (nodes : List NodeRow) (S : List Nat)
    (h : ∀ r ∈ nodes, r.parent ∈ S → r.node ∈ S) :
    ∀ (fuel : Nat) (m : Nat), m ∉ S →
      ∀ x ∈ ancestorChain nodes fuel m, x ∉ S := by
  intro fuel
  induction fuel with
  | zero => intro m _ x hx; simp [ancestorChain] at hx
  | succ f ih =>
    intro m hm x hx
    by_cases h0 : m = 0
    · simp [ancestorChain, h0] at hx
    · cases hp : node_get_properties nodes m with
      | none => simp [ancestorChain, h0, hp] at hx
      | some pr =>
        obtain ⟨parent, path⟩ := pr
        have hchain : ancestorChain nodes (f + 1) m
            = parent :: ancestorChain nodes f parent := by
          simp [ancestorChain, h0, hp]
        rw [hchain] at hx
        have hpns : parent ∉ S := by
          intro hps
          obtain ⟨r, hr, hrn, hrp, _⟩ := node_get_properties_mem nodes m
            (parent, path) hp
          exact hm (hrn ▸ h r hr (hrp ▸ hps))
        rcases List.mem_cons.mp hx with rfl | hx'
        · exact hpns
        · exact ih parent hpns x hx'

theorem dead_iff_mem (nodes : List NodeRow) (S : List Nat)
    (h : ∀ r ∈ nodes, r.parent ∈ S → r.node ∈ S) :
    ∀ m : Nat, deadNode nodes S m = true ↔ m ∈ S := by
  intro m
  constructor
  · intro hd
    simp only [deadNode, Bool.or_eq_true, List.any_eq_true] at hd
    rcases hd with hd | ⟨x, hx, hxs⟩
    · simpa using hd
    · by_contra hm
      exact chainS_avoids nodes S h _ m hm x hx (by simpa using hxs)
  · intro hm
    simp [deadNode, hm]

theorem dead_false_of_not_mem (nodes : List NodeRow) (S : List Nat)
    (h : ∀ r ∈ nodes, r.parent ∈ S → r.node ∈ S) (m : Nat) (hm : m ∉ S) :
    deadNode nodes S m = false := by
  cases hd : deadNode nodes S m
  · rfl
  · exact absurd ((dead_iff_mem nodes S h m).mp hd) hm

theorem chain_cascade_eq (nodes : List NodeRow) (S : List Nat)
    (hS : ∀ r ∈ nodes, r.parent ∈ S → r.node ∈ S)
    (hpe : ∀ r ∈ nodes, nodes.any (fun q => q.node == r.parent) = true)
    (hcn : ∀ r ∈ nodes, (ancestorChain nodes (nodes.length + 1) r.node).Nodup) :
    ∀ m : Nat, m ∉ S →
      ancestorChain (nodes.filter (fun r => !deadNode nodes S r.node))
          ((nodes.filter (fun r => !deadNode nodes S r.node)).length + 1) m
        = ancestorChain nodes (nodes.length + 1) m := by
  intro m hm
  have hkeep : ∀ x : Nat, x ∉ S → ∀ r ∈ nodes, r.node = x →
      (fun r => !deadNode nodes S r.node) r = true := by
    intro x hx r hr hrx
    simp only [Bool.not_eq_eq_eq_not, Bool.not_true]
    rw [hrx]
    exact dead_false_of_not_mem nodes S hS x hx
  -- the chain over the filtered table, at any fuel, equals the original chain
  have hfe : ∀ fuel : Nat,
      ancestorChain (nodes.filter (fun r => !deadNode nodes S r.node)) fuel m
        = ancestorChain nodes fuel m := by
    intro fuel
    apply chain_filter_eq
    · exact fun r hr hrm => hkeep m hm r hr hrm
    · intro x hx r hr hrx
      exact hkeep x (chainS_avoids nodes S hS fuel m hm x hx) r hr hrx
  rw [hfe]
  -- the fuel on the filtered table is still enough: the chain is Nodup and
  -- its entries all survive the filter
  have hnodup : (ancestorChain nodes (nodes.length + 1) m).Nodup := by
    by_cases h0 : m = 0
    · subst h0; simp [ancestorChain]
    · cases hf : nodes.find? (fun r => r.node == m) with
      | none =>
        have hp : node_get_properties nodes m = none := by
          simp [node_get_properties, hf]
        simp [ancestorChain, h0, hp]
      | some r =>
        have hrm : r.node = m := by
          have := List.find?_some hf
          simpa using this
        have := hcn r (List.mem_of_find?_eq_some hf)
        rw [hrm] at this
        exact this
  have hsub : ∀ x ∈ ancestorChain nodes (nodes.length + 1) m,
      x ∈ (nodes.filter (fun r => !deadNode nodes S r.node)).map
        (fun r => r.node) := by
    intro x hx
    obtain ⟨r, hr, hrx⟩ := chain_subset_ids nodes hpe _ m x hx
    have hxs : x ∉ S := chainS_avoids nodes S hS _ m hm x hx
    rw [List.mem_map]
    refine ⟨r, ?_, hrx⟩
    rw [List.mem_filter]
    exact ⟨hr, hkeep x hxs r hr hrx⟩
  have hlen : (ancestorChain nodes (nodes.length + 1) m).length
      ≤ (nodes.filter (fun r => !deadNode nodes S r.node)).length := by
    have h1 := nodup_subset_length _ _ hnodup hsub
    have h2 : ((nodes.filter (fun r => !deadNode nodes S r.node)).map
        (fun r => r.node)).length
        = (nodes.filter (fun r => !deadNode nodes S r.node)).length :=
      List.length_map _ _
    omega
  apply chain_fuel_stable
  · have := List.length_filter_le (fun r => !deadNode nodes S r.node) nodes
    omega
  · omega


theorem cascade_preserves_size (db : DB) (S : List Nat)
    (hinv : InvSize db) (hpe : ParentsExist db) (hcn : ChainsNodup db)
    (hS : ∀ r ∈ db.nodes, r.parent ∈ S → r.node ∈ S)
    (hvers : ∀ v ∈ db.versions, v.node ∉ S) :
    InvSize (node_delete_cascade db S) := by
  intro r hr c
  have hrmem := List.mem_filter.mp hr
  have hrS : r.node ∉ S := by
    intro hmem
    have hd := (dead_iff_mem db.nodes S hS r.node).mpr hmem
    rw [hd] at hrmem
    simp at hrmem
  have h1 : storedSize (node_delete_cascade db S) r.node c
      = storedSize db r.node c := by
    show statSize (fun m c => if deadNode db.nodes S m then none else db.stats m c)
      r.node c = _
    have hd := dead_false_of_not_mem db.nodes S hS r.node hrS
    simp [statSize, storedSize, hd]
  have hveq : (node_delete_cascade db S).versions = db.versions := by
    show db.versions.filter _ = db.versions
    rw [List.filter_eq_self]
    intro v hvm
    simp [dead_false_of_not_mem db.nodes S hS v.node (hvers v hvm)]
  have h2 : subtreeSize (node_delete_cascade db S) r.node c
      = subtreeSize db r.node c := by
    show ((((node_delete_cascade db S).versions).filter
        (fun v : Version => v.cluster == c
          && (ancestorChain (node_delete_cascade db S).nodes
              (chainFuel (node_delete_cascade db S)) v.node).contains r.node)).map
        (fun v : Version => v.size)).sum = _
    rw [hveq]
    have hcong : ∀ v ∈ db.versions,
        (v.cluster == c
          && (ancestorChain (node_delete_cascade db S).nodes
              (chainFuel (node_delete_cascade db S)) v.node).contains r.node)
          = (v.cluster == c
            && (ancestorChain db.nodes (chainFuel db) v.node).contains r.node) := by
      intro v hvm
      have := chain_cascade_eq db.nodes S hS hpe hcn v.node (hvers v hvm)
      show (v.cluster == c
          && (ancestorChain (db.nodes.filter
              (fun t => !deadNode db.nodes S t.node))
              ((db.nodes.filter (fun t => !deadNode db.nodes S t.node)).length + 1)
              v.node).contains r.node) = _
      rw [this]
      rfl
    rw [List.filter_congr hcong]
    rfl
  rw [h1, h2]
  exact hinv r hrmem.1 c

theorem cascade_preserves_pop (db : DB) (S : List Nat)
    (hinv : InvPop db) (hpe : ParentsExist db) (hcn : ChainsNodup db)
    (hS : ∀ r ∈ db.nodes, r.parent ∈ S → r.node ∈ S)
    (hvers : ∀ v ∈ db.versions, v.node ∉ S) :
    InvPop (node_delete_cascade db S) := by
  intro r hr c
  have hrmem := List.mem_filter.mp hr
  have hrS : r.node ∉ S := by
    intro hmem
    have hd := (dead_iff_mem db.nodes S hS r.node).mpr hmem
    rw [hd] at hrmem
    simp at hrmem
  have h1 : storedPop (node_delete_cascade db S) r.node c
      = storedPop db r.node c := by
    show statPop (fun m c => if deadNode db.nodes S m then none else db.stats m c)
      r.node c = _
    have hd := dead_false_of_not_mem db.nodes S hS r.node hrS
    simp [statPop, storedPop, hd]
  have hveq : (node_delete_cascade db S).versions = db.versions := by
    show db.versions.filter _ = db.versions
    rw [List.filter_eq_self]
    intro v hvm
    simp [dead_false_of_not_mem db.nodes S hS v.node (hvers v hvm)]
  have h2 : childPop (node_delete_cascade db S) r.node c = childPop db r.node c := by
    show ((((node_delete_cascade db S).versions).filter
        (fun v : Version => v.cluster == c && v.node != 0
          && ((node_get_properties (node_delete_cascade db S).nodes v.node).map
              Prod.fst == some r.node))).length : Int) = _
    rw [hveq]
    have hcong : ∀ v ∈ db.versions,
        (v.cluster == c && v.node != 0
          && ((node_get_properties (node_delete_cascade db S).nodes v.node).map
              Prod.fst == some r.node))
          = (v.cluster == c && v.node != 0
            && ((node_get_properties db.nodes v.node).map Prod.fst
              == some r.node)) := by
      intro v hvm
      have hvS := hvers v hvm
      have : node_get_properties (db.nodes.filter
          (fun t => !deadNode db.nodes S t.node)) v.node
          = node_get_properties db.nodes v.node := by
        apply node_get_properties_filter
        intro t ht htn
        simp only [Bool.not_eq_eq_eq_not, Bool.not_true]
        rw [htn]
        exact dead_false_of_not_mem db.nodes S hS v.node hvS
      show (v.cluster == c && v.node != 0
          && ((node_get_properties (db.nodes.filter
              (fun t => !deadNode db.nodes S t.node)) v.node).map Prod.fst
            == some r.node)) = _
      rw [this]
    rw [List.filter_congr hcong]
    rfl
  rw [h1, h2]
  exact hinv r hrmem.1 c


theorem clusters_filter_empty (vs : List Version) (c : Int)
    (hc : c ∉ clustersOf vs) : vs.filter (fun v => v.cluster == c) = [] := by
  rw [List.filter_eq_nil_iff]
  intro v hv hvc
  apply hc
  unfold clustersOf
  rw [List.mem_dedup, List.mem_map]
  exact ⟨v, hv, beq_iff_eq.mp hvc⟩

theorem statSize_foldl_clusters (nodes : List NodeRow) (fuel : Nat) (n : Nat)
    (now : Int) (vs : List Version)
    (hnd : (ancestorChain nodes fuel n).Nodup) :
    ∀ (cl : List Int) (stats : Stats) (N : Nat) (c' : Int), cl.Nodup →
      statSize (cl.foldl (fun st c =>
          statistics_update_ancestors nodes st fuel n
            (-(((vs.filter (fun v => v.cluster == c)).length : Nat) : Int))
            (-(((vs.filter (fun v => v.cluster == c)).map (fun v => v.size)).sum))
            now c) stats) N c'
        = statSize stats N c'
          - (if N ∈ ancestorChain nodes fuel n ∧ c' ∈ cl
             then ((vs.filter (fun v => v.cluster == c')).map (fun v => v.size)).sum
             else 0) := by
  intro cl
  induction cl with
  | nil =>
    intro stats N c' _
    simp
  | cons c0 cl' ih =>
    intro stats N c' hnodup
    rw [List.foldl_cons]
    rw [ih _ N c' (List.nodup_cons.mp hnodup).2]
    rw [statSize_walk nodes fuel stats n _ _ now c0 N c' hnd]
    have hc0 : c0 ∉ cl' := (List.nodup_cons.mp hnodup).1
    by_cases hmem : N ∈ ancestorChain nodes fuel n
    · by_cases hc' : c' = c0
      · subst hc'
        have hni : c' ∉ cl' := hc0
        simp [hmem, hni, sub_eq_add_neg]
      · by_cases hcl : c' ∈ cl'
        · simp [hmem, hc', hcl]
        · have hncl : c' ∉ c0 :: cl' := by
            intro hx
            rcases List.mem_cons.mp hx with rfl | hx'
            · exact hc' rfl
            · exact hcl hx'
          simp [hmem, hc', hcl, hncl]
    · simp [hmem]

theorem statPop_foldl_clusters (nodes : List NodeRow) (fuel : Nat) (n : Nat)
    (now : Int) (vs : List Version) :
    ∀ (cl : List Int) (stats : Stats) (N : Nat) (c' : Int), cl.Nodup →
      statPop (cl.foldl (fun st c =>
          statistics_update_ancestors nodes st fuel n
            (-(((vs.filter (fun v => v.cluster == c)).length : Nat) : Int))
            (-(((vs.filter (fun v => v.cluster == c)).map (fun v => v.size)).sum))
            now c) stats) N c'
        = statPop stats N c'
          - (if (ancestorChain nodes fuel n).head? = some N ∧ c' ∈ cl
             then ((vs.filter (fun v => v.cluster == c')).length : Int)
             else 0) := by
  intro cl
  induction cl with
  | nil =>
    intro stats N c' _
    simp
  | cons c0 cl' ih =>
    intro stats N c' hnodup
    rw [List.foldl_cons]
    rw [ih _ N c' (List.nodup_cons.mp hnodup).2]
    rw [statPop_walk nodes fuel stats n _ _ now c0 N c']
    have hc0 : c0 ∉ cl' := (List.nodup_cons.mp hnodup).1
    by_cases hmem : (ancestorChain nodes fuel n).head? = some N
    · by_cases hc' : c' = c0
      · subst hc'
        have hni : c' ∉ cl' := hc0
        simp [hmem, hni, sub_eq_add_neg]
      · by_cases hcl : c' ∈ cl'
        · simp [hmem, hc', hcl]
        · have hncl : c' ∉ c0 :: cl' := by
            intro hx
            rcases List.mem_cons.mp hx with rfl | hx'
            · exact hc' rfl
            · exact hcl hx'
          simp [hmem, hc', hcl, hncl]
    · simp [hmem]



theorem InvSize_node_remove (db : DB) (now : Int) (n : Nat)
    (hinv : InvSize db) (hpe : ParentsExist db) (hcn : ChainsNodup db)
    (hzero : ∀ r ∈ db.nodes, r.node = 0 → r.parent = 0)
    (hn : n ≠ 0) :
    InvSize (node_remove db now n).2 := by
  by_cases hcc : node_count_children db.nodes n ≠ 0
  · have heq : (node_remove db now n).2 = db := by
      simp [node_remove, hcc]
    rw [heq]
    exact hinv
  · push_neg at hcc
    have hS : ∀ r ∈ db.nodes, r.parent ∈ [n] → r.node ∈ [n] := by
      intro r hr hp
      rw [List.mem_singleton] at hp
      by_cases h0 : r.node = 0
      · exact absurd (hp.symm.trans (hzero r hr h0)) hn
      · exfalso
        have hfil : (db.nodes.filter (fun t => t.parent == n && t.node != 0)) = [] := by
          have hl : (db.nodes.filter (fun t => t.parent == n && t.node != 0)).length = 0 :=
            hcc
          exact List.length_eq_zero.mp hl
        have hmem : r ∈ db.nodes.filter (fun t => t.parent == n && t.node != 0) := by
          rw [List.mem_filter]
          refine ⟨hr, ?_⟩
          simp [hp, h0]
        rw [hfil] at hmem
        exact absurd hmem (List.not_mem_nil r)
    have hchainN : (ancestorChain db.nodes (chainFuel db) n).Nodup :=
      chains_nodup_all db hcn n
    have heq : (node_remove db now n).2
        = node_delete_cascade { db with stats := removeStats db now n } [n] := by
      simp [node_remove, removeStats, hcc]
    rw [heq]
    intro r hr c
    have hrmem := List.mem_filter.mp hr
    have hrS : r.node ∉ [n] := by
      intro hmem
      have hd := (dead_iff_mem db.nodes [n] hS r.node).mpr hmem
      rw [hd] at hrmem
      simp at hrmem
    have h1 : storedSize (node_delete_cascade { db with stats := removeStats db now n }
          [n]) r.node c
        = statSize (removeStats db now n) r.node c := by
      show statSize
        (fun m c2 => if deadNode db.nodes [n] m then none else removeStats db now n m c2)
        r.node c = _
      have hd := dead_false_of_not_mem db.nodes [n] hS r.node hrS
      simp [statSize, hd]
    have h2 := statSize_foldl_clusters db.nodes (chainFuel db) n now
      (db.versions.filter (fun v => v.node == n)) hchainN
      (clustersOf (db.versions.filter (fun v => v.node == n))) db.stats r.node c
      (by unfold clustersOf; exact List.nodup_dedup _)
    have h12 := h1.trans h2
    have h3 : (if r.node ∈ ancestorChain db.nodes (chainFuel db) n
              ∧ c ∈ clustersOf (db.versions.filter (fun v => v.node == n))
             then (((db.versions.filter (fun v => v.node == n)).filter
                (fun v => v.cluster == c)).map (fun v => v.size)).sum
             else 0)
        = (if r.node ∈ ancestorChain db.nodes (chainFuel db) n
             then (((db.versions.filter (fun v => v.node == n)).filter
                (fun v => v.cluster == c)).map (fun v => v.size)).sum
             else 0) := by
      by_cases hcm : c ∈ clustersOf (db.versions.filter (fun v => v.node == n))
      · simp [hcm]
      · have hz : (db.versions.filter (fun v => v.node == n)).filter
            (fun v => v.cluster == c) = [] :=
          clusters_filter_empty (db.versions.filter (fun v => v.node == n)) c hcm
        rw [hz]
        simp
    have h4 : subtreeSize (node_delete_cascade { db with stats := removeStats db now n }
          [n]) r.node c
        = (((db.versions.filter (fun w => !deadNode db.nodes [n] w.node)).filter
            (fun w : Version => w.cluster == c
              && (ancestorChain db.nodes (chainFuel db) w.node).contains r.node)).map
            (fun w : Version => w.size)).sum := by
      show (((db.versions.filter (fun w => !deadNode db.nodes [n] w.node)).filter
          (fun w : Version => w.cluster == c
            && (ancestorChain (db.nodes.filter (fun t => !deadNode db.nodes [n] t.node))
                ((db.nodes.filter (fun t => !deadNode db.nodes [n] t.node)).length + 1)
                w.node).contains r.node)).map
          (fun w : Version => w.size)).sum = _
      have hcong : ∀ w ∈ db.versions.filter (fun x => !deadNode db.nodes [n] x.node),
          (w.cluster == c
            && (ancestorChain (db.nodes.filter (fun t => !deadNode db.nodes [n] t.node))
                ((db.nodes.filter (fun t => !deadNode db.nodes [n] t.node)).length + 1)
                w.node).contains r.node)
          = (w.cluster == c
            && (ancestorChain db.nodes (chainFuel db) w.node).contains r.node) := by
        intro w hw
        have hwd : deadNode db.nodes [n] w.node = false := by
          have h := (List.mem_filter.mp hw).2
          simpa using h
        have hwS : w.node ∉ [n] := by
          intro hmem
          rw [(dead_iff_mem db.nodes [n] hS w.node).mpr hmem] at hwd
          cases hwd
        rw [chain_cascade_eq db.nodes [n] hS hpe hcn w.node hwS]
        rfl
      rw [List.filter_congr hcong]
    have hsplit : subtreeSize db r.node c
        = (((db.versions.filter (fun w => !deadNode db.nodes [n] w.node)).filter
            (fun w : Version => w.cluster == c
              && (ancestorChain db.nodes (chainFuel db) w.node).contains r.node)).map
            (fun w : Version => w.size)).sum
          + (if r.node ∈ ancestorChain db.nodes (chainFuel db) n
             then (((db.versions.filter (fun v => v.node == n)).filter
                (fun v => v.cluster == c)).map (fun v => v.size)).sum
             else 0) := by
      show ((db.versions.filter (fun w : Version => w.cluster == c
          && (ancestorChain db.nodes (chainFuel db) w.node).contains r.node)).map
          (fun w : Version => w.size)).sum = _
      rw [sum_filter_map]
      rw [sum_map_split db.versions (fun w => !deadNode db.nodes [n] w.node)
        (fun x : Version => if (x.cluster == c
          && (ancestorChain db.nodes (chainFuel db) x.node).contains r.node) = true
          then x.size else 0)]
      have hneg : db.versions.filter
          (fun x => !(fun w => !deadNode db.nodes [n] w.node) x)
          = db.versions.filter (fun v => v.node == n) := by
        apply List.filter_congr
        intro x _
        simp only [Bool.not_not]
        by_cases hx : x.node = n
        · rw [(dead_iff_mem db.nodes [n] hS x.node).mpr (by simp [hx])]
          simp [hx]
        · rw [dead_false_of_not_mem db.nodes [n] hS x.node (by simp [hx])]
          simp [hx]
      rw [hneg]
      congr 1
      · rw [← sum_filter_map]
      · by_cases hcont : r.node ∈ ancestorChain db.nodes (chainFuel db) n
        · rw [if_pos hcont]
          have hcb : (ancestorChain db.nodes (chainFuel db) n).contains r.node
              = true := by
            simpa using hcont
          have hmap : ∀ x ∈ db.versions.filter (fun v => v.node == n),
              (if (x.cluster == c
                && (ancestorChain db.nodes (chainFuel db) x.node).contains r.node) = true
              then x.size else 0) = (if (x.cluster == c) = true then x.size else 0) := by
            intro x hx
            have hxn : x.node = n := by
              have h := (List.mem_filter.mp hx).2
              simpa using h
            rw [hxn, hcb]
            simp
          rw [List.map_congr_left hmap]
          rw [sum_filter_map (db.versions.filter (fun v => v.node == n))
            (fun v => v.cluster == c) (fun v => v.size)]
        · rw [if_neg hcont]
          have hcb : (ancestorChain db.nodes (chainFuel db) n).contains r.node
              = false := by
            simpa using hcont
          have hmap : ∀ x ∈ db.versions.filter (fun v => v.node == n),
              (if (x.cluster == c
                && (ancestorChain db.nodes (chainFuel db) x.node).contains r.node) = true
              then x.size else 0) = 0 := by
            intro x hx
            have hxn : x.node = n := by
              have h := (List.mem_filter.mp hx).2
              simpa using h
            rw [hxn, hcb]
            simp
          rw [List.map_congr_left hmap]
          simp
    have hstored : storedSize db r.node c = statSize db.stats r.node c := rfl
    have hfin := hinv r hrmem.1 c
    rw [hsplit, hstored] at hfin
    rw [h12, h3, h4]
    omega


theorem InvPop_node_remove (db : DB) (now : Int) (n : Nat)
    (hinv : InvPop db) (hpe : ParentsExist db) (hcn : ChainsNodup db)
    (hzero : ∀ r ∈ db.nodes, r.node = 0 → r.parent = 0)
    (hn : n ≠ 0) :
    InvPop (node_remove db now n).2 := by
  by_cases hcc : node_count_children db.nodes n ≠ 0
  · have heq : (node_remove db now n).2 = db := by
      simp [node_remove, hcc]
    rw [heq]
    exact hinv
  · push_neg at hcc
    have hS : ∀ r ∈ db.nodes, r.parent ∈ [n] → r.node ∈ [n] := by
      intro r hr hp
      rw [List.mem_singleton] at hp
      by_cases h0 : r.node = 0
      · exact absurd (hp.symm.trans (hzero r hr h0)) hn
      · exfalso
        have hfil : (db.nodes.filter (fun t => t.parent == n && t.node != 0)) = [] := by
          have hl : (db.nodes.filter (fun t => t.parent == n && t.node != 0)).length = 0 :=
            hcc
          exact List.length_eq_zero.mp hl
        have hmem : r ∈ db.nodes.filter (fun t => t.parent == n && t.node != 0) := by
          rw [List.mem_filter]
          refine ⟨hr, ?_⟩
          simp [hp, h0]
        rw [hfil] at hmem
        exact absurd hmem (List.not_mem_nil r)
    have heq : (node_remove db now n).2
        = node_delete_cascade { db with stats := removeStats db now n } [n] := by
      simp [node_remove, removeStats, hcc]
    rw [heq]
    intro r hr c
    have hrmem := List.mem_filter.mp hr
    have hrS : r.node ∉ [n] := by
      intro hmem
      have hd := (dead_iff_mem db.nodes [n] hS r.node).mpr hmem
      rw [hd] at hrmem
      simp at hrmem
    have h1 : storedPop (node_delete_cascade { db with stats := removeStats db now n }
          [n]) r.node c
        = statPop (removeStats db now n) r.node c := by
      show statPop
        (fun m c2 => if deadNode db.nodes [n] m then none else removeStats db now n m c2)
        r.node c = _
      have hd := dead_false_of_not_mem db.nodes [n] hS r.node hrS
      simp [statPop, hd]
    have h2 := statPop_foldl_clusters db.nodes (chainFuel db) n now
      (db.versions.filter (fun v => v.node == n))
      (clustersOf (db.versions.filter (fun v => v.node == n))) db.stats r.node c
      (by unfold clustersOf; exact List.nodup_dedup _)
    have h12 := h1.trans h2
    have h3 : (if (ancestorChain db.nodes (chainFuel db) n).head? = some r.node
              ∧ c ∈ clustersOf (db.versions.filter (fun v => v.node == n))
             then ((((db.versions.filter (fun v => v.node == n)).filter
                (fun v => v.cluster == c)).length : Nat) : Int)
             else 0)
        = (if (ancestorChain db.nodes (chainFuel db) n).head? = some r.node
             then ((((db.versions.filter (fun v => v.node == n)).filter
                (fun v => v.cluster == c)).length : Nat) : Int)
             else 0) := by
      by_cases hcm : c ∈ clustersOf (db.versions.filter (fun v => v.node == n))
      · simp [hcm]
      · rw [clusters_filter_empty (db.versions.filter (fun v => v.node == n)) c hcm]
        simp
    have hhead : (ancestorChain db.nodes (chainFuel db) n).head?
        = (node_get_properties db.nodes n).map Prod.fst := by
      have h := chain_head db.nodes db.nodes.length n
      rw [if_neg hn] at h
      exact h
    have h4 : childPop (node_delete_cascade { db with stats := removeStats db now n }
          [n]) r.node c
        = ((((db.versions.filter (fun w => !deadNode db.nodes [n] w.node)).filter
            (fun w : Version => w.cluster == c && w.node != 0
              && ((node_get_properties db.nodes w.node).map Prod.fst
                == some r.node))).length : Nat) : Int) := by
      show ((((db.versions.filter (fun w => !deadNode db.nodes [n] w.node)).filter
          (fun w : Version => w.cluster == c && w.node != 0
            && ((node_get_properties (db.nodes.filter
                (fun t => !deadNode db.nodes [n] t.node)) w.node).map Prod.fst
              == some r.node))).length : Nat) : Int) = _
      have hcong : ∀ w ∈ db.versions.filter (fun x => !deadNode db.nodes [n] x.node),
          (w.cluster == c && w.node != 0
            && ((node_get_properties (db.nodes.filter
                (fun t => !deadNode db.nodes [n] t.node)) w.node).map Prod.fst
              == some r.node))
          = (w.cluster == c && w.node != 0
            && ((node_get_properties db.nodes w.node).map Prod.fst
              == some r.node)) := by
        intro w hw
        have hwd : deadNode db.nodes [n] w.node = false := by
          have h := (List.mem_filter.mp hw).2
          simpa using h
        have hwS : w.node ∉ [n] := by
          intro hmem
          rw [(dead_iff_mem db.nodes [n] hS w.node).mpr hmem] at hwd
          cases hwd
        have hp : node_get_properties (db.nodes.filter
            (fun t => !deadNode db.nodes [n] t.node)) w.node
            = node_get_properties db.nodes w.node := by
          apply node_get_properties_filter
          intro t ht htn
          simp only [Bool.not_eq_eq_eq_not, Bool.not_true]
          rw [htn]
          exact dead_false_of_not_mem db.nodes [n] hS w.node hwS
        rw [hp]
      rw [List.filter_congr hcong]
    have hnb : (n != 0) = true := by simp [hn]
    have hsplit : childPop db r.node c
        = ((((db.versions.filter (fun w => !deadNode db.nodes [n] w.node)).filter
            (fun w : Version => w.cluster == c && w.node != 0
              && ((node_get_properties db.nodes w.node).map Prod.fst
                == some r.node))).length : Nat) : Int)
          + (if (ancestorChain db.nodes (chainFuel db) n).head? = some r.node
             then ((((db.versions.filter (fun v => v.node == n)).filter
                (fun v => v.cluster == c)).length : Nat) : Int)
             else 0) := by
      show (((db.versions.filter (fun w : Version => w.cluster == c && w.node != 0
          && ((node_get_properties db.nodes w.node).map Prod.fst
            == some r.node))).length : Nat) : Int) = _
      rw [← List.countP_eq_length_filter]
      rw [countP_split db.versions (fun w => !deadNode db.nodes [n] w.node)
        (fun w : Version => w.cluster == c && w.node != 0
          && ((node_get_properties db.nodes w.node).map Prod.fst == some r.node))]
      have hneg : db.versions.filter
          (fun x => !(fun w => !deadNode db.nodes [n] w.node) x)
          = db.versions.filter (fun v => v.node == n) := by
        apply List.filter_congr
        intro x _
        simp only [Bool.not_not]
        by_cases hx : x.node = n
        · rw [(dead_iff_mem db.nodes [n] hS x.node).mpr (by simp [hx])]
          simp [hx]
        · rw [dead_false_of_not_mem db.nodes [n] hS x.node (by simp [hx])]
          simp [hx]
      rw [hneg]
      simp only [List.countP_eq_length_filter]
      rw [Nat.cast_add]
      congr 1
      by_cases hB : ((node_get_properties db.nodes n).map Prod.fst == some r.node) = true
      · have hh : (ancestorChain db.nodes (chainFuel db) n).head? = some r.node := by
          rw [hhead]
          simpa using hB
        rw [if_pos hh]
        have hfe : (db.versions.filter (fun v => v.node == n)).filter
            (fun w : Version => w.cluster == c && w.node != 0
              && ((node_get_properties db.nodes w.node).map Prod.fst == some r.node))
            = (db.versions.filter (fun v => v.node == n)).filter
              (fun v => v.cluster == c) := by
          apply List.filter_congr
          intro x hx
          have hxn : x.node = n := by
            have h := (List.mem_filter.mp hx).2
            simpa using h
          rw [hxn]
          simp [hnb, hB]
        rw [hfe]
      · have hh : ¬((ancestorChain db.nodes (chainFuel db) n).head? = some r.node) := by
          intro hcontra
          rw [hhead] at hcontra
          exact hB (by simp [hcontra])
        rw [if_neg hh]
        have hBf : ((node_get_properties db.nodes n).map Prod.fst == some r.node)
            = false := by
          cases hx2 : ((node_get_properties db.nodes n).map Prod.fst == some r.node)
          · rfl
          · exact absurd hx2 hB
        have hfe : (db.versions.filter (fun v => v.node == n)).filter
            (fun w : Version => w.cluster == c && w.node != 0
              && ((node_get_properties db.nodes w.node).map Prod.fst == some r.node))
            = [] := by
          rw [List.filter_eq_nil_iff]
          intro x hx
          have hxn : x.node = n := by
            have h := (List.mem_filter.mp hx).2
            simpa using h
          simp [hxn, hBf]
        rw [hfe]
        rfl
    have hstored : storedPop db r.node c = statPop db.stats r.node c := rfl
    have hfin := hinv r hrmem.1 c
    rw [hsplit, hstored] at hfin
    rw [h12, h3, h4]
    omega



theorem InvSize_purgeDB1 (db : DB) (now : Int) (node : Nat) (before cluster : Int)
    (hinv : InvSize db) (hcn : ChainsNodup db) :
    InvSize (purgeDB1 db now node before cluster) := by
  intro r hr c
  have hr2 : r ∈ db.nodes := hr
  have h1 : storedSize (purgeDB1 db now node before cluster) r.node c
      = statSize db.stats r.node c
        + (if r.node ∈ ancestorChain db.nodes (chainFuel db) node ∧ c = cluster
           then -(((db.versions.filter (purgeMatch node before cluster)).map
              (fun v => v.size)).sum)
           else 0) := by
    show statSize (statistics_update_ancestors db.nodes db.stats (chainFuel db) node
        (-(((db.versions.filter (purgeMatch node before cluster)).length : Nat) : Int))
        (-(((db.versions.filter (purgeMatch node before cluster)).map
            (fun v => v.size)).sum))
        now cluster) r.node c = _
    rw [statSize_walk db.nodes (chainFuel db) db.stats node
      (-(((db.versions.filter (purgeMatch node before cluster)).length : Nat) : Int))
      (-(((db.versions.filter (purgeMatch node before cluster)).map
          (fun v => v.size)).sum))
      now cluster r.node c (chains_nodup_all db hcn node)]
  have h2 : subtreeSize (purgeDB1 db now node before cluster) r.node c
      = subtreeSize db r.node c
        - (if r.node ∈ ancestorChain db.nodes (chainFuel db) node ∧ c = cluster
           then ((db.versions.filter (purgeMatch node before cluster)).map
              (fun v => v.size)).sum
           else 0) := by
    show (((db.versions.filter (fun v => !purgeMatch node before cluster v)).filter
        (fun w : Version => w.cluster == c
          && (ancestorChain db.nodes (chainFuel db) w.node).contains r.node)).map
        (fun w : Version => w.size)).sum = _
    rw [sum_filter_map]
    have hneg : db.versions.filter
        (fun x => !(fun v => !purgeMatch node before cluster v) x)
        = db.versions.filter (purgeMatch node before cluster) := by
      apply List.filter_congr
      intro x _
      simp only [Bool.not_not]
    have hsplitv := sum_map_split db.versions (fun v => !purgeMatch node before cluster v)
      (fun x : Version => if (x.cluster == c
        && (ancestorChain db.nodes (chainFuel db) x.node).contains r.node) = true
        then x.size else 0)
    rw [hneg] at hsplitv
    have hdead : ((db.versions.filter (purgeMatch node before cluster)).map
        (fun x : Version => if (x.cluster == c
          && (ancestorChain db.nodes (chainFuel db) x.node).contains r.node) = true
          then x.size else 0)).sum
        = (if r.node ∈ ancestorChain db.nodes (chainFuel db) node ∧ c = cluster
           then ((db.versions.filter (purgeMatch node before cluster)).map
              (fun v => v.size)).sum
           else 0) := by
      by_cases hb : (cluster == c
          && (ancestorChain db.nodes (chainFuel db) node).contains r.node) = true
      · have hmap : ∀ x ∈ db.versions.filter (purgeMatch node before cluster),
            (if (x.cluster == c
              && (ancestorChain db.nodes (chainFuel db) x.node).contains r.node) = true
            then x.size else 0) = x.size := by
          intro x hx
          have hx2 := (List.mem_filter.mp hx).2
          simp only [purgeMatch, Bool.and_eq_true, beq_iff_eq, decide_eq_true_eq] at hx2
          obtain ⟨⟨hxn, hxc⟩, -⟩ := hx2
          rw [hxn, hxc, hb]
          simp
        rw [List.map_congr_left hmap,
          if_pos ((chainMem_iff (ancestorChain db.nodes (chainFuel db) node) r.node
            c cluster).mpr hb)]
      · have hmap : ∀ x ∈ db.versions.filter (purgeMatch node before cluster),
            (if (x.cluster == c
              && (ancestorChain db.nodes (chainFuel db) x.node).contains r.node) = true
            then x.size else 0) = 0 := by
          intro x hx
          have hx2 := (List.mem_filter.mp hx).2
          simp only [purgeMatch, Bool.and_eq_true, beq_iff_eq, decide_eq_true_eq] at hx2
          obtain ⟨⟨hxn, hxc⟩, -⟩ := hx2
          rw [hxn, hxc]
          have hbf : (cluster == c
              && (ancestorChain db.nodes (chainFuel db) node).contains r.node) = false := by
            cases hb2 : (cluster == c
                && (ancestorChain db.nodes (chainFuel db) node).contains r.node)
            · rfl
            · exact absurd hb2 hb
          rw [hbf]
          simp
        rw [List.map_congr_left hmap,
          if_neg (fun hcp => hb ((chainMem_iff (ancestorChain db.nodes (chainFuel db) node)
            r.node c cluster).mp hcp))]
        simp
    rw [hdead] at hsplitv
    have hsub : subtreeSize db r.node c
        = (db.versions.map (fun x : Version => if (x.cluster == c
            && (ancestorChain db.nodes (chainFuel db) x.node).contains r.node) = true
            then x.size else 0)).sum := by
      show ((db.versions.filter (fun w : Version => w.cluster == c
          && (ancestorChain db.nodes (chainFuel db) w.node).contains r.node)).map
          (fun w : Version => w.size)).sum = _
      rw [sum_filter_map]
    rw [hsub]
    omega
  rw [h1, h2]
  have hss : statSize db.stats r.node c = subtreeSize db r.node c := hinv r hr2 c
  rw [hss]
  by_cases hp : r.node ∈ ancestorChain db.nodes (chainFuel db) node ∧ c = cluster
  · rw [if_pos hp, if_pos hp]
    omega
  · rw [if_neg hp, if_neg hp]
    omega

theorem InvSize_node_purge (db : DB) (now : Int) (node : Nat) (before cluster : Int)
    (hinv : InvSize db) (hpe : ParentsExist db) (hcn : ChainsNodup db)
    (hnoc : ∀ r ∈ db.nodes, r.parent = node → r.node = node) :
    InvSize (node_purge db now node before cluster).2 := by
  cases hm : (db.versions.filter (purgeMatch node before cluster)).isEmpty with
  | true =>
    have heq : (node_purge db now node before cluster).2 = db := by
      simp [node_purge, hm]
    rw [heq]
    exact hinv
  | false =>
    have hdb : (node_purge db now node before cluster).2
        = if (db.nodes.any (fun r => r.node == node)
              && !((db.versions.filter (fun v => !purgeMatch node before cluster v)).any
                  (fun v => v.node == node))) = true
          then node_delete_cascade (purgeDB1 db now node before cluster) [node]
          else purgeDB1 db now node before cluster := by
      simp [node_purge, purgeDB1, hm]
    rw [hdb]
    have hinv1 : InvSize (purgeDB1 db now node before cluster) :=
      InvSize_purgeDB1 db now node before cluster hinv hcn
    by_cases hc : (db.nodes.any (fun r => r.node == node)
        && !((db.versions.filter (fun v => !purgeMatch node before cluster v)).any
            (fun v => v.node == node))) = true
    · rw [if_pos hc]
      rw [Bool.and_eq_true] at hc
      have hnone := hc.2
      have hvers : ∀ v ∈ (purgeDB1 db now node before cluster).versions,
          v.node ∉ [node] := by
        intro v hv hmem
        rw [List.mem_singleton] at hmem
        have hany : (db.versions.filter (fun v => !purgeMatch node before cluster v)).any
            (fun v => v.node == node) = true := by
          rw [List.any_eq_true]
          exact ⟨v, hv, by simp [hmem]⟩
        rw [hany] at hnone
        simp at hnone
      apply cascade_preserves_size (purgeDB1 db now node before cluster) [node] hinv1
      · exact hpe
      · exact hcn
      · intro r hr hp
        rw [List.mem_singleton] at hp ⊢
        exact hnoc r hr hp
      · exact hvers
    · rw [if_neg hc]
      exact hinv1


theorem InvPop_purgeDB1 (db : DB) (now : Int) (node : Nat) (before cluster : Int)
    (hinv : InvPop db) :
    InvPop (purgeDB1 db now node before cluster) := by
  intro r hr c
  have hr2 : r ∈ db.nodes := hr
  have h1 : storedPop (purgeDB1 db now node before cluster) r.node c
      = statPop db.stats r.node c
        + (if (ancestorChain db.nodes (chainFuel db) node).head? = some r.node
              ∧ c = cluster
           then -(((db.versions.filter (purgeMatch node before cluster)).length
              : Nat) : Int)
           else 0) := by
    show statPop (statistics_update_ancestors db.nodes db.stats (chainFuel db) node
        (-(((db.versions.filter (purgeMatch node before cluster)).length : Nat) : Int))
        (-(((db.versions.filter (purgeMatch node before cluster)).map
            (fun v => v.size)).sum))
        now cluster) r.node c = _
    rw [statPop_walk db.nodes (chainFuel db) db.stats node
      (-(((db.versions.filter (purgeMatch node before cluster)).length : Nat) : Int))
      (-(((db.versions.filter (purgeMatch node before cluster)).map
          (fun v => v.size)).sum))
      now cluster r.node c]
  have h2 : childPop (purgeDB1 db now node before cluster) r.node c
      = childPop db r.node c
        - (if (ancestorChain db.nodes (chainFuel db) node).head? = some r.node
              ∧ c = cluster
           then (((db.versions.filter (purgeMatch node before cluster)).length
              : Nat) : Int)
           else 0) := by
    show (((db.versions.filter (fun v => !purgeMatch node before cluster v)).filter
        (fun w : Version => w.cluster == c && w.node != 0
          && ((node_get_properties db.nodes w.node).map Prod.fst
            == some r.node))).length : Int) = _
    rw [← List.countP_eq_length_filter]
    have hneg : db.versions.filter
        (fun x => !(fun v => !purgeMatch node before cluster v) x)
        = db.versions.filter (purgeMatch node before cluster) := by
      apply List.filter_congr
      intro x _
      simp only [Bool.not_not]
    have hsplitv := countP_split db.versions (fun v => !purgeMatch node before cluster v)
      (fun w : Version => w.cluster == c && w.node != 0
        && ((node_get_properties db.nodes w.node).map Prod.fst == some r.node))
    rw [hneg] at hsplitv
    have hchild : childPop db r.node c
        = ((db.versions.countP (fun w : Version => w.cluster == c && w.node != 0
            && ((node_get_properties db.nodes w.node).map Prod.fst == some r.node)))
          : Int) := by
      show ((db.versions.filter (fun w : Version => w.cluster == c && w.node != 0
          && ((node_get_properties db.nodes w.node).map Prod.fst
            == some r.node))).length : Int) = _
      rw [← List.countP_eq_length_filter]
    rw [hchild]
    by_cases hb : (cluster == c && node != 0
        && ((node_get_properties db.nodes node).map Prod.fst == some r.node)) = true
    · have hdead : (db.versions.filter (purgeMatch node before cluster)).countP
          (fun w : Version => w.cluster == c && w.node != 0
            && ((node_get_properties db.nodes w.node).map Prod.fst == some r.node))
          = (db.versions.filter (purgeMatch node before cluster)).length := by
        rw [List.countP_eq_length_filter]
        have hfe : (db.versions.filter (purgeMatch node before cluster)).filter
            (fun w : Version => w.cluster == c && w.node != 0
              && ((node_get_properties db.nodes w.node).map Prod.fst == some r.node))
            = db.versions.filter (purgeMatch node before cluster) := by
          rw [List.filter_eq_self]
          intro x hx
          have hx2 := (List.mem_filter.mp hx).2
          simp only [purgeMatch, Bool.and_eq_true, beq_iff_eq, decide_eq_true_eq] at hx2
          obtain ⟨⟨hxn, hxc⟩, -⟩ := hx2
          rw [hxn, hxc]
          exact hb
        rw [hfe]
      rw [hdead] at hsplitv
      have hfz : chainFuel db = db.nodes.length + 1 := rfl
      rw [hfz]
      rw [if_pos ((headPred_iff db.nodes db.nodes.length node r.node c cluster).mpr hb)]
      omega
    · have hdead : (db.versions.filter (purgeMatch node before cluster)).countP
          (fun w : Version => w.cluster == c && w.node != 0
            && ((node_get_properties db.nodes w.node).map Prod.fst == some r.node))
          = 0 := by
        rw [List.countP_eq_length_filter]
        have hfe : (db.versions.filter (purgeMatch node before cluster)).filter
            (fun w : Version => w.cluster == c && w.node != 0
              && ((node_get_properties db.nodes w.node).map Prod.fst == some r.node))
            = [] := by
          rw [List.filter_eq_nil_iff]
          intro x hx
          have hx2 := (List.mem_filter.mp hx).2
          simp only [purgeMatch, Bool.and_eq_true, beq_iff_eq, decide_eq_true_eq] at hx2
          obtain ⟨⟨hxn, hxc⟩, -⟩ := hx2
          rw [hxn, hxc]
          intro hcontra
          exact hb hcontra
        rw [hfe]
        rfl
      rw [hdead] at hsplitv
      have hfz : chainFuel db = db.nodes.length + 1 := rfl
      rw [hfz]
      rw [if_neg (fun hcp => hb ((headPred_iff db.nodes db.nodes.length node r.node
        c cluster).mp hcp))]
      omega
  rw [h1, h2]
  have hss : statPop db.stats r.node c = childPop db r.node c := hinv r hr2 c
  rw [hss]
  by_cases hp : (ancestorChain db.nodes (chainFuel db) node).head? = some r.node
      ∧ c = cluster
  · rw [if_pos hp, if_pos hp]
    omega
  · rw [if_neg hp, if_neg hp]
    omega

theorem InvPop_node_purge (db : DB) (now : Int) (node : Nat) (before cluster : Int)
    (hinv : InvPop db) (hpe : ParentsExist db) (hcn : ChainsNodup db)
    (hnoc : ∀ r ∈ db.nodes, r.parent = node → r.node = node) :
    InvPop (node_purge db now node before cluster).2 := by
  cases hm : (db.versions.filter (purgeMatch node before cluster)).isEmpty with
  | true =>
    have heq : (node_purge db now node before cluster).2 = db := by
      simp [node_purge, hm]
    rw [heq]
    exact hinv
  | false =>
    have hdb : (node_purge db now node before cluster).2
        = if (db.nodes.any (fun r => r.node == node)
              && !((db.versions.filter (fun v => !purgeMatch node before cluster v)).any
                  (fun v => v.node == node))) = true
          then node_delete_cascade (purgeDB1 db now node before cluster) [node]
          else purgeDB1 db now node before cluster := by
      simp [node_purge, purgeDB1, hm]
    rw [hdb]
    have hinv1 : InvPop (purgeDB1 db now node before cluster) :=
      InvPop_purgeDB1 db now node before cluster hinv
    by_cases hc : (db.nodes.any (fun r => r.node == node)
        && !((db.versions.filter (fun v => !purgeMatch node before cluster v)).any
            (fun v => v.node == node))) = true
    · rw [if_pos hc]
      rw [Bool.and_eq_true] at hc
      have hnone := hc.2
      have hvers : ∀ v ∈ (purgeDB1 db now node before cluster).versions,
          v.node ∉ [node] := by
        intro v hv hmem
        rw [List.mem_singleton] at hmem
        have hany : (db.versions.filter (fun v => !purgeMatch node before cluster v)).any
            (fun v => v.node == node) = true := by
          rw [List.any_eq_true]
          exact ⟨v, hv, by simp [hmem]⟩
        rw [hany] at hnone
        simp at hnone
      apply cascade_preserves_pop (purgeDB1 db now node before cluster) [node] hinv1
      · exact hpe
      · exact hcn
      · intro r hr hp
        rw [List.mem_singleton] at hp ⊢
        exact hnoc r hr hp
      · exact hvers
    · rw [if_neg hc]
      exact hinv1


theorem chain_fuel_stable2 (nodes : List NodeRow) :
    ∀ (f : Nat) (g : Nat) (m : Nat), f ≤ g →
      (ancestorChain nodes f m).length < f →
      ancestorChain nodes g m = ancestorChain nodes f m := by
  intro f
  induction f with
  | zero => intro g m _ h; omega
  | succ f2 ih =>
    intro g m hfg hlen
    cases g with
    | zero => omega
    | succ g2 =>
      by_cases h0 : m = 0
      · simp [ancestorChain, h0]
      · cases hp : node_get_properties nodes m with
        | none => simp [ancestorChain, h0, hp]
        | some pr =>
          obtain ⟨parent, path⟩ := pr
          have hf : ancestorChain nodes (f2 + 1) m
              = parent :: ancestorChain nodes f2 parent := by
            simp [ancestorChain, h0, hp]
          rw [hf] at hlen
          simp only [List.length_cons] at hlen
          have hrec := ih g2 parent (by omega) (by omega)
          simp [ancestorChain, h0, hp, hrec, hf]

theorem find?_key_unique (nodes : List NodeRow) :
    (nodes.map (fun r => r.node)).Nodup → ∀ q ∈ nodes, ∀ m : Nat, q.node = m →
      nodes.find? (fun r => r.node == m) = some q := by
  induction nodes with
  | nil => intro _ q hq; cases hq
  | cons r t ih =>
    intro hnd q hq m hqm
    have hnd2 : (t.map (fun s => s.node)).Nodup := by
      simp only [List.map_cons, List.nodup_cons] at hnd
      exact hnd.2
    have hnotin : r.node ∉ t.map (fun s => s.node) := by
      simp only [List.map_cons, List.nodup_cons] at hnd
      exact hnd.1
    rcases List.mem_cons.mp hq with rfl | hqt
    · have hb : (q.node == m) = true := by simp [hqm]
      simp [List.find?_cons, hb]
    · have hne : (r.node == m) = false := by
        rw [beq_eq_false_iff_ne]
        intro he
        apply hnotin
        rw [he, ← hqm]
        exact List.mem_map.mpr ⟨q, hqt, rfl⟩
      simp only [List.find?_cons, hne]
      exact ih hnd2 q hqt m hqm

theorem child_chain (db : DB) (parent : Nat)
    (hnd : NodesNodup db) (hpe : ParentsExist db) (hcn : ChainsNodup db)
    (hzero : ∀ r ∈ db.nodes, r.node = 0 → r.parent = 0) (hpar : parent ≠ 0)
    (m : Nat) (hm : childOfB db.nodes parent m = true) :
    ancestorChain db.nodes (chainFuel db) m
      = parent :: ancestorChain db.nodes (chainFuel db) parent := by
  rw [childOfB, List.any_eq_true] at hm
  obtain ⟨q, hq, hq2⟩ := hm
  rw [Bool.and_eq_true] at hq2
  have hqm : q.node = m := beq_iff_eq.mp hq2.1
  have hqp : q.parent = parent := beq_iff_eq.mp hq2.2
  have hm0 : m ≠ 0 := by
    intro h0
    apply hpar
    rw [← hqp]
    apply hzero q hq
    rw [hqm, h0]
  have hfind : db.nodes.find? (fun r => r.node == m) = some q :=
    find?_key_unique db.nodes hnd q hq m hqm
  have hprops : node_get_properties db.nodes m = some (parent, q.path) := by
    simp [node_get_properties, hfind, hqp]
  have hcons : ancestorChain db.nodes (db.nodes.length + 1) m
      = parent :: ancestorChain db.nodes db.nodes.length parent := by
    simp [ancestorChain, hm0, hprops]
  have hndch : (ancestorChain db.nodes (chainFuel db) m).Nodup := by
    have h := hcn q hq
    rw [hqm] at h
    exact h
  have hsub : ∀ x ∈ ancestorChain db.nodes (chainFuel db) m,
      x ∈ db.nodes.map (fun r => r.node) := by
    intro x hx
    obtain ⟨r, hr, hrx⟩ := chain_subset_ids db.nodes hpe _ m x hx
    rw [List.mem_map]
    exact ⟨r, hr, hrx⟩
  have hlen : (ancestorChain db.nodes (chainFuel db) m).length ≤ db.nodes.length := by
    have h1 := nodup_subset_length _ _ hndch hsub
    have h2 : (db.nodes.map (fun r => r.node)).length = db.nodes.length :=
      List.length_map _ _
    omega
  have hlen2 : (ancestorChain db.nodes db.nodes.length parent).length
      < db.nodes.length := by
    have h3 : (ancestorChain db.nodes (chainFuel db) m).length
        = (ancestorChain db.nodes db.nodes.length parent).length + 1 := by
      show (ancestorChain db.nodes (db.nodes.length + 1) m).length = _
      rw [hcons]
      rfl
    omega
  have hstab := chain_fuel_stable2 db.nodes db.nodes.length (db.nodes.length + 1)
    parent (by omega) hlen2
  show ancestorChain db.nodes (db.nodes.length + 1) m = _
  rw [hcons]
  show _ = parent :: ancestorChain db.nodes (db.nodes.length + 1) parent
  rw [hstab]



theorem InvSize_pcDB1 (db : DB) (now : Int) (parent : Nat) (before cluster : Int)
    (hinv : InvSize db) (hnd : NodesNodup db) (hpe : ParentsExist db)
    (hcn : ChainsNodup db)
    (hzero : ∀ r ∈ db.nodes, r.node = 0 → r.parent = 0) (hpar : parent ≠ 0)
    (hacyc : parent ∉ ancestorChain db.nodes (chainFuel db) parent) :
    InvSize (pcDB1 db now parent before cluster) := by
  intro r hr c
  have hr2 : r ∈ db.nodes := hr
  have h1 : storedSize (pcDB1 db now parent before cluster) r.node c
      = statSize db.stats r.node c
        + (if r.node = parent ∧ c = cluster
           then -(((db.versions.filter
              (purgeChildMatch db.nodes parent before cluster)).map
              (fun v => v.size)).sum)
           else 0)
        + (if r.node ∈ ancestorChain db.nodes (chainFuel db) parent ∧ c = cluster
           then -(((db.versions.filter
              (purgeChildMatch db.nodes parent before cluster)).map
              (fun v => v.size)).sum)
           else 0) := by
    show statSize (statistics_update_ancestors db.nodes
        (statistics_update db.stats parent
          (-(((db.versions.filter
              (purgeChildMatch db.nodes parent before cluster)).length : Nat) : Int))
          (-(((db.versions.filter
              (purgeChildMatch db.nodes parent before cluster)).map
              (fun v => v.size)).sum))
          now cluster)
        (chainFuel db) parent
        (-(((db.versions.filter
            (purgeChildMatch db.nodes parent before cluster)).length : Nat) : Int))
        (-(((db.versions.filter
            (purgeChildMatch db.nodes parent before cluster)).map
            (fun v => v.size)).sum))
        now cluster) r.node c = _
    rw [statSize_walk db.nodes (chainFuel db) _ parent
      (-(((db.versions.filter
          (purgeChildMatch db.nodes parent before cluster)).length : Nat) : Int))
      (-(((db.versions.filter
          (purgeChildMatch db.nodes parent before cluster)).map
          (fun v => v.size)).sum))
      now cluster r.node c (chains_nodup_all db hcn parent)]
    rw [statSize_update db.stats parent
      (-(((db.versions.filter
          (purgeChildMatch db.nodes parent before cluster)).length : Nat) : Int))
      (-(((db.versions.filter
          (purgeChildMatch db.nodes parent before cluster)).map
          (fun v => v.size)).sum))
      now cluster r.node c]
  have h2 : subtreeSize (pcDB1 db now parent before cluster) r.node c
      = subtreeSize db r.node c
        - (if r.node ∈ parent :: ancestorChain db.nodes (chainFuel db) parent
              ∧ c = cluster
           then ((db.versions.filter
              (purgeChildMatch db.nodes parent before cluster)).map
              (fun v => v.size)).sum
           else 0) := by
    show (((db.versions.filter
        (fun v => !purgeChildMatch db.nodes parent before cluster v)).filter
        (fun w : Version => w.cluster == c
          && (ancestorChain db.nodes (chainFuel db) w.node).contains r.node)).map
        (fun w : Version => w.size)).sum = _
    rw [sum_filter_map]
    have hneg : db.versions.filter
        (fun x => !(fun v => !purgeChildMatch db.nodes parent before cluster v) x)
        = db.versions.filter (purgeChildMatch db.nodes parent before cluster) := by
      apply List.filter_congr
      intro x _
      simp only [Bool.not_not]
    have hsplitv := sum_map_split db.versions
      (fun v => !purgeChildMatch db.nodes parent before cluster v)
      (fun x : Version => if (x.cluster == c
        && (ancestorChain db.nodes (chainFuel db) x.node).contains r.node) = true
        then x.size else 0)
    rw [hneg] at hsplitv
    have hdead : ((db.versions.filter
        (purgeChildMatch db.nodes parent before cluster)).map
        (fun x : Version => if (x.cluster == c
          && (ancestorChain db.nodes (chainFuel db) x.node).contains r.node) = true
          then x.size else 0)).sum
        = (if r.node ∈ parent :: ancestorChain db.nodes (chainFuel db) parent
              ∧ c = cluster
           then ((db.versions.filter
              (purgeChildMatch db.nodes parent before cluster)).map
              (fun v => v.size)).sum
           else 0) := by
      by_cases hb : (cluster == c
          && ((parent :: ancestorChain db.nodes (chainFuel db) parent).contains
            r.node)) = true
      · have hmap : ∀ x ∈ db.versions.filter
            (purgeChildMatch db.nodes parent before cluster),
            (if (x.cluster == c
              && (ancestorChain db.nodes (chainFuel db) x.node).contains r.node) = true
            then x.size else 0) = x.size := by
          intro x hx
          have hx2 := (List.mem_filter.mp hx).2
          simp only [purgeChildMatch, Bool.and_eq_true, beq_iff_eq,
            decide_eq_true_eq] at hx2
          obtain ⟨⟨hchild, hxc⟩, -⟩ := hx2
          have hcc := child_chain db parent hnd hpe hcn hzero hpar x.node hchild
          rw [hxc, hcc, hb]
          simp
        rw [List.map_congr_left hmap,
          if_pos ((chainMem_iff
            (parent :: ancestorChain db.nodes (chainFuel db) parent) r.node
            c cluster).mpr hb)]
      · have hmap : ∀ x ∈ db.versions.filter
            (purgeChildMatch db.nodes parent before cluster),
            (if (x.cluster == c
              && (ancestorChain db.nodes (chainFuel db) x.node).contains r.node) = true
            then x.size else 0) = 0 := by
          intro x hx
          have hx2 := (List.mem_filter.mp hx).2
          simp only [purgeChildMatch, Bool.and_eq_true, beq_iff_eq,
            decide_eq_true_eq] at hx2
          obtain ⟨⟨hchild, hxc⟩, -⟩ := hx2
          have hcc := child_chain db parent hnd hpe hcn hzero hpar x.node hchild
          rw [hxc, hcc]
          have hbf : (cluster == c
              && ((parent :: ancestorChain db.nodes (chainFuel db) parent).contains
                r.node)) = false := by
            cases hb2 : (cluster == c
                && ((parent :: ancestorChain db.nodes (chainFuel db) parent).contains
                  r.node))
            · rfl
            · exact absurd hb2 hb
          rw [hbf]
          simp
        rw [List.map_congr_left hmap,
          if_neg (fun hcp => hb ((chainMem_iff
            (parent :: ancestorChain db.nodes (chainFuel db) parent) r.node
            c cluster).mp hcp))]
        simp
    rw [hdead] at hsplitv
    have hsub : subtreeSize db r.node c
        = (db.versions.map (fun x : Version => if (x.cluster == c
            && (ancestorChain db.nodes (chainFuel db) x.node).contains r.node) = true
            then x.size else 0)).sum := by
      show ((db.versions.filter (fun w : Version => w.cluster == c
          && (ancestorChain db.nodes (chainFuel db) w.node).contains r.node)).map
          (fun w : Version => w.size)).sum = _
      rw [sum_filter_map]
    rw [hsub]
    omega
  rw [h1, h2]
  have hss : statSize db.stats r.node c = subtreeSize db r.node c := hinv r hr2 c
  rw [hss]
  by_cases hc1 : c = cluster
  · by_cases hrp : r.node = parent
    · have hno : r.node ∉ ancestorChain db.nodes (chainFuel db) parent := by
        rw [hrp]
        exact hacyc
      rw [if_pos (⟨hrp, hc1⟩ : r.node = parent ∧ c = cluster),
        if_neg ((fun h => hno h.1) :
          ¬(r.node ∈ ancestorChain db.nodes (chainFuel db) parent ∧ c = cluster)),
        if_pos (⟨List.mem_cons.mpr (Or.inl hrp), hc1⟩ :
          r.node ∈ parent :: ancestorChain db.nodes (chainFuel db) parent
            ∧ c = cluster)]
      omega
    · by_cases hmm : r.node ∈ ancestorChain db.nodes (chainFuel db) parent
      · rw [if_neg ((fun h => hrp h.1) : ¬(r.node = parent ∧ c = cluster)),
          if_pos (⟨hmm, hc1⟩ :
            r.node ∈ ancestorChain db.nodes (chainFuel db) parent ∧ c = cluster),
          if_pos (⟨List.mem_cons.mpr (Or.inr hmm), hc1⟩ :
            r.node ∈ parent :: ancestorChain db.nodes (chainFuel db) parent
              ∧ c = cluster)]
        omega
      · rw [if_neg ((fun h => hrp h.1) : ¬(r.node = parent ∧ c = cluster)),
          if_neg ((fun h => hmm h.1) :
            ¬(r.node ∈ ancestorChain db.nodes (chainFuel db) parent ∧ c = cluster)),
          if_neg ((fun h => (List.mem_cons.mp h.1).elim hrp hmm) :
            ¬(r.node ∈ parent :: ancestorChain db.nodes (chainFuel db) parent
              ∧ c = cluster))]
        omega
  · rw [if_neg ((fun h => hc1 h.2) : ¬(r.node = parent ∧ c = cluster)),
      if_neg ((fun h => hc1 h.2) :
        ¬(r.node ∈ ancestorChain db.nodes (chainFuel db) parent ∧ c = cluster)),
      if_neg ((fun h => hc1 h.2) :
        ¬(r.node ∈ parent :: ancestorChain db.nodes (chainFuel db) parent
          ∧ c = cluster))]
    omega


theorem InvSize_node_purge_children (db : DB) (now : Int) (parent : Nat)
    (before cluster : Int)
    (hinv : InvSize db) (hnd : NodesNodup db) (hpe : ParentsExist db)
    (hcn : ChainsNodup db)
    (hzero : ∀ r ∈ db.nodes, r.node = 0 → r.parent = 0) (hpar : parent ≠ 0)
    (hacyc : parent ∉ ancestorChain db.nodes (chainFuel db) parent)
    (hcl : ∀ q ∈ db.nodes, ∀ s ∈ db.nodes, q.parent = parent → s.parent = q.node →
      False) :
    InvSize (node_purge_children db now parent before cluster).2 := by
  cases hm : (db.versions.filter
      (purgeChildMatch db.nodes parent before cluster)).isEmpty with
  | true =>
    have heq : (node_purge_children db now parent before cluster).2 = db := by
      simp [node_purge_children, hm]
    rw [heq]
    exact hinv
  | false =>
    have hdb : (node_purge_children db now parent before cluster).2
        = node_delete_cascade (pcDB1 db now parent before cluster)
            (purgeRoots db.nodes parent (db.versions.filter
              (fun v => !purgeChildMatch db.nodes parent before cluster v))) := by
      simp [node_purge_children, pcDB1, hm]
    rw [hdb]
    have hinv1 : InvSize (pcDB1 db now parent before cluster) :=
      InvSize_pcDB1 db now parent before cluster hinv hnd hpe hcn hzero hpar hacyc
    apply cascade_preserves_size (pcDB1 db now parent before cluster) _ hinv1
    · exact hpe
    · exact hcn
    · intro r hr hp
      exfalso
      rw [purgeRoots, List.mem_map] at hp
      obtain ⟨q, hq, hqn⟩ := hp
      have hq2 := List.mem_filter.mp hq
      rw [Bool.and_eq_true] at hq2
      have hqp : q.parent = parent := beq_iff_eq.mp hq2.2.1
      exact hcl q hq2.1 r hr hqp hqn.symm
    · intro v hv hmem
      rw [purgeRoots, List.mem_map] at hmem
      obtain ⟨q, hq, hqn⟩ := hmem
      have hq2 := List.mem_filter.mp hq
      rw [Bool.and_eq_true] at hq2
      have hnone := hq2.2.2
      have hany : (db.versions.filter
          (fun v => !purgeChildMatch db.nodes parent before cluster v)).any
          (fun w => w.node == q.node) = true := by
        rw [List.any_eq_true]
        exact ⟨v, hv, by simp [hqn]⟩
      rw [hany] at hnone
      simp at hnone



theorem pcPreDB_pop : InvPop pcPreDB := by
  intro r hr c
  by_cases hc : c = 0
  · subst hc
    have hrl : r ∈ [(⟨0, 0, []⟩ : NodeRow), ⟨1, 0, [97]⟩, ⟨2, 1, [97, 47, 98]⟩] := hr
    fin_cases hrl <;> decide
  · have hc2 : ¬((0 : Int) = c) := fun h => hc h.symm
    have h1 : storedPop pcPreDB r.node c = 0 := by
      show statPop (fun n c2 => if n = 1 ∧ c2 = 0 then some ⟨1, 10, 10⟩
        else if n = 0 ∧ c2 = 0 then some ⟨0, 10, 10⟩ else none) r.node c = 0
      simp [statPop, hc]
    have h2 : childPop pcPreDB r.node c = 0 := by
      show ((pcPreDB.versions.filter (fun v => v.cluster == c && v.node != 0
        && ((node_get_properties pcPreDB.nodes v.node).map Prod.fst
          == some r.node))).length : Int) = 0
      simp [pcPreDB, hc2]
    rw [h1, h2]

theorem pcPreDB_size : InvSize pcPreDB := by
  intro r hr c
  by_cases hc : c = 0
  · subst hc
    have hrl : r ∈ [(⟨0, 0, []⟩ : NodeRow), ⟨1, 0, [97]⟩, ⟨2, 1, [97, 47, 98]⟩] := hr
    fin_cases hrl <;> decide
  · have hc2 : ¬((0 : Int) = c) := fun h => hc h.symm
    have h1 : storedSize pcPreDB r.node c = 0 := by
      show statSize (fun n c2 => if n = 1 ∧ c2 = 0 then some ⟨1, 10, 10⟩
        else if n = 0 ∧ c2 = 0 then some ⟨0, 10, 10⟩ else none) r.node c = 0
      simp [statSize, hc]
    have h2 : subtreeSize pcPreDB r.node c = 0 := by
      show (((pcPreDB.versions.filter (fun v => v.cluster == c
        && isProperDesc pcPreDB r.node v.node))).map (fun v => v.size)).sum = 0
      simp [pcPreDB, hc2]
    rw [h1, h2]

/-- C2: the spec states the size invariant over versions at `N` or a
descendant of `N`; the code maintains it over proper descendants only, so
`version_create` immediately violates the spec's inclusive form at the
version's own node.  The amended invariant (proper descendants, i.e.
nodes whose parent chain passes through `N`) is preserved by every
mutating operation, with the purges' node pruning hypothesised not to
orphan subtrees. -/
theorem C2_size_invariant (db : DB) (now : Int)
    (hinv : InvSize db) (hnd : NodesNodup db) (hpe : ParentsExist db)
    (hcn : ChainsNodup db) (hser : SerialsNodup db)
    (hzero : ∀ r ∈ db.nodes, r.node = 0 → r.parent = 0) :
    (∀ (node : Nat) (hash : String) (size : Int) (source : Option Nat)
       (muser : String) (cluster : Int),
       InvSize (version_create db now node hash size source muser cluster).2)
    ∧ (∀ serial : Nat, InvSize (version_remove db now serial).2)
    ∧ (∀ (serial : Nat) (cluster : Int),
        InvSize (version_recluster db now serial cluster))
    ∧ (∀ n : Nat, n ≠ 0 → InvSize (node_remove db now n).2)
    ∧ (∀ (node : Nat) (before cluster : Int),
        (∀ r ∈ db.nodes, r.parent = node → r.node = node) →
        InvSize (node_purge db now node before cluster).2)
    ∧ (∀ (parent : Nat) (before cluster : Int), parent ≠ 0 →
        parent ∉ ancestorChain db.nodes (chainFuel db) parent →
        (∀ q ∈ db.nodes, ∀ s ∈ db.nodes, q.parent = parent → s.parent = q.node →
          False) →
        InvSize (node_purge_children db now parent before cluster).2) := by
  refine ⟨?_, ?_, ?_, ?_, ?_, ?_⟩
  · intro node hash size source muser cluster
    exact InvSize_version_create db now node hash size source muser cluster hinv
      (chains_nodup_all db hcn node)
  · intro serial
    exact InvSize_version_remove db now serial hinv hser (chains_nodup_all db hcn)
  · intro serial cluster
    exact InvSize_version_recluster db now serial cluster hinv hser
      (chains_nodup_all db hcn)
  · intro n hn
    exact InvSize_node_remove db now n hinv hpe hcn hzero hn
  · intro node before cluster hnoc
    exact InvSize_node_purge db now node before cluster hinv hpe hcn hnoc
  · intro parent before cluster hp ha hc2
    exact InvSize_node_purge_children db now parent before cluster hinv hnd hpe hcn
      hzero hp ha hc2

theorem C2_witness :
    InvSize (version_create sizeCexPre 50 2 "h" 5 none "u" 0).2
    ∧ InvSize (node_remove sizeCexPre 50 2).2
    ∧ InvSize (node_purge_children sizeCexPre 50 1 100 0).2 := by
  have h := C2_size_invariant sizeCexPre 50 (fun r _ c => rfl)
    (by unfold NodesNodup; decide) (by unfold ParentsExist; decide)
    (by unfold ChainsNodup; decide) (by unfold SerialsNodup; decide)
    (by decide)
  exact ⟨h.1 2 "h" 5 none "u" 0, h.2.2.2.1 2 (by decide),
    h.2.2.2.2.2 1 100 0 (by decide) (by decide) (by decide)⟩

theorem C2_counterexample :
    InvSizeIncl sizeCexPre
    ∧ ¬ InvSizeIncl (version_create sizeCexPre 10 2 "h1" 10 none "u" 0).2 := by
  constructor
  · intro r _ c
    rfl
  · intro h
    have h2 := h ⟨2, 1, [97, 47, 98]⟩ (by decide) 0
    exact absurd h2 (by decide)


/-- C3: the population invariant (stored population = cluster count at
direct children) is preserved by version create/remove/recluster,
`node_remove` and `node_purge`, and the ancestor walk applies the
population delta on the first hop only while the size delta is applied at
every hop; but it is NOT preserved by every mutating operation:
`node_purge_children` passes the full population delta to the ancestor
walk after already applying it at the parent, so the grandparent's
population is decremented for versions that never lived at its direct
children. -/
theorem C3_pop_invariant (db : DB) (now : Int)
    (hinv : InvPop db) (hpe : ParentsExist db) (hcn : ChainsNodup db)
    (hser : SerialsNodup db)
    (hzero : ∀ r ∈ db.nodes, r.node = 0 → r.parent = 0) :
    (∀ (node : Nat) (hash : String) (size : Int) (source : Option Nat)
       (muser : String) (cluster : Int),
       InvPop (version_create db now node hash size source muser cluster).2)
    ∧ (∀ serial : Nat, InvPop (version_remove db now serial).2)
    ∧ (∀ (serial : Nat) (cluster : Int),
        InvPop (version_recluster db now serial cluster))
    ∧ (∀ n : Nat, n ≠ 0 → InvPop (node_remove db now n).2)
    ∧ (∀ (node : Nat) (before cluster : Int),
        (∀ r ∈ db.nodes, r.parent = node → r.node = node) →
        InvPop (node_purge db now node before cluster).2)
    ∧ (∀ (stats : Stats) (n : Nat) (pop sz mt cl : Int) (N : Nat) (c : Int),
        statPop (statistics_update_ancestors db.nodes stats (chainFuel db)
            n pop sz mt cl) N c
          = statPop stats N c
            + (if (ancestorChain db.nodes (chainFuel db) n).head? = some N ∧ c = cl
               then pop else 0))
    ∧ (∀ (stats : Stats) (n : Nat) (pop sz mt cl : Int) (N : Nat) (c : Int),
        statSize (statistics_update_ancestors db.nodes stats (chainFuel db)
            n pop sz mt cl) N c
          = statSize stats N c
            + (if N ∈ ancestorChain db.nodes (chainFuel db) n ∧ c = cl
               then sz else 0)) := by
  refine ⟨?_, ?_, ?_, ?_, ?_, ?_, ?_⟩
  · intro node hash size source muser cluster
    exact InvPop_version_create db now node hash size source muser cluster hinv
  · intro serial
    exact InvPop_version_remove db now serial hinv hser
  · intro serial cluster
    exact InvPop_version_recluster db now serial cluster hinv hser
  · intro n hn
    exact InvPop_node_remove db now n hinv hpe hcn hzero hn
  · intro node before cluster hnoc
    exact InvPop_node_purge db now node before cluster hinv hpe hcn hnoc
  · intro stats n pop sz mt cl N c
    exact statPop_walk db.nodes (chainFuel db) stats n pop sz mt cl N c
  · intro stats n pop sz mt cl N c
    exact statSize_walk db.nodes (chainFuel db) stats n pop sz mt cl N c
      (chains_nodup_all db hcn n)

theorem C3_witness :
    InvPop (version_create pcPreDB 50 2 "h" 5 none "u" 0).2
    ∧ InvPop (node_remove pcPreDB 50 2).2
    ∧ InvPop (node_purge pcPreDB 50 2 100 0).2 := by
  have h := C3_pop_invariant pcPreDB 50 pcPreDB_pop
    (by unfold ParentsExist; decide) (by unfold ChainsNodup; decide)
    (by unfold SerialsNodup; decide) (by decide)
  exact ⟨h.1 2 "h" 5 none "u" 0, h.2.2.2.1 2 (by decide),
    h.2.2.2.2.1 2 100 0 (by decide)⟩

theorem C3_counterexample :
    InvPop pcPreDB
    ∧ ¬ InvPop (node_purge_children pcPreDB 50 1 100 0).2 := by
  constructor
  · exact pcPreDB_pop
  · intro h
    have h2 := h ⟨0, 0, []⟩ (by decide) 0
    exact absurd h2 (by decide)


/-- C6: the returned hashes are exactly those of the versions at direct
children of `parent`, in the cluster, with `mtime <= before` (inclusive
bound); for a nonempty match the parent's own statistics row is updated
directly (population and size both decrease there) and the size delta is
propagated to every surviving ancestor of `parent`.  The claim's final
part is refuted separately: the pruning removes versionless children even
when they still have children, cascading away whole subtrees. -/
theorem C6_purge_children (db : DB) (now : Int) (parent : Nat)
    (before cluster : Int)
    (hcn : ChainsNodup db)
    (hacyc : parent ∉ ancestorChain db.nodes (chainFuel db) parent) :
    ((node_purge_children db now parent before cluster).1
      = (db.versions.filter (purgeChildMatch db.nodes parent before cluster)).map
          (fun v => v.hash))
    ∧ ((db.versions.filter (purgeChildMatch db.nodes parent before cluster)).isEmpty
          = false →
        deadNode db.nodes (purgeRoots db.nodes parent (db.versions.filter
            (fun v => !purgeChildMatch db.nodes parent before cluster v))) parent
          = false →
        storedSize (node_purge_children db now parent before cluster).2 parent cluster
          = storedSize db parent cluster
            - ((db.versions.filter (purgeChildMatch db.nodes parent before cluster)).map
                (fun v => v.size)).sum
        ∧ storedPop (node_purge_children db now parent before cluster).2 parent cluster
          = storedPop db parent cluster
            - (((db.versions.filter
                (purgeChildMatch db.nodes parent before cluster)).length : Nat) : Int))
    ∧ (∀ N : Nat,
        (db.versions.filter (purgeChildMatch db.nodes parent before cluster)).isEmpty
          = false →
        N ∈ ancestorChain db.nodes (chainFuel db) parent →
        deadNode db.nodes (purgeRoots db.nodes parent (db.versions.filter
            (fun v => !purgeChildMatch db.nodes parent before cluster v))) N
          = false →
        storedSize (node_purge_children db now parent before cluster).2 N cluster
          = storedSize db N cluster
            - ((db.versions.filter (purgeChildMatch db.nodes parent before cluster)).map
                (fun v => v.size)).sum) := by
  cases hm : (db.versions.filter
      (purgeChildMatch db.nodes parent before cluster)).isEmpty with
  | true =>
    have hnil : db.versions.filter (purgeChildMatch db.nodes parent before cluster)
        = [] := by
      rw [← List.isEmpty_iff]
      exact hm
    have heq : (node_purge_children db now parent before cluster).1 = [] := by
      simp [node_purge_children, hm]
    refine ⟨?_, ?_, ?_⟩
    · rw [heq, hnil]
      rfl
    · intro hfalse
      cases hfalse
    · intro N hfalse
      cases hfalse
  | false =>
    have hdb : (node_purge_children db now parent before cluster).2
        = node_delete_cascade (pcDB1 db now parent before cluster)
            (purgeRoots db.nodes parent (db.versions.filter
              (fun v => !purgeChildMatch db.nodes parent before cluster v))) := by
      simp [node_purge_children, pcDB1, hm]
    have hhash : (node_purge_children db now parent before cluster).1
        = (db.versions.filter (purgeChildMatch db.nodes parent before cluster)).map
            (fun v => v.hash) := by
      simp [node_purge_children, hm]
    have hstats : ∀ N : Nat,
        deadNode db.nodes (purgeRoots db.nodes parent (db.versions.filter
            (fun v => !purgeChildMatch db.nodes parent before cluster v))) N
          = false →
        ∀ c : Int,
        storedSize (node_purge_children db now parent before cluster).2 N c
          = statSize (pcDB1 db now parent before cluster).stats N c
        ∧ storedPop (node_purge_children db now parent before cluster).2 N c
          = statPop (pcDB1 db now parent before cluster).stats N c := by
      intro N hdead c
      rw [hdb]
      constructor
      · show statSize (fun m c2 => if deadNode db.nodes (purgeRoots db.nodes parent
          (db.versions.filter
            (fun v => !purgeChildMatch db.nodes parent before cluster v))) m
          then none else (pcDB1 db now parent before cluster).stats m c2) N c = _
        simp [statSize, hdead]
      · show statPop (fun m c2 => if deadNode db.nodes (purgeRoots db.nodes parent
          (db.versions.filter
            (fun v => !purgeChildMatch db.nodes parent before cluster v))) m
          then none else (pcDB1 db now parent before cluster).stats m c2) N c = _
        simp [statPop, hdead]
    have hwalkS : ∀ (N : Nat),
        statSize (pcDB1 db now parent before cluster).stats N cluster
          = statSize db.stats N cluster
            + (if N = parent ∧ cluster = cluster
               then -(((db.versions.filter
                  (purgeChildMatch db.nodes parent before cluster)).map
                  (fun v => v.size)).sum)
               else 0)
            + (if N ∈ ancestorChain db.nodes (chainFuel db) parent
                  ∧ cluster = cluster
               then -(((db.versions.filter
                  (purgeChildMatch db.nodes parent before cluster)).map
                  (fun v => v.size)).sum)
               else 0) := by
      intro N
      show statSize (statistics_update_ancestors db.nodes
          (statistics_update db.stats parent
            (-(((db.versions.filter
                (purgeChildMatch db.nodes parent before cluster)).length : Nat) : Int))
            (-(((db.versions.filter
                (purgeChildMatch db.nodes parent before cluster)).map
                (fun v => v.size)).sum))
            now cluster)
          (chainFuel db) parent
          (-(((db.versions.filter
              (purgeChildMatch db.nodes parent before cluster)).length : Nat) : Int))
          (-(((db.versions.filter
              (purgeChildMatch db.nodes parent before cluster)).map
              (fun v => v.size)).sum))
          now cluster) N cluster = _
      rw [statSize_walk db.nodes (chainFuel db) _ parent
        (-(((db.versions.filter
            (purgeChildMatch db.nodes parent before cluster)).length : Nat) : Int))
        (-(((db.versions.filter
            (purgeChildMatch db.nodes parent before cluster)).map
            (fun v => v.size)).sum))
        now cluster N cluster (chains_nodup_all db hcn parent)]
      rw [statSize_update db.stats parent
        (-(((db.versions.filter
            (purgeChildMatch db.nodes parent before cluster)).length : Nat) : Int))
        (-(((db.versions.filter
            (purgeChildMatch db.nodes parent before cluster)).map
            (fun v => v.size)).sum))
        now cluster N cluster]
    have hwalkP : ∀ (N : Nat),
        statPop (pcDB1 db now parent before cluster).stats N cluster
          = statPop db.stats N cluster
            + (if N = parent ∧ cluster = cluster
               then -(((db.versions.filter
                  (purgeChildMatch db.nodes parent before cluster)).length : Nat) : Int)
               else 0)
            + (if (ancestorChain db.nodes (chainFuel db) parent).head? = some N
                  ∧ cluster = cluster
               then -(((db.versions.filter
                  (purgeChildMatch db.nodes parent before cluster)).length : Nat) : Int)
               else 0) := by
      intro N
      show statPop (statistics_update_ancestors db.nodes
          (statistics_update db.stats parent
            (-(((db.versions.filter
                (purgeChildMatch db.nodes parent before cluster)).length : Nat) : Int))
            (-(((db.versions.filter
                (purgeChildMatch db.nodes parent before cluster)).map
                (fun v => v.size)).sum))
            now cluster)
          (chainFuel db) parent
          (-(((db.versions.filter
              (purgeChildMatch db.nodes parent before cluster)).length : Nat) : Int))
          (-(((db.versions.filter
              (purgeChildMatch db.nodes parent before cluster)).map
              (fun v => v.size)).sum))
          now cluster) N cluster = _
      rw [statPop_walk db.nodes (chainFuel db) _ parent
        (-(((db.versions.filter
            (purgeChildMatch db.nodes parent before cluster)).length : Nat) : Int))
        (-(((db.versions.filter
            (purgeChildMatch db.nodes parent before cluster)).map
            (fun v => v.size)).sum))
        now cluster N cluster]
      rw [statPop_update db.stats parent
        (-(((db.versions.filter
            (purgeChildMatch db.nodes parent before cluster)).length : Nat) : Int))
        (-(((db.versions.filter
            (purgeChildMatch db.nodes parent before cluster)).map
            (fun v => v.size)).sum))
        now cluster N cluster]
    refine ⟨hhash, ?_, ?_⟩
    · intro _ hdead
      obtain ⟨hs, hp⟩ := hstats parent hdead cluster
      constructor
      · rw [hs, hwalkS parent]
        rw [if_pos (⟨rfl, rfl⟩ : parent = parent ∧ cluster = cluster),
          if_neg ((fun h => hacyc h.1) :
            ¬(parent ∈ ancestorChain db.nodes (chainFuel db) parent
              ∧ cluster = cluster))]
        have hsd : storedSize db parent cluster = statSize db.stats parent cluster := rfl
        rw [hsd]
        omega
      · rw [hp, hwalkP parent]
        have hhd : ¬((ancestorChain db.nodes (chainFuel db) parent).head? = some parent
            ∧ cluster = cluster) := by
          intro h
          apply hacyc
          have hh := h.1
          cases hch : ancestorChain db.nodes (chainFuel db) parent with
          | nil => rw [hch] at hh; cases hh
          | cons a t =>
            rw [hch] at hh
            simp only [List.head?_cons, Option.some_inj] at hh
            rw [hh]
            exact List.mem_cons_self parent t
        rw [if_pos (⟨rfl, rfl⟩ : parent = parent ∧ cluster = cluster), if_neg hhd]
        have hsd : storedPop db parent cluster = statPop db.stats parent cluster := rfl
        rw [hsd]
        omega
    · intro N _ hmem hdead
      obtain ⟨hs, -⟩ := hstats N hdead cluster
      rw [hs, hwalkS N]
      have hnp : ¬(N = parent ∧ cluster = cluster) := by
        intro h
        exact hacyc (h.1 ▸ hmem)
      rw [if_neg hnp,
        if_pos (⟨hmem, rfl⟩ :
          N ∈ ancestorChain db.nodes (chainFuel db) parent ∧ cluster = cluster)]
      have hsd : storedSize db N cluster = statSize db.stats N cluster := rfl
      rw [hsd]
      omega

theorem C6_witness :
    (node_purge_children pcPreDB 50 1 100 0).1
      = (pcPreDB.versions.filter (purgeChildMatch pcPreDB.nodes 1 100 0)).map
          (fun v => v.hash)
    ∧ storedSize (node_purge_children pcPreDB 50 1 100 0).2 1 0
      = storedSize pcPreDB 1 0
        - ((pcPreDB.versions.filter (purgeChildMatch pcPreDB.nodes 1 100 0)).map
            (fun v => v.size)).sum := by
  have h := C6_purge_children pcPreDB 50 1 100 0
    (by unfold ChainsNodup; decide) (by decide)
  exact ⟨h.1, (h.2.1 (by decide) (by decide)).1⟩

theorem C6_counterexample :
    (node_purge_children purge6DB 50 1 100 0).1 = ["hb"]
    ∧ (∃ r ∈ purge6DB.nodes, r.node = 3 ∧ r.parent = 2)
    ∧ (∀ r ∈ (node_purge_children purge6DB 50 1 100 0).2.nodes, r.node ≠ 2)
    ∧ (∃ v ∈ purge6DB.versions, v.serial = 2 ∧ v.node = 3
        ∧ ¬(purgeChildMatch purge6DB.nodes 1 100 0 v = true))
    ∧ (∀ v ∈ (node_purge_children purge6DB 50 1 100 0).2.versions, v.serial ≠ 2) := by
  refine ⟨by decide, ⟨⟨3, 2, [97, 47, 98, 47, 99]⟩, by decide, by decide⟩,
    by decide, ⟨⟨2, 3, "hc", 7, none, 10, "u", 0⟩, by decide, by decide⟩, by decide⟩

end VT
